import Mathlib

/-!
# AAAchat: the conversation relay of `server/routes/chat.js`

A shallow embedding of `chooseApiKey` and of the handler of
`POST /conversations/:id/send`, of the registration of `server/routes/auth.js`
and of `PlanChatEditor.parseCommand` of `client/js/plan_chat.js`, followed by
the properties proved about them.

JavaScript strings are lists of UTF-16 code units (`Str`).  What the handler
obtains from its runtime (`JSON.parse`, the string conversion of a non-string
value, the file system, base64) is collected in `Host`.  The variable
`clientClosed` is set by the `close` callback that line 292 attaches to the
request: the callback can only run while the handler is suspended at an
`await`, so every suspension point that follows line 292 carries a flag telling
whether the callback ran during it.  When the request emits `close` is decided
by the runtime and not by the handler: `nodeRun` gives the runs of the runtime
that the handler needs, where the event precedes the listener.
-/

/-- The UTF-16 code units of a text, the content of the JavaScript string
literal of that text: a character of the basic plane is one code unit, its
code, and a character outside it is the two surrogates of its code. -/
def String.units (s : String) : List Nat :=
  s.data.flatMap (fun c =>
    if c.toNat < 0x10000 then [c.toNat]
    else [0xD800 + (c.toNat - 0x10000) / 0x400, 0xDC00 + (c.toNat - 0x10000) % 0x400])

namespace AAAchat

/-! ## Strings -/

/-- UTF-16 code unit: a number below `2 ^ 16`. -/
abbrev CodeUnit := Nat

/-- JavaScript string: the list of its UTF-16 code units, the elements that
`length`, `slice` and `split('')` count.  A character outside the basic plane
is two elements, and a surrogate may stand alone. -/
abbrev Str := List CodeUnit

/-- Worker of `jsSplit`: `skip` counts the code units of a matched separator
still to be consumed, `cur` is the current piece, reversed. -/
def jsSplitAux (sep : Str) : Str → Nat → Str → List Str
  | [], _, cur => [cur.reverse]
  | _ :: rest, skip + 1, cur => jsSplitAux sep rest skip cur
  | c :: rest, 0, cur =>
      if sep.isPrefixOf (c :: rest) then cur.reverse :: jsSplitAux sep rest (sep.length - 1) []
      else jsSplitAux sep rest 0 (c :: cur)

/-- `s.split(sep)` for a non-empty separator string: the pieces between the
occurrences of `sep`, found left to right without overlap. -/
def jsSplit (sep s : Str) : List Str := jsSplitAux sep s 0 []

/-- White space and line terminators, the code units removed by `trim()`. -/
def isTrimChar (c : CodeUnit) : Bool :=
  let n := c
  n = 0x09 || n = 0x0A || n = 0x0B || n = 0x0C || n = 0x0D || n = 0x20 || n = 0xA0 ||
  n = 0x1680 || (0x2000 ≤ n && n ≤ 0x200A) || n = 0x2028 || n = 0x2029 || n = 0x202F ||
  n = 0x205F || n = 0x3000 || n = 0xFEFF

/-- `s.trim()`. -/
def jsTrim (s : Str) : Str :=
  ((s.dropWhile isTrimChar).reverse.dropWhile isTrimChar).reverse

/-- `s.replace(/[<>]/g, '')`: the code units 60 (`<`) and 62 (`>`) are
removed. -/
def stripAngle (s : Str) : Str := s.filter (fun c => !(c = 60 || c = 62))

/-- `xs.join(sep)` on an array of strings. -/
def jsJoin (sep : Str) : List Str → Str
  | [] => []
  | [x] => x
  | x :: y :: rest => x ++ sep ++ jsJoin sep (y :: rest)

/-! ## JavaScript values -/

/-- JavaScript number: a finite value, an infinity or NaN. -/
inductive JsNum where
  | nan
  | inf (negative : Bool)
  | fin (q : ℚ)
  deriving DecidableEq

/-- Value produced by `JSON.parse`; an object is the list of its own
properties, one entry per key. -/
inductive Json where
  | null
  | bool (b : Bool)
  | num (n : JsNum)
  | str (s : Str)
  | arr (xs : List Json)
  | obj (kvs : List (Str × Json))

/-- Truthiness of a number: `0` and `NaN` are falsy. -/
def JsNum.truthy : JsNum → Bool
  | .nan => false
  | .inf _ => true
  | .fin q => decide (q ≠ 0)

/-- Truthiness of a value. -/
def Json.truthy : Json → Bool
  | .null => false
  | .bool b => b
  | .num n => n.truthy
  | .str s => !s.isEmpty
  | .arr _ => true
  | .obj _ => true

/-- Value of the own property `key` in a property list. -/
def lookupKey (key : Str) : List (Str × Json) → Option Json
  | [] => none
  | (k, v) :: rest => if k = key then some v else lookupKey key rest

/-- Property read `v.key` for a key that is not an index and not `length`:
`none` is `undefined`.  Only an object has such a property. -/
def Json.member (v : Json) (key : Str) : Option Json :=
  match v with
  | .obj kvs => lookupKey key kvs
  | _ => none

/-- Property read `v[0]`: the first element of an array, the first code unit
of a string, the property `"0"` (code unit 48) of an object. -/
def Json.index0 (v : Json) : Option Json :=
  match v with
  | .arr xs => xs.head?
  | .str s => s.head?.map (fun c => Json.str [c])
  | .obj kvs => lookupKey [48] kvs
  | _ => none

/-- Evaluation of `a && b` where `b` reads a property of `a`: the value of `a`
when it is falsy (`none` is `undefined`), otherwise the value of `b`. -/
def jsAnd (a : Option Json) (b : Json → Option Json) : Option Json :=
  match a with
  | none => none
  | some x => if x.truthy then b x else some x

/-- What the handler obtains from the JavaScript runtime and the machine. -/
structure Host where
  /-- Result of `JSON.parse`, `none` when it throws. -/
  jsonParse : Str → Option Json
  /-- String conversion of a value that is not a string. -/
  coerce : Json → Str
  /-- Result of `fs.promises.readFile` on a file of the upload directory, given
  by its base name, already rendered in base64; `none` when the read fails. -/
  readBase64 : Str → Option Str
  /-- Result of `path.basename`. -/
  basename : Str → Str
  /-- Result of `s.toLowerCase()`. -/
  lower : Str → Str
  /-- Result of `Number(s)` on a string. -/
  stringToNumber : Str → JsNum
  /-- Comparison of two strings by the collation of the `provider` column. -/
  sqlEq : Str → Str → Bool
  /-- Value of `process.env.DEEPSEEK_ENABLE_VISION`. -/
  envVision : Option Str
  /-- Value of `process.env.DEEPSEEK_BASE_URL`. -/
  envBaseUrl : Option Str

/-- String conversion applied by `text += v`. -/
def Host.toStr (host : Host) : Json → Str
  | .str s => s
  | v => host.coerce v

/-! ## The event-stream branch -/

/-- What `res.write` sends to the caller: `data: {"delta": token}` or the
terminal `event: done`. -/
inductive Event where
  | delta (token : Json)
  | done

/-- Expression
`obj && obj.choices && obj.choices[0] && obj.choices[0].delta && obj.choices[0].delta.content`. -/
def tokenExpr (obj : Option Json) : Option Json :=
  jsAnd (jsAnd (jsAnd (jsAnd obj (fun o => o.member "choices".units)) (fun c => c.index0))
    (fun c0 => c0.member "delta".units)) (fun d => d.member "content".units)

/-- Body of the loop over the `data:` lines of a frame, for one line: the
token it carries, `none` when the line is skipped (`continue`) or when the
token is falsy. -/
def lineToken (host : Host) (line : Str) : Option Json :=
  let d := jsTrim (line.drop 5)
  if d.isEmpty || d == "[DONE]".units then none
  else
    let obj : Option Json := match host.jsonParse d with
      | some o => some o
      | none => some Json.null
    match tokenExpr obj with
    | some t => if t.truthy then some t else none
    | none => none

/-- Lines of a frame that start with `data:`. -/
def dataLines (fr : Str) : List Str :=
  (jsSplit "\n".units fr).filter (fun l => "data:".units.isPrefixOf l)

/-- Tokens of one frame, in line order. -/
def frameTokens (host : Host) (fr : Str) : List Json :=
  (dataLines fr).filterMap (lineToken host)

/-- State of a relay: the variable `clientClosed`, the accumulated reply, the
decode buffer and the events written to the caller so far. -/
structure Relay where
  clientClosed : Bool
  finalText : Str
  buffer : Str
  out : List Event

/-- Start of a relay. -/
def Relay.init : Relay := ⟨false, [], [], []⟩

/-- Effect of one token: it is appended to the reply, and written to the
caller unless `clientClosed` is set. -/
def Relay.token (host : Host) (st : Relay) (t : Json) : Relay :=
  { st with
    finalText := st.finalText ++ host.toStr t
    out := if st.clientClosed then st.out else st.out ++ [Event.delta t] }

/-- Effect of the frames of one read, in order. -/
def Relay.frames (host : Host) (st : Relay) (frames : List Str) : Relay :=
  frames.foldl (fun s fr => (frameTokens host fr).foldl (Relay.token host) s) st

/-- One upstream read: the decoded text of the chunk and whether the `close`
callback of line 292 ran while the handler awaited it. -/
structure Read where
  chunk : Str
  closedDuring : Bool

/-- Processing of a chunk that was read: it is appended to the buffer, the
buffer is split at blank lines, the last piece stays in the buffer and the
others are processed as frames. -/
def Relay.chunk (host : Host) (st : Relay) (chunk : Str) : Relay :=
  let pieces := jsSplit "\n\n".units (st.buffer ++ chunk)
  Relay.frames host { st with buffer := pieces.getLast?.getD [] } pieces.dropLast

/-- The read loop: `reads` are the chunks the upstream delivers before its
stream ends, `endClosed` tells whether the `close` callback ran while the
handler awaited the read that reported the end. -/
def streamLoop (host : Host) : List Read → Bool → Relay → Relay
  | [], endClosed, st =>
      if st.clientClosed then st else { st with clientClosed := endClosed }
  | r :: rs, endClosed, st =>
      if st.clientClosed then st
      else streamLoop host rs endClosed
        (Relay.chunk host { st with clientClosed := r.closedDuring } r.chunk)

/-! ## Upstream messages and their size -/

/-- One part of a multi-part content: `{type:'text', text}` or
`{type:'image_url', image_url:{url, detail?}}`. -/
inductive Part where
  | text (t : Str)
  | imageUrl (url : Str) (detail : Option Str)
  deriving DecidableEq

/-- Content of an upstream message: a string or an array of parts. -/
inductive Content where
  | text (s : Str)
  | parts (ps : List Part)
  deriving DecidableEq

/-- Upstream message `{role, content}`. -/
structure Message where
  role : Str
  content : Content
  deriving DecidableEq

/-- Lower-case hexadecimal digit. -/
def hexDigit (n : Nat) : CodeUnit :=
  if n < 10 then 48 + n else 87 + n

/-- `\uXXXX`, the escape of a code unit with four lower-case hexadecimal
digits. -/
def unicodeEscape (c : CodeUnit) : Str :=
  "\\u".units ++
    [hexDigit (c / 4096 % 16), hexDigit (c / 256 % 16), hexDigit (c / 16 % 16), hexDigit (c % 16)]

/-- Whether a code unit is a surrogate, and of which half. -/
def isHighSurrogate (c : CodeUnit) : Bool := 0xD800 ≤ c && c ≤ 0xDBFF

/-- Whether a code unit is a low surrogate. -/
def isLowSurrogate (c : CodeUnit) : Bool := 0xDC00 ≤ c && c ≤ 0xDFFF

/-- Rendering inside a JSON string literal of one code unit that is not part of
a surrogate pair: the short escapes of backspace (8), tab (9), line feed (10),
form feed (12), carriage return (13), quotation mark (34) and backslash (92),
`\uXXXX` for the other control codes and for a surrogate that stands alone,
the code unit itself otherwise. -/
def quoteChar (c : CodeUnit) : Str :=
  if c = 8 then "\\b".units
  else if c = 9 then "\\t".units
  else if c = 10 then "\\n".units
  else if c = 12 then "\\f".units
  else if c = 13 then "\\r".units
  else if c = 34 then "\\\"".units
  else if c = 92 then "\\\\".units
  else if c < 0x20 || isHighSurrogate c || isLowSurrogate c then unicodeEscape c
  else [c]

/-- Rendering of the code units of a string inside a JSON string literal: a
high surrogate followed by a low one is a character and is kept, every other
code unit is rendered by `quoteChar`. -/
def quoteUnits : Str → Str
  | [] => []
  | [c] => quoteChar c
  | c :: d :: rest =>
      if isHighSurrogate c && isLowSurrogate d then c :: d :: quoteUnits rest
      else quoteChar c ++ quoteUnits (d :: rest)

/-- `JSON.stringify(s)` for a string: the rendering of its code units between
two quotation marks (34). -/
def quoteJSON (s : Str) : Str :=
  34 :: (quoteUnits s ++ [34])

/-- `JSON.stringify` of one part. -/
def Part.stringify : Part → Str
  | .text t => "\x7b\"type\":\"text\",\"text\":".units ++ quoteJSON t ++ "\x7d".units
  | .imageUrl url none =>
      "\x7b\"type\":\"image_url\",\"image_url\":\x7b\"url\":".units ++ quoteJSON url ++
        "\x7d\x7d".units
  | .imageUrl url (some d) =>
      "\x7b\"type\":\"image_url\",\"image_url\":\x7b\"url\":".units ++ quoteJSON url ++
        ",\"detail\":".units ++ quoteJSON d ++ "\x7d\x7d".units

/-- `JSON.stringify` of an array of parts. -/
def stringifyParts (ps : List Part) : Str :=
  "[".units ++ jsJoin ",".units (ps.map Part.stringify) ++ "]".units

/-- Size charged to a message by the trimming step:
`typeof m.content === 'string' ? m.content.length : JSON.stringify(m.content).length`. -/
def Content.size : Content → Nat
  | .text s => s.length
  | .parts ps => (stringifyParts ps).length

/-- Total size of a list of messages. -/
def totalSize (ms : List Message) : Nat := (ms.map (fun m => m.content.size)).sum

/-! ## Context trimming -/

/-- The loop of the trimming step: `pending` are the messages not yet visited,
newest first, `total` the size kept so far and `keep` the messages kept so far,
in the order they were pushed. -/
def trimLoop (maxCtx : ℚ) : List Message → Nat → List Message → List Message
  | [], _, keep => keep
  | m :: older, total, keep =>
      let len := m.content.size
      if (((total + len : Nat) : ℚ) > maxCtx) && keep.length != 0 then keep
      else trimLoop maxCtx older (total + len) (keep ++ [m])

/-- The trimming step on the value `maxCtx` computed from
`params.context_length` (`none` is `null`): it runs when `maxCtx` is truthy,
finite and positive. -/
def trimContext (maxCtx : Option JsNum) (msgs : List Message) : List Message :=
  match maxCtx with
  | some (.fin q) =>
      if q ≠ 0 ∧ q > 0 then (trimLoop q msgs.reverse 0 []).reverse else msgs
  | _ => msgs

/-- `Number(v)`. -/
def Host.toNumber (host : Host) : Json → JsNum
  | .num n => n
  | .null => .fin 0
  | .bool b => .fin (if b then 1 else 0)
  | v => host.stringToNumber (host.toStr v)

/-- `params.context_length ? Number(params.context_length) : null`. -/
def maxCtxOf (host : Host) (context_length : Option Json) : Option JsNum :=
  match context_length with
  | some v => if v.truthy then some (host.toNumber v) else none
  | none => none

/-! ## Attachments -/

/-- Lower-case form of an ASCII capital letter (65 to 90), other code units
unchanged. -/
def asciiLower (c : CodeUnit) : CodeUnit :=
  if 65 ≤ c ∧ c ≤ 90 then c + 32 else c

/-- Test of a regular expression `/^p/i` for a pattern `p` of lower-case ASCII
letters and punctuation. -/
def startsWithCI (p s : Str) : Bool :=
  p.length ≤ s.length && (s.take p.length).map asciiLower == p

/-- `/^data:image\//i.test(u) || /^https?:\/\//i.test(u)`. -/
def isDirectUrl (u : Str) : Bool :=
  startsWithCI "data:image/".units u ||
    (startsWithCI "http://".units u || startsWithCI "https://".units u)

/-- MIME type chosen from the extension of a file name. -/
def mimeOf (host : Host) (name : Str) : Str :=
  let ext := host.lower ((jsSplit ".".units name).getLast?.getD [])
  if ext = "png".units then "image/png".units
  else if ext = "jpg".units ∨ ext = "jpeg".units then "image/jpeg".units
  else if ext = "webp".units then "image/webp".units
  else if ext = "gif".units then "image/gif".units
  else "application/octet-stream".units

/-- `toDataUrlImage`: the image part built from one attachment, `none` when the
local file cannot be read. -/
def toDataUrlImage (host : Host) (detail : Option Str) (u : Str) : Option Part :=
  if isDirectUrl u then some (.imageUrl u detail)
  else
    let name := host.basename u
    match host.readBase64 name with
    | some b64 =>
        some (.imageUrl ("data:".units ++ mimeOf host name ++ ";base64,".units ++ b64) detail)
    | none => none

/-! ## The request -/

/-- The `params` object of a request body; an absent field is `none` or
`false`.  The fields have the types the client sends: the ids are numbers, the
provider and the image quality are strings; the fields converted by `Number`
are arbitrary values. -/
structure Params where
  /-- Whether `params.send_images === true`. -/
  send_images : Bool := false
  image_quality : Option Str := none
  context_length : Option Json := none
  provider : Option Str := none
  /-- Truthiness of `params.use_shared`. -/
  use_shared : Bool := false
  key_id : Option Nat := none
  shared_key_id : Option Nat := none
  /-- Truthiness of `params.stream`. -/
  stream : Bool := false
  temperature : Option Json := none
  top_p : Option Json := none
  max_tokens : Option Json := none
  n : Option Json := none
  frequency_penalty : Option Json := none
  presence_penalty : Option Json := none
  effort_level : Option Json := none

/-- The body of `POST /conversations/:id/send`; `images` is the list of the
attachment locators, empty when the field is absent or not an array. -/
structure Body where
  /-- The field `content` when it is a string. -/
  content : Option Str
  model : Option Str := none
  params : Params := {}
  images : List Str := []

/-- `(params.image_quality && params.image_quality !== 'auto') ? { detail } : {}`. -/
def detailOpt (params : Params) : Option Str :=
  match params.image_quality with
  | some q => if !q.isEmpty && q != "auto".units then some q else none
  | none => none

/-- Whether the multimodal expansion runs (the condition of line 198). -/
def visionOn (host : Host) (params : Params) (images : List Str) (msgs : List Message) : Bool :=
  params.send_images &&
    (host.envVision == some "1".units || host.envVision == some "true".units) &&
    decide (images.length > 0) && decide (msgs.length > 0)

/-- Multimodal expansion: the content of the last message is replaced by the
text part followed by the image parts that could be built. -/
def expandLast (host : Host) (params : Params) (clean : Str) (images : List Str)
    (msgs : List Message) : List Message :=
  if visionOn host params images msgs then
    let modelImages := images.filterMap (toDataUrlImage host (detailOpt params))
    msgs.dropLast ++ [⟨"user".units, .parts (Part.text clean :: modelImages)⟩]
  else msgs

/-! ## The store -/

/-- Row of `conversations` (the table of `migrate_conversations.js`), with the
columns the handler reads. -/
structure ConvRow where
  id : Nat
  user_id : Nat

/-- Modelled from the spec: the schema file `docs/schema.sql` is not among the
sources.  A row of `chat_messages` has the columns the queries of `chat.js`
read (`conversation_id`, `role`, `content`), the content being a text as in the
data model of the specification. -/
structure MsgRow where
  conversation_id : Option Nat
  role : Str
  content : Str

/-- The stored turn as a role and content pair (line 197). -/
def MsgRow.toMessage (r : MsgRow) : Message := ⟨r.role, .text r.content⟩

/-- Modelled from the spec: the schema file `docs/schema.sql` is not among the
sources.  A row of `api_keys` has the columns the queries of `chooseApiKey`
read, typed as in the data model of the specification and in
`migrate_shared_keys.js`. -/
structure KeyRow where
  id : Nat
  user_id : Nat
  provider : Str
  api_key : Str
  config_json : Option Str
  is_shared : Bool
  created_at : Nat
  deriving DecidableEq

/-- The tables read by the handler; `messages` is in the order of `id`. -/
structure Db where
  conversations : List ConvRow
  messages : List MsgRow
  api_keys : List KeyRow

/-- A write issued by the handler. -/
inductive DbWrite where
  | insertMessage (user_id conversation_id : Nat) (role : Str) (content : Json)
  | touchConversation (id : Nat)

/-- `ORDER BY created_at DESC LIMIT 1`: a row with the greatest `created_at`
(the first such row of the list). -/
def newest : List KeyRow → Option KeyRow
  | [] => none
  | r :: rest =>
      match newest rest with
      | some b => if b.created_at > r.created_at then some b else some r
      | none => some r

/-- Truthiness of an id given in `params`. -/
def idGiven : Option Nat → Option Nat
  | some 0 => none
  | v => v

/-- `(provider || 'deepseek').toLowerCase()`, the first line of `chooseApiKey`. -/
def effectiveProvider (host : Host) (provider : Option Str) : Str :=
  host.lower (match provider with
    | some p => if p.isEmpty then "deepseek".units else p
    | none => "deepseek".units)

/-- `chooseApiKey`: the selected row, or the message of the error thrown. -/
def chooseApiKey (host : Host) (keys : List KeyRow) (userId : Nat) (provider : Option Str)
    (source : Str) (key_id shared_key_id : Option Nat) : Except Str KeyRow :=
  let provider := effectiveProvider host provider
  if source = "shared".units then
    match idGiven shared_key_id with
    | some sid =>
        match keys.filter (fun r => r.id == sid && r.is_shared &&
            host.sqlEq r.provider provider) with
        | [] => .error "Shared key not found".units
        | r :: _ => .ok r
    | none =>
        match newest (keys.filter (fun r => r.is_shared && host.sqlEq r.provider provider)) with
        | none => .error "No shared key available".units
        | some r => .ok r
  else
    match idGiven key_id with
    | some kid =>
        match keys.filter (fun r => r.id == kid && r.user_id == userId &&
            host.sqlEq r.provider provider) with
        | [] => .error "API key not found".units
        | r :: _ => .ok r
    | none =>
        match newest (keys.filter (fun r => r.user_id == userId &&
            host.sqlEq r.provider provider)) with
        | none => .error "No API key. Please add in profile.".units
        | some r => .ok r

/-! ## The upstream call -/

/-- The payload sent upstream. -/
structure Payload where
  model : Json
  messages : List Message
  stream : Bool
  temperature : Option JsNum
  top_p : Option JsNum
  max_tokens : Option JsNum
  n : Option JsNum
  frequency_penalty : Option JsNum
  presence_penalty : Option JsNum
  reasoning_effort : Option Str

/-- One call of `fetch`: the endpoint, the secret of the bearer header and the
payload. -/
structure Call where
  endpoint : Json
  api_key : Str
  payload : Payload

/-- `a || b` on possibly undefined values. -/
def jsOr (a : Option Json) (b : Json) : Json :=
  match a with
  | some x => if x.truthy then x else b
  | none => b

/-- The value of `cfg` after line 260: `{}` unless `config_json` is truthy and
parses. -/
def parseConfig (host : Host) (row : KeyRow) : Json :=
  match row.config_json with
  | some c => if c.isEmpty then .obj [] else (host.jsonParse c).getD (.obj [])
  | none => .obj []

/-- The payload built at lines 262 to 269. -/
def buildPayload (host : Host) (body : Body) (cfg : Json) (msgs : List Message) : Payload :=
  let params := body.params
  { model := jsOr (body.model.map Json.str)
      (jsOr (cfg.member "model".units) (.str "deepseek-chat".units))
    messages := msgs
    stream := params.stream
    temperature := params.temperature.map host.toNumber
    top_p := params.top_p.map host.toNumber
    max_tokens := params.max_tokens.map host.toNumber
    n := params.n.map host.toNumber
    frequency_penalty := params.frequency_penalty.map host.toNumber
    presence_penalty := params.presence_penalty.map host.toNumber
    reasoning_effort := match params.effort_level with
      | some (.str e) => if e.isEmpty then none else some e
      | _ => none }

/-- The endpoint chosen at line 261. -/
def endpointOf (host : Host) (cfg : Json) : Json :=
  jsOr (cfg.member "base_url".units)
    (jsOr (host.envBaseUrl.map Json.str) (.str "https://api.deepseek.com/chat/completions".units))

/-- Answer of the upstream to the call: `fetch` rejects, or a response that is
not ok with its status and body text, or an ok response with its
`content-type` header and its body, delivered as a sequence of reads. -/
inductive Upstream where
  | failed
  | error (status : Nat) (text : Str)
  | ok (contentType : Option Str) (reads : List Read) (endClosed : Bool)

/-- What happens outside the handler during one request: the answer of the
upstream, and whether the `close` callback ran while the handler awaited the
insertion of the assistant turn or the update of the conversation. -/
structure Run where
  upstream : Upstream
  closedDuringInsert : Bool := false
  closedDuringTouch : Bool := false

/-- How the handler answers, apart from the events it streams. -/
inductive Reply where
  /-- Answer `res.status(status).json({ error, detail })`. -/
  | error (status : Nat) (error : Str) (detail : Option Str)
  /-- Answer `res.json({ reply, choices, raw })`. -/
  | json (reply : Json) (choices : List Json) (raw : Option Json)
  /-- Call of `res.end()` after the terminal event. -/
  | ended
  /-- The handler returned without completing the response. -/
  | silent

/-- Everything observable of one run of the handler, each list in the order of
occurrence. -/
structure Outcome where
  writes : List DbWrite
  calls : List Call
  events : List Event
  reply : Reply

/-- `s.includes(needle)`. -/
def jsIncludes (needle s : Str) : Bool :=
  s.tails.any (fun t => needle.isPrefixOf t)

/-- `(c && c.message && c.message.content) || ''`. -/
def choiceText (c : Json) : Json :=
  jsOr (jsAnd (jsAnd (some c) (fun x => x.member "message".units))
    (fun m => m.member "content".units)) (.str [])

/-- The array `choices` of line 327. -/
def choicesOf (data : Json) : List Json :=
  match jsAnd (some data) (fun d => d.member "choices".units) with
  | some (.arr cs) => cs.map choiceText
  | _ => []

/-- Lines 345 to 365: the assistant turn is saved unless `clientClosed` is
set, then the streamed response is completed unless the flag is set. -/
def finish (userId convId : Nat) (run : Run) (stream : Bool) (closed : Bool)
    (finalText : Json) (writes : List DbWrite) (calls : List Call) (events : List Event) :
    Outcome :=
  let saved : List DbWrite := if closed then [] else
    [.insertMessage userId convId "assistant".units finalText, .touchConversation convId]
  let closed := if closed then true else run.closedDuringInsert || run.closedDuringTouch
  if stream then
    if closed then ⟨writes ++ saved, calls, events, .silent⟩
    else ⟨writes ++ saved, calls, events ++ [Event.done], .ended⟩
  else
    if closed then ⟨writes ++ saved, calls, events, .silent⟩
    else ⟨writes ++ saved, calls, events, .json finalText [finalText] none⟩

/-- Lines 281 to 365: the consumption of an ok response. -/
def relay (host : Host) (userId convId : Nat) (run : Run) (stream : Bool)
    (contentType : Option Str) (reads : List Read) (endClosed : Bool)
    (writes : List DbWrite) (calls : List Call) : Outcome :=
  let upstreamType := contentType.getD []
  if stream && jsIncludes "text/event-stream".units upstreamType then
    let st := streamLoop host reads endClosed Relay.init
    finish userId convId run stream st.clientClosed (.str st.finalText) writes calls st.out
  else
    let closed := reads.any (fun r => r.closedDuring) || endClosed
    match host.jsonParse (reads.map (fun r => r.chunk)).flatten with
    | none => ⟨writes, calls, [], .error 500 "Server error".units none⟩
    | some data =>
        let choices := choicesOf data
        let finalText := jsOr choices.head? (.str [])
        if stream then
          match finalText with
          | .str s =>
              let events := if closed then [] else s.map (fun ch => Event.delta (.str [ch]))
              finish userId convId run stream closed finalText writes calls events
          | _ => ⟨writes, calls, [], .error 500 "Server error".units none⟩
        else
          let inserted := (if choices.length != 0 then choices else [finalText]).map
            (fun ch => DbWrite.insertMessage userId convId "assistant".units ch)
          ⟨writes ++ inserted ++ [.touchConversation convId], calls, [],
            .json finalText choices (some data)⟩

/-! ## The handler -/

/-- The text recorded for the user turn (line 189). -/
def displayContent (clean : Str) (images : List Str) : Str :=
  clean ++ (if images.length != 0
    then " [附图: ".units ++ jsJoin ", ".units images ++ "]".units else [])

/-- The upstream messages after expansion and trimming (lines 197 to 245),
from the rows read back from the store. -/
def assemble (host : Host) (body : Body) (clean : Str) (rows : List MsgRow) : List Message :=
  let messagesUpstream := rows.map MsgRow.toMessage
  trimContext (maxCtxOf host body.params.context_length)
    (expandLast host body.params clean body.images messagesUpstream)

/-- Rows of a conversation read back after the user turn was inserted. -/
def rowsAfterInsert (db : Db) (convId : Nat) (shown : Str) : List MsgRow :=
  db.messages.filter (fun r => r.conversation_id == some convId) ++
    [⟨some convId, "user".units, shown⟩]

/-- The provider named by the request (line 248):
`params.provider ? String(params.provider).toLowerCase() : 'deepseek'`. -/
def requestProvider (host : Host) (params : Params) : Str :=
  match params.provider with
  | some p => if p.isEmpty then "deepseek".units else host.lower p
  | none => "deepseek".units

/-- The text `clean` of line 182. -/
def cleanOf (body : Body) : Str :=
  match body.content with
  | some c => stripAngle c
  | none => []

/-- The insertion of the user turn (lines 190 to 193). -/
def userInsert (userId convId : Nat) (body : Body) : DbWrite :=
  .insertMessage userId convId "user".units
    (.str (displayContent (cleanOf body) body.images))

/-- Lines 271 to 365: what the handler does with the answer of the upstream. -/
def consume (host : Host) (userId convId : Nat) (run : Run) (stream : Bool)
    (writes : List DbWrite) (calls : List Call) : Outcome :=
  match run.upstream with
  | .failed => ⟨writes, calls, [], .error 500 "Server error".units none⟩
  | .error _ text => ⟨writes, calls, [], .error 502 "Upstream error".units (some text)⟩
  | .ok contentType reads endClosed =>
      relay host userId convId run stream contentType reads endClosed writes calls

/-- Lines 180 to 269: the handler up to the upstream call.  Either it answers
at once (`error`), or it has inserted the user turn and issues a call (`ok`). -/
def prepare (host : Host) (db : Db) (userId convId : Nat) (body : Body) : Except Outcome Call :=
  let clean := cleanOf body
  if clean.isEmpty then .error ⟨[], [], [], .error 400 "content required".units none⟩
  else
    match db.conversations.filter (fun c => c.id == convId) with
    | [] => .error ⟨[], [], [], .error 404 "Not found".units none⟩
    | conv :: _ =>
      if conv.user_id != userId then .error ⟨[], [], [], .error 404 "Not found".units none⟩
      else
        let shown := displayContent clean body.images
        let writes := [userInsert userId convId body]
        let msgs := assemble host body clean (rowsAfterInsert db convId shown)
        let params := body.params
        match chooseApiKey host db.api_keys userId (some (requestProvider host params))
            (if params.use_shared then "shared".units else "user".units)
            params.key_id params.shared_key_id with
        | .error e =>
            .error ⟨writes, [], [],
              .error 400 (if e.isEmpty then "Key selection failed".units else e) none⟩
        | .ok apiRow =>
          match parseConfig host apiRow with
          | .null => .error ⟨writes, [], [], .error 500 "Server error".units none⟩
          | cfg => .ok ⟨endpointOf host cfg, apiRow.api_key, buildPayload host body cfg msgs⟩

/-- The handler of `POST /conversations/:id/send`, run by the user `userId` on
the conversation `convId`. -/
def send (host : Host) (db : Db) (userId convId : Nat) (body : Body) (run : Run) : Outcome :=
  match prepare host db userId convId body with
  | .error answered => answered
  | .ok call =>
      consume host userId convId run call.payload.stream [userInsert userId convId body] [call]

/-! ## Observations and reference definitions used in the statements -/

/-- Contents of the assistant turns inserted by a list of writes, in order. -/
def assistantInserts (ws : List DbWrite) : List Json :=
  ws.filterMap (fun w => match w with
    | .insertMessage _ _ role c => if role = "assistant".units then some c else none
    | .touchConversation _ => none)

/-- Whether a write updates a conversation. -/
def DbWrite.isTouch : DbWrite → Bool
  | .touchConversation _ => true
  | .insertMessage _ _ _ _ => false

/-- Whether an event is the terminal event. -/
def Event.isDone : Event → Bool
  | .done => true
  | .delta _ => false

/-- The payloads of the incremental events of a list of events, in order. -/
def deltaPayloads (es : List Event) : List Json :=
  es.filterMap (fun e => match e with
    | .delta t => some t
    | .done => none)

/-- Concatenation of values as strings, in order. -/
def concatText (host : Host) (ts : List Json) : Str := (ts.map host.toStr).flatten

/-- An upstream read during which the `close` callback does not run. -/
def Read.quiet (chunk : Str) : Read := ⟨chunk, false⟩

/-- The whole text delivered by a sequence of reads. -/
def textOf (reads : List Read) : Str := (reads.map (fun r => r.chunk)).flatten

/-- The separator of frames, a blank line. -/
abbrev NN : Str := "\n\n".units

/-- The fragments recognized in an upstream text: the tokens of its complete
frames, in order. -/
def streamTokens (host : Host) (text : Str) : List Json :=
  (jsSplit NN text).dropLast.flatMap (frameTokens host)

/-- The `message.content` of a completion choice, `none` when it is absent. -/
def messageContent (c : Json) : Option Json :=
  (c.member "message".units).bind (fun m => m.member "content".units)

/-- The text of a completion choice as the specification words it: its
`message.content`, or the empty string when that is absent or falsy. -/
def choiceContent (c : Json) : Json :=
  match messageContent c with
  | some v => if v.truthy then v else .str []
  | none => .str []

/-- Reference procedure of the trimming step, from the specification: drop the
oldest turn repeatedly until the total size is at most the budget or only one
turn remains. -/
def trimRef (budget : ℚ) : List Message → List Message
  | [] => []
  | [m] => [m]
  | m :: m' :: rest =>
      if (totalSize (m :: m' :: rest) : ℚ) ≤ budget then m :: m' :: rest
      else trimRef budget (m' :: rest)

/-- Characterization of the result `r` of trimming `msgs` to a budget: `r` is
a suffix of `msgs`, not empty when `msgs` is not, within the budget unless it
is a single turn, and the turn just before it does not fit with it. -/
def Trimmed (budget : ℚ) (msgs r : List Message) : Prop :=
  ∃ older, msgs = older ++ r ∧ (msgs ≠ [] → r ≠ []) ∧
    (r.length ≤ 1 ∨ (totalSize r : ℚ) ≤ budget) ∧
    ∀ m older', older = older' ++ [m] → ((totalSize r + m.content.size : Nat) : ℚ) > budget

/-- A completion with two choices, as text and as value. -/
def demoCompletionText : Str :=
  ("\x7b\"choices\":[\x7b\"message\":\x7b\"content\":\"Hi\"\x7d\x7d," ++
    "\x7b\"message\":\x7b\"content\":\"Yo\"\x7d\x7d]\x7d").units

/-- The value of `demoCompletionText`. -/
def demoCompletion : Json :=
  .obj [("choices".units, .arr
    [.obj [("message".units, .obj [("content".units, .str "Hi".units)])],
      .obj [("message".units, .obj [("content".units, .str "Yo".units)])]])]

/-- A JSON reader that recognizes the completion chunks
`{"choices":[{"delta":{"content":"..."}}]}` whose text has no escape, and a
completion `{"choices":[]}` with no choice, and `demoCompletionText`. -/
def demoParse (s : Str) : Option Json :=
  let pre := "\x7b\"choices\":[\x7b\"delta\":\x7b\"content\":\"".units
  let post := "\"\x7d\x7d]\x7d".units
  if pre.isPrefixOf s && post.isSuffixOf s && pre.length + post.length ≤ s.length then
    some (.obj [("choices".units, .arr [.obj [("delta".units,
      .obj [("content".units,
        .str ((s.drop pre.length).take (s.length - pre.length - post.length)))])]])])
  else if s = "\x7b\"choices\":[]\x7d".units then some (.obj [("choices".units, .arr [])])
  else if s = demoCompletionText then some demoCompletion
  else none

/-- A host used for the concrete runs: no file can be read, no environment
variable is set, strings are compared by equality. -/
def demoHost : Host where
  jsonParse := demoParse
  coerce := fun _ => []
  readBase64 := fun _ => none
  basename := fun s => s
  lower := fun s => s.map asciiLower
  stringToNumber := fun _ => .nan
  sqlEq := fun a b => a == b
  envVision := none
  envBaseUrl := none

/-- A store with one conversation, owned by user 7, without turns, and one
private credential of user 7. -/
def demoDb : Db :=
  ⟨[⟨1, 7⟩], [], [⟨1, 7, "deepseek".units, "sk-private".units, none, false, 10⟩]⟩

/-- A store with one conversation of user 7 and two credentials: a private one
of user 7 and a shared one of user 8. -/
def demoDbShared : Db :=
  ⟨[⟨1, 7⟩], [],
    [⟨1, 7, "deepseek".units, "sk-private".units, none, false, 10⟩,
      ⟨2, 8, "deepseek".units, "sk-shared".units, none, true, 20⟩]⟩

/-- An upstream event stream with the fragments `He` and `llo` followed by the
terminal sentinel. -/
def demoStream : Str :=
  ("data: \x7b\"choices\":[\x7b\"delta\":\x7b\"content\":\"He\"\x7d\x7d]\x7d\n\n" ++
    "data: \x7b\"choices\":[\x7b\"delta\":\x7b\"content\":\"llo\"\x7d\x7d]\x7d\n\n" ++
    "data: [DONE]\n\n").units

/-- Three turns of sizes 4, 2 and 1. -/
def demoTurns : List Message :=
  [⟨"user".units, .text "abcd".units⟩, ⟨"assistant".units, .text "ef".units⟩,
    ⟨"user".units, .text "g".units⟩]

/-- A request for the text `hello` with streaming. -/
def demoBodyStream : Body := { content := some "hello".units, params := { stream := true } }

/-- A request for the text `hello`, without streaming, attachment or budget. -/
def demoBodyPlain : Body := { content := some "hello".units }

/-- A request in the shared scope naming the credential 1, which is private. -/
def demoBodyShared : Body :=
  { content := some "hello".units, params := { use_shared := true, shared_key_id := some 1 } }

/-- A request in the shared scope with the shared credential id 0. -/
def demoBodySharedZero : Body :=
  { content := some "hello".units, params := { use_shared := true, shared_key_id := some 0 } }

/-- A request whose `context_length` is 0. -/
def demoBodyZero : Body :=
  { content := some "g".units, params := { context_length := some (.num (.fin 0)) } }

/-- The upstream answers with `demoStream` in one read and the `close`
callback does not run. -/
def demoRunStream : Run :=
  { upstream := .ok (some "text/event-stream".units) [Read.quiet demoStream] false }

/-- The upstream delivers the frame of `He`, then the `close` callback runs
while the next read is awaited. -/
def demoRunCut : Run :=
  { upstream := .ok (some "text/event-stream".units)
      [Read.quiet (demoStream.take 48), ⟨demoStream.drop 48, true⟩] false }

/-- The upstream answers with the completion `demoCompletionText`. -/
def demoRunJson : Run :=
  { upstream := .ok (some "application/json".units) [Read.quiet demoCompletionText] false }

/-- Three stored turns of sizes 4, 2 and 1. -/
def demoRows : List MsgRow :=
  [⟨some 1, "user".units, "abcd".units⟩, ⟨some 1, "assistant".units, "ef".units⟩,
    ⟨some 1, "user".units, "g".units⟩]

/-- The host `demoHost` with multimodal sending enabled. -/
def demoHostVision : Host := { demoHost with envVision := some "1".units }

/-- A store whose conversation 1, of user 7, has two stored turns. -/
def demoDbHistory : Db :=
  ⟨[⟨1, 7⟩],
    [⟨some 1, "user".units, "hi".units⟩, ⟨some 1, "assistant".units, "yo".units⟩],
    [⟨1, 7, "deepseek".units, "sk-private".units, none, false, 10⟩]⟩

/-- A request with one attachment to send to the model. -/
def demoBodyImage : Body :=
  { content := some "look".units, images := ["https://x/a.png".units],
    params := { send_images := true } }

/-- The text of the reply as the specification words it: the text of the first
completion choice of the upstream body, the empty string when the body has no
choice. -/
def replyOf (data : Json) : Json :=
  match data.member "choices".units with
  | some (.arr (c :: _)) => choiceContent c
  | _ => .str []

/-- The same reads with the `close` callback running during none. -/
def quietReads (reads : List Read) : List Read := reads.map (fun r => Read.quiet r.chunk)

/-- The upstream refuses the call with status 429. -/
def demoRunError429 : Run := { upstream := .error 429 "rate limited".units }

/-- The upstream refuses the call with status 500 and the same body. -/
def demoRunError500 : Run := { upstream := .error 500 "rate limited".units }

/-- The upstream answers with the completion `demoCompletionText` and the
`close` callback runs while the body is awaited. -/
def demoRunJsonClosed : Run :=
  { upstream := .ok (some "application/json".units) [⟨demoCompletionText, true⟩] false }

/-- Credentials of user 7 for one provider: a private one, and a more recent
one that user 7 has shared. -/
def demoKeysOwnShared : List KeyRow :=
  [⟨1, 7, "deepseek".units, "sk-private".units, none, false, 10⟩,
    ⟨3, 7, "deepseek".units, "sk-own-shared".units, none, true, 20⟩]

/-- Credentials of two users: two shared ones of user 8, created at 20 and 30,
and a private one of user 7. -/
def demoKeysPool : List KeyRow :=
  [⟨1, 7, "deepseek".units, "sk-private".units, none, false, 10⟩,
    ⟨2, 8, "deepseek".units, "sk-shared-old".units, none, true, 20⟩,
    ⟨4, 8, "deepseek".units, "sk-shared-new".units, none, true, 30⟩]

/-- The model configured in a credential, as the specification words it: the
`model` of its configuration when the configuration is present, is valid JSON
and has a truthy `model`. -/
def configuredModel (host : Host) (config_json : Option Str) : Option Json :=
  match config_json with
  | none => none
  | some c =>
      if c.isEmpty then none
      else match host.jsonParse c with
        | none => none
        | some cfg =>
            match cfg.member "model".units with
            | some v => if v.truthy then some v else none
            | none => none

/-- The model sent upstream, as the specification words it: the model of the
caller when one is given, otherwise the configured model of the credential,
otherwise `deepseek-chat`. -/
def modelRef (host : Host) (model : Option Str) (config_json : Option Str) : Json :=
  match model with
  | some m =>
      if m.isEmpty then (configuredModel host config_json).getD (.str "deepseek-chat".units)
      else .str m
  | none => (configuredModel host config_json).getD (.str "deepseek-chat".units)

/-- The optional numeric fields of a payload: temperature, top_p, max_tokens,
n, frequency_penalty, presence_penalty. -/
def Payload.numericFields (p : Payload) : List (Option JsNum) :=
  [p.temperature, p.top_p, p.max_tokens, p.n, p.frequency_penalty, p.presence_penalty]

/-- The same fields of the `params` of a request. -/
def Params.numericFields (p : Params) : List (Option Json) :=
  [p.temperature, p.top_p, p.max_tokens, p.n, p.frequency_penalty, p.presence_penalty]

/-- The parts that replace the content of the last turn when the multimodal
expansion runs (lines 223 to 229). -/
def expandedParts (host : Host) (body : Body) (clean : Str) : List Part :=
  Part.text clean :: body.images.filterMap (toDataUrlImage host (detailOpt body.params))

/-- The configuration text of `demoDbConfig`. -/
def demoConfigText : Str := "\x7b\"model\":\"m-config\"\x7d".units

/-- The host `demoHost`, reading also `demoConfigText`. -/
def demoHostConfig : Host :=
  { demoHost with
    jsonParse := fun s =>
      if s = demoConfigText then some (.obj [("model".units, .str "m-config".units)])
      else demoParse s }

/-- A store whose credential has the configuration `demoConfigText`. -/
def demoDbConfig : Db :=
  ⟨[⟨1, 7⟩], [],
    [⟨1, 7, "deepseek".units, "sk-private".units, some demoConfigText, false, 10⟩]⟩

/-- A request that supplies `temperature` and `n` and no other numeric field. -/
def demoBodyParams : Body :=
  { content := some "hello".units,
    params := { temperature := some (.num (.fin (1 / 2))), n := some (.num (.fin 2)) } }

/-- A request that names the model `m-caller`. -/
def demoBodyModel : Body := { content := some "hello".units, model := some "m-caller".units }

/-- The request `demoBodyImage` with a budget of 40. -/
def demoBodyImageBudget : Body :=
  { content := some "look".units, images := ["https://x/a.png".units],
    params := { send_images := true, context_length := some (.num (.fin 40)) } }

/-! ## Frames of an event stream and steps of a run -/

/-- Whether a text has no blank line, that is no two consecutive line feeds
(code unit 10). -/
def noBlankLine : Str → Bool
  | c :: d :: rest => !(c == 10 && d == 10) && noBlankLine (d :: rest)
  | _ => true

/-- A frame of an event stream, the text found between two blank lines: it has
no blank line and does not end with a line feed. -/
def isFrame (f : Str) : Bool := noBlankLine f && f.getLast? != some 10

/-- The upstream text made of the given frames, each terminated by a blank
line. -/
def framesText (frames : List Str) : Str := (frames.map (fun f => f ++ NN)).flatten

/-- Whether a line of a frame is the terminal sentinel `data: [DONE]`. -/
def isSentinel (line : Str) : Bool :=
  "data:".units.isPrefixOf line && jsTrim (line.drop 5) == "[DONE]".units

/-- The `choices[0].delta.content` of a decoded payload, `none` when a step of
the path is absent. -/
def deltaContent (obj : Json) : Option Json :=
  (((obj.member "choices".units).bind Json.index0).bind
    (fun c => c.member "delta".units)).bind (fun d => d.member "content".units)

/-- A data line whose payload is not valid JSON, or is JSON without a
non-empty `choices[0].delta.content` (a content that is absent or falsy). -/
def ignorableLine (host : Host) (line : Str) : Bool :=
  match host.jsonParse (jsTrim (line.drop 5)) with
  | none => true
  | some obj =>
      match deltaContent obj with
      | some v => !v.truthy
      | none => true

/-- A frame all of whose data lines are ignorable. -/
def ignorableFrame (host : Host) (fr : Str) : Bool := (dataLines fr).all (ignorableLine host)

/-- The extension of a file name: the text after its last dot (code unit 46),
the whole name when it has no dot. -/
def extensionOf (name : Str) : Str := (name.reverse.takeWhile (fun c => c != 46)).reverse

/-- A frame whose first line is the terminal sentinel and whose second line
carries the fragment `x`. -/
def demoFrameSentinel : Str :=
  "data: [DONE]\ndata: \x7b\"choices\":[\x7b\"delta\":\x7b\"content\":\"x\"\x7d\x7d]\x7d".units

/-- The upstream answers with an event stream made of `demoFrameSentinel`. -/
def demoRunSentinel : Run :=
  { upstream := .ok (some "text/event-stream".units)
      [Read.quiet (framesText [demoFrameSentinel])] false }

/-- The frame that carries the fragment `He`. -/
def demoFrameHe : Str :=
  "data: \x7b\"choices\":[\x7b\"delta\":\x7b\"content\":\"He\"\x7d\x7d]\x7d".units

/-- The frame that carries the fragment `llo`. -/
def demoFrameLlo : Str :=
  "data: \x7b\"choices\":[\x7b\"delta\":\x7b\"content\":\"llo\"\x7d\x7d]\x7d".units

/-- A frame whose payload is not JSON. -/
def demoFrameNoise : Str := "data: keep-alive".units

/-- A host with one readable upload, `uid-7-1-k-cat.PNG`; the base name of a
locator is what follows its last slash (code unit 47). -/
def demoHostFiles : Host :=
  { demoHost with
    basename := fun s => (s.reverse.takeWhile (fun c => c != 47)).reverse
    readBase64 := fun n => if n = "uid-7-1-k-cat.PNG".units then some "AAAA".units else none }

/-- A `context_length` that gives no budget: it is absent, or it converts to
zero, to a negative number, or to a value that is not a finite number. -/
def noBudget (host : Host) : Option Json → Bool
  | none => true
  | some v =>
      match host.toNumber v with
      | .fin q => decide (q ≤ 0)
      | _ => true

/-- A request whose `context_length` is negative. -/
def demoBodyNegative : Body :=
  { content := some "g".units, params := { context_length := some (.num (.fin (-5))) } }

/-- One observable step of a run of the handler: a write to the store, the
call of the upstream, or an event written to the caller. -/
inductive Step where
  | write (w : DbWrite)
  | call (c : Call)
  | emit (e : Event)

/-- The steps of lines 345 to 365, in the order they are taken: the assistant
turn and the update of the conversation unless `clientClosed` is set,
then the terminal event unless the flag is set. -/
def finishSteps (userId convId : Nat) (run : Run) (stream : Bool) (closed : Bool)
    (finalText : Json) : List Step :=
  let saved : List Step := if closed then [] else
    [.write (.insertMessage userId convId "assistant".units finalText),
      .write (.touchConversation convId)]
  let closed := if closed then true else run.closedDuringInsert || run.closedDuringTouch
  if stream then
    if closed then saved else saved ++ [.emit Event.done]
  else saved

/-- The steps of lines 281 to 365, in the order they are taken. -/
def relaySteps (host : Host) (userId convId : Nat) (run : Run) (stream : Bool)
    (contentType : Option Str) (reads : List Read) (endClosed : Bool) : List Step :=
  let upstreamType := contentType.getD []
  if stream && jsIncludes "text/event-stream".units upstreamType then
    let st := streamLoop host reads endClosed Relay.init
    st.out.map Step.emit ++
      finishSteps userId convId run stream st.clientClosed (.str st.finalText)
  else
    let closed := reads.any (fun r => r.closedDuring) || endClosed
    match host.jsonParse (reads.map (fun r => r.chunk)).flatten with
    | none => []
    | some data =>
        let choices := choicesOf data
        let finalText := jsOr choices.head? (.str [])
        if stream then
          match finalText with
          | .str s =>
              (if closed then [] else s.map (fun ch => Step.emit (.delta (.str [ch])))) ++
                finishSteps userId convId run stream closed finalText
          | _ => []
        else
          (if choices.length != 0 then choices else [finalText]).map
              (fun ch => Step.write (.insertMessage userId convId "assistant".units ch)) ++
            [.write (.touchConversation convId)]

/-- The steps of lines 271 to 365, in the order they are taken. -/
def consumeSteps (host : Host) (userId convId : Nat) (run : Run) (stream : Bool) : List Step :=
  match run.upstream with
  | .failed => []
  | .error _ _ => []
  | .ok contentType reads endClosed =>
      relaySteps host userId convId run stream contentType reads endClosed

/-- The steps of one run of the handler, in the order they are taken: the
writes made before an early answer, or the insertion of the user turn, the
call, and the steps that follow the answer of the upstream. -/
def sendSteps (host : Host) (db : Db) (userId convId : Nat) (body : Body) (run : Run) :
    List Step :=
  match prepare host db userId convId body with
  | .error answered => answered.writes.map Step.write
  | .ok call =>
      .write (userInsert userId convId body) :: .call call ::
        consumeSteps host userId convId run call.payload.stream

/-- The writes among a list of steps, in order. -/
def writesOf (steps : List Step) : List DbWrite :=
  steps.filterMap (fun s => match s with
    | .write w => some w
    | _ => none)

/-- The events among a list of steps, in order. -/
def eventsOf (steps : List Step) : List Event :=
  steps.filterMap (fun s => match s with
    | .emit e => some e
    | _ => none)

/-- Whether a step writes the terminal event. -/
def Step.isDone : Step → Bool
  | .emit e => e.isDone
  | _ => false

/-- Whether a step inserts an assistant turn. -/
def Step.isAssistantInsert : Step → Bool
  | .write (.insertMessage _ _ role _) => role == "assistant".units
  | _ => false

/-- The ownership check of line 186: the conversation exists and its owner is
the caller. -/
def ownsConversation (db : Db) (userId convId : Nat) : Bool :=
  match db.conversations.filter (fun c => c.id == convId) with
  | [] => false
  | conv :: _ => conv.user_id == userId

/-- A store whose only credential belongs to another user. -/
def demoDbNoKey : Db :=
  ⟨[⟨1, 7⟩], [], [⟨1, 8, "deepseek".units, "sk-other".units, none, false, 10⟩]⟩

/-! ## Regular expressions -/

/-- The texts of the capture groups 1 and 2 of a match; `none` is a group that
took no part in the match (`undefined`). -/
structure Caps where
  g1 : Option Str := none
  g2 : Option Str := none

/-- Records the text of a capture group. -/
def Caps.set (caps : Caps) (i : Nat) (s : Str) : Caps :=
  if i = 1 then { caps with g1 := some s } else { caps with g2 := some s }

/-- The regular expressions of `auth.js` and `plan_chat.js`: a code unit of a
class, a literal text, a sequence, an alternative, `a?`, `c*?` and `c{lo,hi}`
on a class `c` (`hi = none` is no upper bound), a capture group and `$`. -/
inductive Re where
  | unit (p : CodeUnit → Bool)
  | lit (s : Str)
  | seq (a b : Re)
  | alt (a b : Re)
  | opt (a : Re)
  | lazyMany (p : CodeUnit → Bool)
  | greedy (p : CodeUnit → Bool) (lo : Nat) (hi : Option Nat)
  | group (i : Nat) (a : Re)
  | eol

/-- Greedy repetition of a class: as many code units as possible first, then
fewer, between `lo` and `hi` of them; `k` is the rest of the match. -/
def greedyRun (p : CodeUnit → Bool) (k : Str → Caps → Option Caps) (caps : Caps) :
    Nat → Option Nat → Str → Option Caps
  | lo, _, [] => if lo = 0 then k [] caps else none
  | lo, hi, c :: rest =>
      if p c && hi != some 0 then
        match greedyRun p k caps (lo - 1) (hi.map (fun h => h - 1)) rest with
        | some r => some r
        | none => if lo = 0 then k (c :: rest) caps else none
      else if lo = 0 then k (c :: rest) caps else none

/-- Lazy repetition of a class: as few code units as possible first. -/
def lazyRun (p : CodeUnit → Bool) (k : Str → Caps → Option Caps) (caps : Caps) :
    Str → Option Caps
  | [] => k [] caps
  | c :: rest =>
      match k (c :: rest) caps with
      | some r => some r
      | none => if p c then lazyRun p k caps rest else none

/-- Backtracking match of a regular expression at the start of `s`, followed
by the rest of the match `k`; the alternatives are tried in the order of the
language: left before right, `a?` with `a` before without. -/
def Re.run : Re → Str → Caps → (Str → Caps → Option Caps) → Option Caps
  | .unit p, s, caps, k =>
      match s with
      | c :: rest => if p c then k rest caps else none
      | [] => none
  | .lit t, s, caps, k => if t.isPrefixOf s then k (s.drop t.length) caps else none
  | .seq a b, s, caps, k => a.run s caps (fun s' caps' => b.run s' caps' k)
  | .alt a b, s, caps, k =>
      match a.run s caps k with
      | some r => some r
      | none => b.run s caps k
  | .opt a, s, caps, k =>
      match a.run s caps k with
      | some r => some r
      | none => k s caps
  | .lazyMany p, s, caps, k => lazyRun p k caps s
  | .greedy p lo hi, s, caps, k => greedyRun p k caps lo hi s
  | .group i a, s, caps, k =>
      a.run s caps (fun s' caps' => k s' (caps'.set i (s.take (s.length - s'.length))))
  | .eol, s, caps, k => if s.isEmpty then k s caps else none

/-- Match of `^re` on `s`: the groups of the match, `none` when there is none. -/
def Re.matchStart (re : Re) (s : Str) : Option Caps := re.run s {} (fun _ caps => some caps)

/-- Result of `s.match(re)`: the groups of the leftmost match. -/
def Re.search (re : Re) : Str → Option Caps
  | [] => re.matchStart []
  | c :: rest =>
      match re.matchStart (c :: rest) with
      | some m => some m
      | none => Re.search re rest

/-- Sequence of several expressions. -/
def Re.cat : List Re → Re
  | [] => .lit []
  | [a] => a
  | a :: rest => .seq a (Re.cat rest)

/-- Alternative of several literal texts, `(?:a|b|c)`. -/
def Re.words : List String → Re
  | [] => .lit []
  | [a] => .lit a.units
  | a :: rest => .alt (.lit a.units) (Re.words rest)

/-- The class `\d`: the digits, 48 to 57. -/
def isDigitUnit (c : CodeUnit) : Bool := 48 ≤ c && c ≤ 57

/-- The class `\w`: the ASCII letters, the digits and `_` (95). -/
def isWordUnit (c : CodeUnit) : Bool :=
  (97 ≤ c && c ≤ 122) || (65 ≤ c && c ≤ 90) || isDigitUnit c || c = 95

/-- The class `.`: every code unit but the line terminators (10, 13, U+2028
and U+2029). -/
def isDotUnit (c : CodeUnit) : Bool :=
  !(c = 10 || c = 13 || c = 0x2028 || c = 0x2029)

/-! ## Registration (`auth.js`) -/

/-- The expression `/^\w{3,100}$/`, without its `^`. -/
def reAccount : Re := .seq (.greedy isWordUnit 3 (some 100)) .eol

/-- The expression `/^.+@.+\..+$/`, without its `^`. -/
def reEmail : Re :=
  Re.cat [.greedy isDotUnit 1 none, .lit "@".units, .greedy isDotUnit 1 none, .lit ".".units,
    .greedy isDotUnit 1 none, .eol]

/-- The fields that `POST /auth/register` reads in the body of a request;
`none` is an absent field. -/
structure RegisterBody where
  account : Option Json := none
  password : Option Json := none
  name : Option Json := none
  email : Option Json := none

/-- Modelled from the spec: the schema file `docs/schema.sql` is not among the
sources.  A row of `users` has the columns that the queries of `auth.js` name;
`email` is unique, as the comment of line 17 of `auth.js` states. -/
structure UserRow where
  id : Nat
  email : Str
  account : Str
  password_hash : Str
  name : Json
  role : Str

/-- A write issued by the registration. -/
inductive AuthWrite where
  | insertUser (email account password_hash : Str) (name : Json) (role : Str)
  | insertProfile (user_id : Nat)

/-- How the registration answers: `res.status(status).json({ error })` or
`res.json({ success: true })`. -/
inductive AuthReply where
  | error (status : Nat) (error : Str)
  | success

/-- What is observable of one registration. -/
structure AuthOutcome where
  writes : List AuthWrite
  reply : AuthReply

/-- Truthiness of a field of the body. -/
def fieldTruthy : Option Json → Bool
  | some v => v.truthy
  | none => false

/-- The handler of `POST /auth/register` (lines 20 to 65).  `hashSync` is
`bcrypt.hashSync(·, 10)`, `none` when it throws; `insertId` is the id that the
store gives to the new row. -/
def register (host : Host) (hashSync : Json → Option Str) (users : List UserRow)
    (insertId : Nat) (body : RegisterBody) : AuthOutcome :=
  if !fieldTruthy body.account || !fieldTruthy body.password then
    ⟨[], .error 400 "Account and password required".units⟩
  else
    let accountTrim := jsTrim (host.toStr (body.account.getD .null))
    if (reAccount.matchStart accountTrim).isNone then
      ⟨[], .error 400 "Invalid account format".units⟩
    else
      let emailToUse := match body.email with
        | some (.str e) =>
            if (jsTrim e).isEmpty then accountTrim ++ "@noemail.local".units else jsTrim e
        | _ => accountTrim ++ "@noemail.local".units
      if fieldTruthy body.email && (reEmail.matchStart emailToUse).isNone then
        ⟨[], .error 400 "Invalid email format".units⟩
      else if users.any (fun u => host.sqlEq u.account accountTrim) then
        ⟨[], .error 409 "Account already exists".units⟩
      else if fieldTruthy body.email && !emailToUse.isEmpty &&
          users.any (fun u => host.sqlEq u.email emailToUse) then
        ⟨[], .error 409 "Email already registered".units⟩
      else
        match hashSync (body.password.getD .null) with
        | none => ⟨[], .error 500 "Server error".units⟩
        | some hash =>
            if users.any (fun u => host.sqlEq u.email emailToUse) then
              ⟨[], .error 500 "Server error".units⟩
            else
              ⟨[.insertUser emailToUse accountTrim hash
                  (jsOr body.name (.str [])) "user".units,
                .insertProfile insertId], .success⟩

/-- The body sent by the registration test `tests/auth.test.js`: an email, a
password and a name, and no account. -/
def demoRegisterBody : RegisterBody :=
  { email := some (.str "test_1@example.com".units), password := some (.str "Test@123".units),
    name := some (.str "Tester".units) }

/-! ## The plan editor (`plan_chat.js`) -/

/-- A command parsed from an instruction: `{ type: 'done', index }`,
`{ type: 'undo', index }` or `{ type: 'update', field, index, value }`. -/
inductive Command where
  | done (index : JsNum)
  | undo (index : JsNum)
  | update (field : Str) (index : JsNum) (value : Str)

/-- The expression of line 84. -/
def reMarkDone : Re :=
  .alt
    (Re.cat [.opt (Re.words ["标记", "设置", "标注"]), .opt (.lit "第".units),
      .group 1 (.greedy isDigitUnit 1 none), .opt (.lit "步".units), .opt (.lit "为".units),
      .lit "完成".units])
    (Re.cat [.lit "完成".units, .opt (.lit "第".units), .group 2 (.greedy isDigitUnit 1 none),
      .opt (.lit "步".units)])

/-- The expression of line 91. -/
def reMarkUndo : Re :=
  .alt
    (Re.cat [Re.words ["取消", "移除"], .lazyMany isDotUnit, .opt (.lit "第".units),
      .group 1 (.greedy isDigitUnit 1 none), .opt (.lit "步".units), .lazyMany isDotUnit,
      Re.words ["完成", "已完成"]])
    (Re.cat [.lit "未完成".units, .opt (.lit "第".units), .group 2 (.greedy isDigitUnit 1 none),
      .opt (.lit "步".units)])

/-- The expressions of lines 98, 106, 114 and 122: a step number, one of the
`names` of a field, `改为` or `为`, and the new value, which is `value`. -/
def reUpdate (names : List String) (value : Re) : Re :=
  Re.cat [.opt (.lit "第".units), .group 1 (.greedy isDigitUnit 1 none), .opt (.lit "步".units),
    .lazyMany isDotUnit, Re.words names, .lazyMany isDotUnit, Re.words ["改为", "为"],
    .greedy isTrimChar 0 none, .group 2 value]

/-- The value `[0-9]{4}-[0-9]{2}-[0-9]{2}` of a date. -/
def reDate : Re :=
  Re.cat [.greedy isDigitUnit 4 (some 4), .lit "-".units, .greedy isDigitUnit 2 (some 2),
    .lit "-".units, .greedy isDigitUnit 2 (some 2)]

/-- The value of `Number(m[1] || m[2])` when it is finite. -/
def stepIndex (host : Host) (m : Caps) : Option JsNum :=
  let digits := match m.g1 with
    | some s => if s.isEmpty then m.g2 else some s
    | none => m.g2
  match digits with
  | some s =>
      match host.stringToNumber s with
      | .fin q => some (.fin q)
      | _ => none
  | none => none

/-- One of the four updates of `parseCommand`: the command when the expression
matches and the index is finite. -/
def parseUpdate (host : Host) (names : List String) (value : Re) (field : String) (t : Str) :
    Option Command :=
  match (reUpdate names value).search t with
  | some m =>
      match m.g1 with
      | some digits =>
          match host.stringToNumber digits with
          | .fin q => some (.update field.units (.fin q) (m.g2.getD []))
          | _ => none
      | none => none
  | none => none

/-- First result of a list of attempts. -/
def firstSome {α : Type} : List (Option α) → Option α
  | [] => none
  | some a :: _ => some a
  | none :: rest => firstSome rest

/-- `PlanChatEditor.parseCommand` (lines 80 to 130): the command parsed from an
instruction, `none` for `null`.  Line 81 removes the quotation marks U+201C
(8220), U+201D (8221), `"` (34) and the apostrophe (39). -/
def parseCommand (host : Host) (text : Str) : Option Command :=
  let t := jsTrim (text.filter (fun c =>
    !(c = 8220 || c = 8221 || c = 34 || c = 39)))
  firstSome [
    (reMarkDone.search t).bind (fun m => (stepIndex host m).map Command.done),
    (reMarkUndo.search t).bind (fun m => (stepIndex host m).map Command.undo),
    parseUpdate host ["截止日期", "截止", "到期日", "截止时间"] reDate "due_date" t,
    parseUpdate host ["标题", "名称", "题目"] (.greedy isDotUnit 1 none) "title" t,
    parseUpdate host ["描述", "说明", "细节"] (.greedy isDotUnit 1 none) "description" t,
    parseUpdate host ["负责人", "责任人", "执行人"] (.greedy isDotUnit 1 none) "owner" t]

/-- The value of a text of decimal digits. -/
def decimalValue (s : Str) : Nat := s.foldl (fun n c => 10 * n + (c - 48)) 0

/-- The host `demoHost`, reading also the texts of decimal digits as
numbers. -/
def demoHostDigits : Host :=
  { demoHost with
    stringToNumber := fun s =>
      if !s.isEmpty && s.all isDigitUnit then .fin (decimalValue s) else .nan }

/-! ## The runtime, the store and further concrete objects -/

/-- What the caller does with its connection during a request: it keeps it to
the end, or it drops it once it has received `received` events. -/
inductive Caller where
  | stays
  | leaves (received : Nat)

/-- The run of the handler on the runtime it needs (the global `fetch` of line
271 is that of Node 18 and later) when the upstream accepts the call and
delivers `chunks`.  On that runtime a request emits `close` once, when it has
been completed, which is when its body has been read.  The body is read by
`express.json()` (`index.js`, line 15) before the handler is called, and the
handler attaches its listener at line 292, after several awaits.  The event
therefore precedes the listener: the callback never runs and no flag of the
run is set, whatever the caller does with its connection. -/
def nodeRun (contentType : Option Str) (chunks : List Str) (_ : Caller) : Run :=
  { upstream := .ok contentType (chunks.map Read.quiet) false }

/-- Modelled from the spec: the store is an external collaborator (the
database server is not among the sources).  Appending a turn adds it at the
end of the log, with its conversation, its role and its content as a text;
touching a conversation changes no turn. -/
def DbWrite.apply (host : Host) (db : Db) : DbWrite → Db
  | .insertMessage _ conversation_id role content =>
      { db with messages := db.messages ++ [⟨some conversation_id, role, host.toStr content⟩] }
  | .touchConversation _ => db

/-- The history of a conversation: its turns, in insertion order. -/
def history (db : Db) (convId : Nat) : List MsgRow :=
  db.messages.filter (fun r => r.conversation_id == some convId)

/-- The history of a conversation once the writes of a run are applied to the
store. -/
def historyAfter (host : Host) (db : Db) (writes : List DbWrite) (convId : Nat) : List MsgRow :=
  history (writes.foldl (DbWrite.apply host) db) convId

/-- Credentials for two providers: for `openai` a private one of user 7 and a
shared one of user 8, and for `deepseek` more recent ones of both kinds. -/
def demoKeysProviders : List KeyRow :=
  [⟨1, 7, "deepseek".units, "sk-private".units, none, false, 30⟩,
    ⟨5, 7, "openai".units, "sk-openai".units, none, false, 10⟩,
    ⟨6, 8, "openai".units, "sk-openai-shared".units, none, true, 5⟩,
    ⟨2, 8, "deepseek".units, "sk-shared".units, none, true, 40⟩]

/-- A host whose `JSON.parse` answers every text with a completion whose only
choice is the emoji U+1F600. -/
def demoHostEmoji : Host :=
  { demoHost with
    jsonParse := fun _ => some (.obj [("choices".units, .arr
      [.obj [("message".units, .obj [("content".units, .str "😀".units)])]])]) }

/-- A request with one attachment to send to the model, a budget of 40, and a
text with a quotation mark and the emoji U+1F600. -/
def demoBodyQuote : Body :=
  { content := some "a\"😀".units, images := ["https://x/a.png".units],
    params := { send_images := true, context_length := some (.num (.fin 40)) } }

/-- Two turns: the emoji U+1F600 twice, four code units, and `g`. -/
def demoTurnsEmoji : List Message :=
  [⟨"assistant".units, .text "😀😀".units⟩, ⟨"user".units, .text "g".units⟩]

/-! ## Splitting at blank lines -/

theorem NN_eq : NN = [10, 10] := rfl

theorem user_ne_assistant : "user".units ≠ "assistant".units := by decide

theorem jsSplitAux_ne_nil (sep : Str) (s : Str) (skip : Nat) (cur : Str) :
    jsSplitAux sep s skip cur ≠ [] := by
  induction s generalizing skip cur with
  | nil => simp [jsSplitAux]
  | cons c rest ih =>
    cases skip with
    | zero =>
      simp only [jsSplitAux]
      split
      · simp
      · exact ih _ _
    | succ k => simpa [jsSplitAux] using ih k cur

theorem splitNN_step (c d : CodeUnit) (rest cur : Str) :
    jsSplitAux NN (c :: d :: rest) 0 cur =
      if c = 10 ∧ d = 10 then cur.reverse :: jsSplitAux NN rest 0 []
      else jsSplitAux NN (d :: rest) 0 (c :: cur) := by
  by_cases h : c = 10 ∧ d = 10
  · obtain ⟨rfl, rfl⟩ := h
    simp [jsSplitAux, NN_eq, List.isPrefixOf]
  · rw [if_neg h]
    have : List.isPrefixOf NN (c :: d :: rest) = false := by
      rw [NN_eq]
      simp only [List.isPrefixOf, Bool.and_true]
      simp only [Bool.and_eq_false_iff, beq_eq_false_iff_ne, ne_eq]
      by_cases hc : c = 10
      · right; intro hd; exact h ⟨hc, hd.symm ▸ rfl⟩
      · left; intro hc2; exact hc hc2.symm
    simp [jsSplitAux, this]

theorem splitNN_single (c : CodeUnit) (cur : Str) :
    jsSplitAux NN [c] 0 cur = [(c :: cur).reverse] := by
  simp [jsSplitAux, NN_eq, List.isPrefixOf]

theorem dropLast_cons_of_ne_nil {α : Type} (a : α) {l : List α} (h : l ≠ []) :
    (a :: l).dropLast = a :: l.dropLast := by
  cases l with
  | nil => exact absurd rfl h
  | cons b t => rfl

theorem getLast?_cons_of_ne_nil {α : Type} (a : α) {l : List α} (h : l ≠ []) :
    (a :: l).getLast? = l.getLast? := by
  cases l with
  | nil => exact absurd rfl h
  | cons b t => simp [List.getLast?_cons_cons]

/-- Splitting a text that arrives in two parts: the complete pieces of the
first part, then the pieces of what was left over followed by the second part. -/
theorem splitNN_append_aux (n : Nat) : ∀ (s cur t : Str), s.length ≤ n →
    jsSplitAux NN (cur.reverse ++ (s ++ t)) 0 [] = jsSplitAux NN (s ++ t) 0 cur →
    jsSplitAux NN (s ++ t) 0 cur =
      (jsSplitAux NN s 0 cur).dropLast ++
        jsSplitAux NN ((jsSplitAux NN s 0 cur).getLast?.getD [] ++ t) 0 [] := by
  induction n with
  | zero =>
    intro s cur t hn hinv
    have : s = [] := List.length_eq_zero.mp (Nat.le_zero.mp hn)
    subst this
    simpa [jsSplitAux] using hinv.symm
  | succ n ih =>
    intro s cur t hn hinv
    match s, hn, hinv with
    | [], _, hinv => simpa [jsSplitAux] using hinv.symm
    | [c], _, hinv =>
      rw [splitNN_single]
      simpa using hinv.symm
    | c :: d :: rest, hn, hinv =>
      have hlen : rest.length ≤ n := by simp at hn; omega
      have hlen2 : (d :: rest).length ≤ n := by simp at hn ⊢; omega
      simp only [List.cons_append] at hinv ⊢
      rw [splitNN_step, splitNN_step]
      by_cases h : c = 10 ∧ d = 10
      · rw [if_pos h, if_pos h]
        rw [dropLast_cons_of_ne_nil _ (jsSplitAux_ne_nil _ _ _ _),
          getLast?_cons_of_ne_nil _ (jsSplitAux_ne_nil _ _ _ _), List.cons_append]
        congr 1
        exact ih rest [] t hlen rfl
      · rw [if_neg h, if_neg h]
        have := ih (d :: rest) (c :: cur) t hlen2
        simp only [List.cons_append] at this
        apply this
        rw [splitNN_step, if_neg h] at hinv
        rw [← hinv]
        simp

theorem jsSplit_NN_append (s t : Str) :
    jsSplit NN (s ++ t) =
      (jsSplit NN s).dropLast ++ jsSplit NN ((jsSplit NN s).getLast?.getD [] ++ t) :=
  splitNN_append_aux s.length s [] t (Nat.le_refl _) rfl

theorem Relay.token_buffer (host : Host) (st : Relay) (t : Json) (b : Str) :
    Relay.token host { st with buffer := b } t = { Relay.token host st t with buffer := b } := rfl

theorem Relay.tokens_buffer (host : Host) (ts : List Json) (st : Relay) (b : Str) :
    ts.foldl (Relay.token host) { st with buffer := b } =
      { ts.foldl (Relay.token host) st with buffer := b } := by
  induction ts generalizing st with
  | nil => rfl
  | cons t ts ih => simp only [List.foldl_cons, Relay.token_buffer, ih]

theorem Relay.frames_buffer (host : Host) (fs : List Str) (st : Relay) (b : Str) :
    Relay.frames host { st with buffer := b } fs =
      { Relay.frames host st fs with buffer := b } := by
  induction fs generalizing st with
  | nil => rfl
  | cons f fs ih =>
    simp only [Relay.frames, List.foldl_cons, Relay.tokens_buffer] at ih ⊢
    exact ih _

theorem Relay.frames_append (host : Host) (fs gs : List Str) (st : Relay) :
    Relay.frames host st (fs ++ gs) = Relay.frames host (Relay.frames host st fs) gs := by
  simp [Relay.frames, List.foldl_append]

theorem Relay.chunk_eq (host : Host) (st : Relay) (chunk : Str) :
    Relay.chunk host st chunk =
      { Relay.frames host st (jsSplit NN (st.buffer ++ chunk)).dropLast with
        buffer := (jsSplit NN (st.buffer ++ chunk)).getLast?.getD [] } := by
  simp only [Relay.chunk]
  exact Relay.frames_buffer host _ st _

theorem Relay.chunk_chunk (host : Host) (st : Relay) (c₁ c₂ : Str) :
    Relay.chunk host (Relay.chunk host st c₁) c₂ = Relay.chunk host st (c₁ ++ c₂) := by
  have hne : jsSplit NN ((jsSplit NN (st.buffer ++ c₁)).getLast?.getD [] ++ c₂) ≠ [] :=
    jsSplitAux_ne_nil _ _ _ _
  rw [Relay.chunk_eq host st (c₁ ++ c₂), ← List.append_assoc, jsSplit_NN_append,
    List.dropLast_append_of_ne_nil _ hne, List.getLast?_append_of_ne_nil _ hne,
    Relay.frames_append, Relay.chunk_eq host (Relay.chunk host st c₁) c₂]
  rw [Relay.chunk_eq host st c₁]
  simp only [Relay.frames_buffer]

theorem Relay.token_closed (host : Host) (st : Relay) (t : Json) :
    (Relay.token host st t).clientClosed = st.clientClosed := rfl

theorem Relay.tokens_closed (host : Host) (ts : List Json) (st : Relay) :
    (ts.foldl (Relay.token host) st).clientClosed = st.clientClosed := by
  induction ts generalizing st with
  | nil => rfl
  | cons t ts ih => simp only [List.foldl_cons, ih, Relay.token_closed]

theorem Relay.frames_closed (host : Host) (fs : List Str) (st : Relay) :
    (Relay.frames host st fs).clientClosed = st.clientClosed := by
  induction fs generalizing st with
  | nil => rfl
  | cons f fs ih =>
    simp only [Relay.frames, List.foldl_cons] at ih ⊢
    rw [ih, Relay.tokens_closed]

theorem Relay.chunk_closed (host : Host) (st : Relay) (chunk : Str) :
    (Relay.chunk host st chunk).clientClosed = st.clientClosed := by
  rw [Relay.chunk_eq]
  exact Relay.frames_closed host _ st

/-- While the caller stays connected the loop processes the chunks one after
the other. -/
theorem streamLoop_quiet (host : Host) (chunks : List Str) (st : Relay)
    (h : st.clientClosed = false) :
    streamLoop host (chunks.map Read.quiet) false st = chunks.foldl (Relay.chunk host) st := by
  induction chunks generalizing st with
  | nil =>
    cases st
    simp_all [streamLoop]
  | cons c cs ih =>
    have hst : ({ st with clientClosed := false } : Relay) = st := by
      cases st
      simp_all
    simp only [List.map_cons, streamLoop, h, Read.quiet, List.foldl_cons, Bool.false_eq_true,
      if_false, hst]
    exact ih _ (by rw [Relay.chunk_closed]; exact h)

theorem foldl_chunk (host : Host) (cs : List Str) (st : Relay) (c : Str) :
    cs.foldl (Relay.chunk host) (Relay.chunk host st c) =
      Relay.chunk host st (c ++ cs.flatten) := by
  induction cs generalizing c with
  | nil => simp
  | cons d ds ih =>
    rw [List.foldl_cons, Relay.chunk_chunk, ih, List.flatten, List.append_assoc]

theorem decode_chunks (host : Host) (chunks : List Str) :
    streamLoop host (chunks.map Read.quiet) false Relay.init =
      streamLoop host [Read.quiet chunks.flatten] false Relay.init := by
  have h1 := streamLoop_quiet host chunks Relay.init rfl
  have h2 := streamLoop_quiet host [chunks.flatten] Relay.init rfl
  simp only [List.map_cons, List.map_nil] at h2
  rw [h1, h2]
  cases chunks with
  | nil => rfl
  | cons c cs => simp only [List.foldl_cons, List.foldl_nil, foldl_chunk, List.flatten]

/-! ## The read loop -/

theorem Relay.tokens_finalText (host : Host) (ts : List Json) (st : Relay) :
    (ts.foldl (Relay.token host) st).finalText = st.finalText ++ concatText host ts := by
  induction ts generalizing st with
  | nil => simp [concatText]
  | cons t ts ih =>
    rw [List.foldl_cons, ih]
    simp [Relay.token, concatText]

theorem Relay.tokens_out (host : Host) (ts : List Json) (st : Relay) :
    (ts.foldl (Relay.token host) st).out =
      if st.clientClosed then st.out else st.out ++ ts.map Event.delta := by
  induction ts generalizing st with
  | nil => simp
  | cons t ts ih =>
    rw [List.foldl_cons, ih]
    cases h : st.clientClosed <;> simp [Relay.token, h]

theorem Relay.frames_finalText (host : Host) (fs : List Str) (st : Relay) :
    (Relay.frames host st fs).finalText =
      st.finalText ++ concatText host (fs.flatMap (frameTokens host)) := by
  induction fs generalizing st with
  | nil => simp [Relay.frames, concatText]
  | cons f fs ih =>
    simp only [Relay.frames, List.foldl_cons] at ih ⊢
    rw [ih, Relay.tokens_finalText]
    simp [concatText]

theorem Relay.frames_out (host : Host) (fs : List Str) (st : Relay) :
    (Relay.frames host st fs).out =
      if st.clientClosed then st.out
      else st.out ++ (fs.flatMap (frameTokens host)).map Event.delta := by
  induction fs generalizing st with
  | nil => simp [Relay.frames]
  | cons f fs ih =>
    simp only [Relay.frames, List.foldl_cons] at ih ⊢
    rw [ih, Relay.tokens_out, Relay.tokens_closed]
    cases h : st.clientClosed <;> simp

/-- State of the loop after a text was read in one chunk while the caller
stayed connected. -/
theorem streamLoop_single (host : Host) (text : Str) :
    streamLoop host [Read.quiet text] false Relay.init =
      ⟨false, concatText host (streamTokens host text), (jsSplit NN text).getLast?.getD [],
        (streamTokens host text).map Event.delta⟩ := by
  have h := streamLoop_quiet host [text] Relay.init rfl
  simp only [List.map_cons, List.map_nil, List.foldl_cons, List.foldl_nil] at h
  rw [h, Relay.chunk_eq]
  have h1 := Relay.frames_finalText host (jsSplit NN text).dropLast Relay.init
  have h2 := Relay.frames_out host (jsSplit NN text).dropLast Relay.init
  have h3 := Relay.frames_closed host (jsSplit NN text).dropLast Relay.init
  simp only [Relay.init, List.nil_append, Bool.false_eq_true, if_false] at h1 h2 h3
  simp only [Relay.init, List.nil_append, streamTokens]
  rw [← h1, ← h2]
  generalize Relay.frames host ⟨false, [], [], []⟩ (jsSplit NN text).dropLast = r at h3 ⊢
  cases r
  simp_all

theorem reads_quiet (reads : List Read) (h : ∀ r ∈ reads, r.closedDuring = false) :
    reads = (reads.map (fun r => r.chunk)).map Read.quiet := by
  induction reads with
  | nil => rfl
  | cons r rs ih =>
    have hr : r = Read.quiet r.chunk := by
      have := h r (List.mem_cons_self _ _)
      cases r
      simp only [Read.quiet] at this ⊢
      rw [this]
    rw [List.map_cons, List.map_cons, ← hr, ← ih (fun x hx => h x (List.mem_cons_of_mem _ hx))]

/-- State of the loop after a stream during which the caller stayed connected. -/
theorem streamLoop_of_quiet (host : Host) (reads : List Read)
    (h : ∀ r ∈ reads, r.closedDuring = false) :
    streamLoop host reads false Relay.init =
      ⟨false, concatText host (streamTokens host (textOf reads)),
        (jsSplit NN (textOf reads)).getLast?.getD [],
        (streamTokens host (textOf reads)).map Event.delta⟩ := by
  have hq := reads_quiet reads h
  have : streamLoop host reads false Relay.init =
      streamLoop host ((reads.map (fun r => r.chunk)).map Read.quiet) false Relay.init :=
    congrArg (fun l => streamLoop host l false Relay.init) hq
  rw [this, decode_chunks, streamLoop_single]
  rfl

theorem streamLoop_closed (host : Host) (reads : List Read) (e : Bool) (st : Relay) :
    (streamLoop host reads e st).clientClosed =
      (st.clientClosed || (reads.any (fun r => r.closedDuring) || e)) := by
  induction reads generalizing st with
  | nil => cases h : st.clientClosed <;> simp [streamLoop, h]
  | cons r rs ih =>
    cases h : st.clientClosed
    · simp only [streamLoop, h, Bool.false_eq_true, if_false, ih, Relay.chunk_closed,
        List.any_cons, Bool.false_or, Bool.or_assoc]
    · simp [streamLoop, h]

theorem Relay.chunk_out_deltas (host : Host) (st : Relay) (chunk : Str)
    (h : ∀ e ∈ st.out, e.isDone = false) :
    ∀ e ∈ (Relay.chunk host st chunk).out, e.isDone = false := by
  rw [Relay.chunk_eq]
  simp only [Relay.frames_out]
  intro e he
  split at he
  · exact h e he
  · rcases List.mem_append.mp he with he | he
    · exact h e he
    · obtain ⟨t, _, rfl⟩ := List.mem_map.mp he
      rfl

theorem streamLoop_out_deltas (host : Host) (reads : List Read) (e : Bool) (st : Relay)
    (h : ∀ ev ∈ st.out, ev.isDone = false) :
    ∀ ev ∈ (streamLoop host reads e st).out, ev.isDone = false := by
  induction reads generalizing st with
  | nil =>
    cases hc : st.clientClosed <;> simpa [streamLoop, hc] using h
  | cons r rs ih =>
    cases hc : st.clientClosed
    · simp only [streamLoop, hc, Bool.false_eq_true, if_false]
      exact ih _ (Relay.chunk_out_deltas host _ _ h)
    · simpa [streamLoop, hc] using h

/-! ## The stages of the handler -/

/-- What `prepare` returns: an error answer that issued no call and wrote at
most the user turn, or a call built from the assembled messages. -/
theorem prepare_cases (host : Host) (db : Db) (userId convId : Nat) (body : Body) :
    (∃ ws status msg, (ws = [] ∨ ws = [userInsert userId convId body]) ∧
        prepare host db userId convId body = .error ⟨ws, [], [], .error status msg none⟩) ∨
    (∃ call : Call, call.payload.stream = body.params.stream ∧
        call.payload.messages = assemble host body (cleanOf body)
          (rowsAfterInsert db convId (displayContent (cleanOf body) body.images)) ∧
        prepare host db userId convId body = .ok call) := by
  unfold prepare
  simp only []
  split
  · exact Or.inl ⟨_, _, _, Or.inl rfl, rfl⟩
  · split
    · exact Or.inl ⟨_, _, _, Or.inl rfl, rfl⟩
    · split
      · exact Or.inl ⟨_, _, _, Or.inl rfl, rfl⟩
      · split
        · exact Or.inl ⟨_, _, _, Or.inr rfl, rfl⟩
        · split
          · exact Or.inl ⟨_, _, _, Or.inr rfl, rfl⟩
          · exact Or.inr ⟨_, rfl, rfl, rfl⟩

theorem send_cases (host : Host) (db : Db) (userId convId : Nat) (body : Body) (run : Run) :
    (∃ ws status msg, (ws = [] ∨ ws = [userInsert userId convId body]) ∧
        send host db userId convId body run = ⟨ws, [], [], .error status msg none⟩) ∨
    (∃ call : Call, call.payload.stream = body.params.stream ∧
        call.payload.messages = assemble host body (cleanOf body)
          (rowsAfterInsert db convId (displayContent (cleanOf body) body.images)) ∧
        send host db userId convId body run =
          consume host userId convId run body.params.stream [userInsert userId convId body]
            [call]) := by
  unfold send
  rcases prepare_cases host db userId convId body with
    ⟨ws, st, m, hws, heq⟩ | ⟨call, h1, h2, heq⟩
  · rw [heq]
    exact Or.inl ⟨ws, st, m, hws, rfl⟩
  · rw [heq]
    exact Or.inr ⟨call, h1, h2, by simp only [h1]⟩

theorem finish_calls (userId convId : Nat) (run : Run) (stream closed : Bool) (t : Json)
    (ws : List DbWrite) (cs : List Call) (es : List Event) :
    (finish userId convId run stream closed t ws cs es).calls = cs := by
  cases stream <;> cases closed <;> cases h1 : run.closedDuringInsert <;>
    cases h2 : run.closedDuringTouch <;> simp [finish, h1, h2]

theorem relay_calls (host : Host) (userId convId : Nat) (run : Run) (stream : Bool)
    (ct : Option Str) (reads : List Read) (e : Bool) (ws : List DbWrite) (cs : List Call) :
    (relay host userId convId run stream ct reads e ws cs).calls = cs := by
  unfold relay
  simp only []
  split
  · exact finish_calls ..
  · split
    · rfl
    · split
      · split
        · exact finish_calls ..
        · rfl
      · rfl

theorem consume_calls (host : Host) (userId convId : Nat) (run : Run) (stream : Bool)
    (ws : List DbWrite) (cs : List Call) :
    (consume host userId convId run stream ws cs).calls = cs := by
  unfold consume
  split
  · rfl
  · rfl
  · exact relay_calls ..

/-- When the handler issued a call, it went on with the answer of the upstream. -/
theorem send_called (host : Host) (db : Db) (userId convId : Nat) (body : Body) (run : Run)
    (h : (send host db userId convId body run).calls ≠ []) :
    ∃ call : Call, call.payload.stream = body.params.stream ∧
        call.payload.messages = assemble host body (cleanOf body)
          (rowsAfterInsert db convId (displayContent (cleanOf body) body.images)) ∧
        send host db userId convId body run =
          consume host userId convId run body.params.stream [userInsert userId convId body]
            [call] := by
  rcases send_cases host db userId convId body run with ⟨ws, st, m, _, heq⟩ | h2
  · rw [heq] at h
    exact absurd rfl h
  · exact h2

theorem relay_sse (host : Host) (userId convId : Nat) (run : Run)
    (ct : Option Str) (reads : List Read) (e : Bool) (ws : List DbWrite) (cs : List Call)
    (hsse : jsIncludes "text/event-stream".units (ct.getD []) = true) :
    relay host userId convId run true ct reads e ws cs =
      finish userId convId run true (streamLoop host reads e Relay.init).clientClosed
        (.str (streamLoop host reads e Relay.init).finalText) ws cs
        (streamLoop host reads e Relay.init).out := by
  unfold relay
  simp only [Bool.true_and, hsse, if_true]

theorem deltaPayloads_map (ts : List Json) : deltaPayloads (ts.map Event.delta) = ts := by
  induction ts with
  | nil => rfl
  | cons t ts ih => simpa [deltaPayloads] using ih

theorem deltaPayloads_append (es fs : List Event) :
    deltaPayloads (es ++ fs) = deltaPayloads es ++ deltaPayloads fs := by
  simp [deltaPayloads, List.filterMap_append]

theorem assistantInserts_user (userId convId : Nat) (body : Body) (ws : List DbWrite) :
    assistantInserts (userInsert userId convId body :: ws) = assistantInserts ws := by
  simp [assistantInserts, userInsert, user_ne_assistant, List.filterMap_cons]

/-- Outcome of a request whose upstream answered with an event stream, read to
its end while the caller stayed connected. -/
theorem consume_sse_quiet (host : Host) (userId convId : Nat) (run : Run)
    (ct : Option Str) (reads : List Read) (ws : List DbWrite) (cs : List Call)
    (hup : run.upstream = .ok ct reads false)
    (hsse : jsIncludes "text/event-stream".units (ct.getD []) = true)
    (hquiet : ∀ r ∈ reads, r.closedDuring = false) :
    consume host userId convId run true ws cs =
      finish userId convId run true false
        (.str (concatText host (streamTokens host (textOf reads)))) ws cs
        ((streamTokens host (textOf reads)).map Event.delta) := by
  unfold consume
  rw [hup]
  simp only []
  rw [relay_sse host userId convId run ct reads false ws cs hsse,
    streamLoop_of_quiet host reads hquiet]

theorem deltaPayloads_done : deltaPayloads [Event.done] = [] := rfl

theorem finish_open (userId convId : Nat) (run : Run) (stream : Bool) (t : Json)
    (ws : List DbWrite) (cs : List Call) (es : List Event) :
    (finish userId convId run stream false t ws cs es).writes =
      ws ++ [.insertMessage userId convId "assistant".units t, .touchConversation convId] ∧
    ((finish userId convId run stream false t ws cs es).events = es ∨
      (finish userId convId run stream false t ws cs es).events = es ++ [Event.done]) := by
  cases stream <;> cases h1 : run.closedDuringInsert <;>
    cases h2 : run.closedDuringTouch <;> simp [finish, h1, h2]

theorem finish_closed (userId convId : Nat) (run : Run) (stream : Bool) (t : Json)
    (ws : List DbWrite) (cs : List Call) (es : List Event) :
    finish userId convId run stream true t ws cs es = ⟨ws, cs, es, .silent⟩ := by
  cases stream <;> simp [finish]

/-- When the caller disconnected during the stream, the outcome of the relay
is the writes it started from and the events of the loop. -/
theorem relay_closed (host : Host) (userId convId : Nat) (run : Run)
    (ct : Option Str) (reads : List Read) (e : Bool) (ws : List DbWrite) (cs : List Call)
    (hclosed : (reads.any (fun r => r.closedDuring) || e) = true) :
    (relay host userId convId run true ct reads e ws cs).writes = ws ∧
      (relay host userId convId run true ct reads e ws cs).events.any Event.isDone = false := by
  unfold relay
  simp only [Bool.true_and, hclosed, if_true]
  split
  · have hc : (streamLoop host reads e Relay.init).clientClosed = true := by
      rw [streamLoop_closed]
      simpa [Relay.init] using hclosed
    rw [hc, finish_closed]
    refine ⟨rfl, ?_⟩
    have := streamLoop_out_deltas host reads e Relay.init (by simp [Relay.init])
    simpa using this
  · split
    · exact ⟨rfl, rfl⟩
    · split
      · rw [finish_closed]
        exact ⟨rfl, rfl⟩
      · exact ⟨rfl, rfl⟩

theorem textOf_quiet (chunks : List Str) : textOf (chunks.map Read.quiet) = chunks.flatten := by
  simp [textOf, Read.quiet, Function.comp_def]

theorem any_quiet (chunks : List Str) :
    (chunks.map Read.quiet).any (fun r => r.closedDuring) = false := by
  simp [Read.quiet]

theorem relay_chunks (host : Host) (userId convId : Nat) (run : Run) (stream : Bool)
    (ct : Option Str) (chunks : List Str) (ws : List DbWrite) (cs : List Call) :
    relay host userId convId run stream ct (chunks.map Read.quiet) false ws cs =
      relay host userId convId run stream ct [Read.quiet chunks.flatten] false ws cs := by
  unfold relay
  have h1 : ((chunks.map Read.quiet).map (fun r => r.chunk)).flatten =
      (([Read.quiet chunks.flatten]).map (fun r => r.chunk)).flatten := by
    simp [Read.quiet, Function.comp_def]
  have h2 : (chunks.map Read.quiet).any (fun r => r.closedDuring) =
      ([Read.quiet chunks.flatten]).any (fun r => r.closedDuring) := by
    simp [Read.quiet]
  rw [decode_chunks, h1, h2]

/-! ## Context trimming -/

theorem totalSize_nil : totalSize [] = 0 := rfl

theorem totalSize_cons (m : Message) (ms : List Message) :
    totalSize (m :: ms) = m.content.size + totalSize ms := by
  simp [totalSize]

theorem totalSize_append (xs ys : List Message) :
    totalSize (xs ++ ys) = totalSize xs + totalSize ys := by
  simp [totalSize]

theorem totalSize_reverse (xs : List Message) : totalSize xs.reverse = totalSize xs := by
  rw [totalSize, List.map_reverse, List.sum_reverse]
  rfl

theorem trimLoop_cons (q : ℚ) (m : Message) (older : List Message) (total : Nat)
    (keep : List Message) :
    trimLoop q (m :: older) total keep =
      if (((total + m.content.size : Nat) : ℚ) > q) ∧ keep ≠ [] then keep
      else trimLoop q older (total + m.content.size) (keep ++ [m]) := by
  have hc : ((decide (((total + m.content.size : Nat) : ℚ) > q) && (keep.length != 0)) = true) ↔
      ((((total + m.content.size : Nat) : ℚ) > q) ∧ keep ≠ []) := by
    rw [Bool.and_eq_true, decide_eq_true_iff, bne_iff_ne, ne_eq, List.length_eq_zero]
  rw [trimLoop]
  exact if_congr hc rfl rfl

/-- What the loop of the trimming step returns: the messages kept so far
followed by a prefix of the pending ones, within the budget unless it is a
single message, and stopped only by a message that does not fit. -/
theorem trimLoop_spec (q : ℚ) : ∀ (pending : List Message) (total : Nat) (keep : List Message),
    total = totalSize keep → (keep.length ≤ 1 ∨ (totalSize keep : ℚ) ≤ q) →
    ∃ taken rest, pending = taken ++ rest ∧ trimLoop q pending total keep = keep ++ taken ∧
      (keep = [] → pending ≠ [] → taken ≠ []) ∧
      ((keep ++ taken).length ≤ 1 ∨ (totalSize (keep ++ taken) : ℚ) ≤ q) ∧
      (∀ m rest', rest = m :: rest' →
        ((totalSize (keep ++ taken) + m.content.size : Nat) : ℚ) > q) := by
  intro pending
  induction pending with
  | nil =>
    intro total keep _ hinv
    exact ⟨[], [], rfl, by simp [trimLoop], fun _ h => absurd rfl h, by simpa using hinv,
      fun m r h => by cases h⟩
  | cons m older ih =>
    intro total keep htot hinv
    by_cases hbreak : (((total + m.content.size : Nat) : ℚ) > q) ∧ keep ≠ []
    · refine ⟨[], m :: older, rfl, ?_, ?_, by simpa using hinv, ?_⟩
      · rw [trimLoop_cons, if_pos hbreak, List.append_nil]
      · intro h
        exact absurd h hbreak.2
      · intro m' r h
        cases h
        simpa [htot] using hbreak.1
    · have hstep : trimLoop q (m :: older) total keep =
          trimLoop q older (total + m.content.size) (keep ++ [m]) := by
        rw [trimLoop_cons, if_neg hbreak]
      have hinv' : (keep ++ [m]).length ≤ 1 ∨ (totalSize (keep ++ [m]) : ℚ) ≤ q := by
        by_cases hk : keep = []
        · left
          simp [hk]
        · right
          have h1 : ¬ (((total + m.content.size : Nat) : ℚ) > q) := fun h => hbreak ⟨h, hk⟩
          rw [totalSize_append, totalSize_cons, totalSize_nil, ← htot, Nat.add_zero]
          exact not_lt.mp h1
      have htot' : total + m.content.size = totalSize (keep ++ [m]) := by
        rw [totalSize_append, totalSize_cons, totalSize_nil, ← htot, Nat.add_zero]
      obtain ⟨taken, rest, hp, hres, -, hfit, hmax⟩ := ih (total + m.content.size) (keep ++ [m])
        htot' hinv'
      refine ⟨m :: taken, rest, by rw [hp]; rfl, ?_, fun _ _ => by simp, ?_, ?_⟩
      · rw [hstep, hres]
        simp
      · simpa using hfit
      · intro m' r h
        simpa using hmax m' r h

theorem trimContext_pos (q : ℚ) (hq : 0 < q) (msgs : List Message) :
    trimContext (some (.fin q)) msgs = (trimLoop q msgs.reverse 0 []).reverse := by
  simp only [trimContext]
  rw [if_pos ⟨ne_of_gt hq, hq⟩]

theorem trimLoop_trimmed (q : ℚ) (msgs : List Message) :
    Trimmed q msgs (trimLoop q msgs.reverse 0 []).reverse := by
  obtain ⟨taken, rest, hp, hres, hne, hfit, hmax⟩ :=
    trimLoop_spec q msgs.reverse 0 [] rfl (Or.inl (by simp))
  simp only [List.nil_append] at hres hfit hmax
  rw [hres]
  have hmsgs : msgs = rest.reverse ++ taken.reverse := by
    have := congrArg List.reverse hp
    simpa using this
  refine ⟨rest.reverse, hmsgs, ?_, ?_, ?_⟩
  · intro h
    have h1 : msgs.reverse ≠ [] := by simpa using h
    simpa using hne rfl h1
  · simpa [totalSize_reverse] using hfit
  · intro m older' h
    have hrest : rest = m :: older'.reverse := by
      have := congrArg List.reverse h
      simpa using this
    simpa [totalSize_reverse] using hmax m _ hrest

theorem trimRef_trimmed (q : ℚ) : ∀ msgs : List Message, Trimmed q msgs (trimRef q msgs)
  | [] => ⟨[], rfl, fun h => absurd rfl h, Or.inl (by simp [trimRef]),
      fun m o h => by simp at h⟩
  | [m] => ⟨[], rfl, fun _ => by simp [trimRef], Or.inl (by simp [trimRef]),
      fun m o h => by simp at h⟩
  | m :: m' :: rest => by
    by_cases h : (totalSize (m :: m' :: rest) : ℚ) ≤ q
    · simp only [trimRef, if_pos h]
      exact ⟨[], rfl, fun _ => by simp, Or.inr h, fun m o h => by simp at h⟩
    · simp only [trimRef, if_neg h]
      obtain ⟨older, hm, hne, hfit, hmax⟩ := trimRef_trimmed q (m' :: rest)
      refine ⟨m :: older, by rw [List.cons_append, ← hm], fun _ => hne (by simp), hfit, ?_⟩
      intro x older' hx
      cases older' with
      | nil =>
        simp only [List.nil_append, List.cons.injEq] at hx
        obtain ⟨rfl, rfl⟩ := hx
        rw [List.nil_append] at hm
        rw [← hm]
        have : totalSize (m' :: rest) + m.content.size = totalSize (m :: m' :: rest) := by
          rw [totalSize_cons m, Nat.add_comm]
        rw [this]
        exact not_le.mp h
      | cons y ys =>
        simp only [List.cons_append, List.cons.injEq] at hx
        exact hmax x ys hx.2

/-- A suffix that extends a trimmed result by at least one turn exceeds the
budget. -/
theorem Trimmed.extend {q : ℚ} {r : List Message} {older : List Message}
    (hmax : ∀ m older', older = older' ++ [m] →
      ((totalSize r + m.content.size : Nat) : ℚ) > q)
    (t a : List Message) (ha : a ≠ []) (hold : older = t ++ a) :
    (totalSize (a ++ r) : ℚ) > q := by
  obtain ⟨a', m, rfl⟩ : ∃ a' m, a = a' ++ [m] := by
    rcases List.eq_nil_or_concat a with h | ⟨a', m, h⟩
    · exact absurd h ha
    · exact ⟨a', m, by simpa using h⟩
  have h1 := hmax m (t ++ a') (by rw [hold, List.append_assoc])
  have h2 : totalSize r + m.content.size ≤ totalSize (a' ++ [m] ++ r) := by
    rw [totalSize_append, totalSize_append, totalSize_cons, totalSize_nil]
    omega
  have h3 : ((totalSize r + m.content.size : Nat) : ℚ) ≤
      (totalSize (a' ++ [m] ++ r) : ℚ) := by
    exact_mod_cast h2
  exact lt_of_lt_of_le h1 h3

theorem Trimmed.longest {q : ℚ} {msgs r : List Message} (h : Trimmed q msgs r)
    (s : List Message) (hs : s <:+ msgs) (hfit : (totalSize s : ℚ) ≤ q) :
    s.length ≤ r.length := by
  obtain ⟨older, hm, -, -, hmax⟩ := h
  obtain ⟨t, ht⟩ := hs
  by_contra hlen
  rw [hm] at ht
  rcases List.append_eq_append_iff.mp ht with ⟨a, ha, hsa⟩ | ⟨c, hc, hrc⟩
  · have hne : a ≠ [] := by
      rintro rfl
      simp [hsa] at hlen
    have := Trimmed.extend hmax t a hne ha
    rw [← hsa] at this
    exact absurd hfit (not_le.mpr this)
  · apply hlen
    rw [hrc]
    simp

theorem Trimmed.unique {q : ℚ} {msgs r₁ r₂ : List Message} (h₁ : Trimmed q msgs r₁)
    (h₂ : Trimmed q msgs r₂) : r₁ = r₂ := by
  have key : ∀ {ra rb : List Message},
      ∀ oa ob a, msgs = oa ++ ra → msgs = ob ++ rb → ob = oa ++ a → ra = a ++ rb →
      (∀ m older', ob = older' ++ [m] → ((totalSize rb + m.content.size : Nat) : ℚ) > q) →
      (ra.length ≤ 1 ∨ (totalSize ra : ℚ) ≤ q) → (msgs ≠ [] → rb ≠ []) →
      ra = rb := by
    intro ra rb oa ob a hma hmb hob hra hmax hfit hne
    by_cases ha : a = []
    · simpa [ha] using hra
    · have hbig := Trimmed.extend hmax oa a ha hob
      rw [← hra] at hbig
      rcases hfit with hlen | hfit
      · have hrb : rb = [] := by
          have : a.length + rb.length ≤ 1 := by simpa [hra] using hlen
          have ha' : 0 < a.length := List.length_pos.mpr ha
          exact List.length_eq_zero.mp (by omega)
        have : msgs ≠ [] := by
          rw [hma, hra]
          simp [ha]
        exact absurd hrb (hne this)
      · exact absurd hfit (not_le.mpr hbig)
  obtain ⟨o1, hm1, hne1, hfit1, hmax1⟩ := h₁
  obtain ⟨o2, hm2, hne2, hfit2, hmax2⟩ := h₂
  have heq : o1 ++ r₁ = o2 ++ r₂ := by rw [← hm1, ← hm2]
  rcases List.append_eq_append_iff.mp heq with ⟨a, ha, hra⟩ | ⟨c, hc, hrc⟩
  · exact key o1 o2 a hm1 hm2 ha hra hmax2 hfit1 hne2
  · exact (key o2 o1 c hm2 hm1 hc hrc hmax1 hfit2 hne1).symm

theorem Trimmed.last {q : ℚ} {msgs r : List Message} (h : Trimmed q msgs r) :
    r.getLast? = msgs.getLast? := by
  obtain ⟨older, hm, hne, -, -⟩ := h
  by_cases hmsgs : msgs = []
  · subst hmsgs
    have : r = [] := by
      have := congrArg List.length hm
      simp only [List.length_nil, List.length_append] at this
      exact List.length_eq_zero.mp (by omega)
    rw [this]
  · rw [hm, List.getLast?_append_of_ne_nil _ (hne hmsgs)]

theorem Trimmed.fits {q : ℚ} (hq : 0 < q) {msgs r : List Message} (h : Trimmed q msgs r) :
    (totalSize r : ℚ) ≤ q ∨ r = msgs.getLast?.toList := by
  have hlast := Trimmed.last h
  obtain ⟨older, hm, hne, hfit, -⟩ := h
  rcases hfit with hlen | hfit
  · match r, hlen, hlast with
    | [], _, _ =>
      left
      simpa [totalSize] using le_of_lt hq
    | [x], _, hlast =>
      right
      rw [← hlast]
      rfl
    | _ :: _ :: _, hlen, _ => simp at hlen
  · exact Or.inl hfit

/-! ## The single JSON body -/

theorem jsAnd_truthy {x : Json} (f : Json → Option Json) (h : x.truthy = true) :
    jsAnd (some x) f = f x := by
  simp only [jsAnd, h, if_true]

theorem jsAnd_falsy {x : Json} (f : Json → Option Json) (h : x.truthy = false) :
    jsAnd (some x) f = some x := by
  simp only [jsAnd, h, Bool.false_eq_true, if_false]

theorem jsOr_falsy {x : Json} (d : Json) (h : x.truthy = false) : jsOr (some x) d = d := by
  simp only [jsOr, h, Bool.false_eq_true, if_false]

theorem jsOr_truthy {x : Json} (d : Json) (h : x.truthy = true) : jsOr (some x) d = x := by
  simp only [jsOr, h, if_true]

theorem member_falsy {x : Json} (key : Str) (h : x.truthy = false) : x.member key = none := by
  cases x with
  | obj kvs => simp [Json.truthy] at h
  | null => rfl
  | bool b => rfl
  | num n => rfl
  | str s => rfl
  | arr xs => rfl

theorem choiceText_eq (c : Json) : choiceText c = choiceContent c := by
  unfold choiceText choiceContent messageContent
  cases hc : c.truthy with
  | false =>
    rw [jsAnd_falsy _ hc, jsAnd_falsy _ hc, jsOr_falsy _ hc, member_falsy _ hc]
    rfl
  | true =>
    rw [jsAnd_truthy _ hc]
    cases hm : c.member "message".units with
    | none => rfl
    | some m =>
      cases hmt : m.truthy with
      | false =>
        rw [jsAnd_falsy _ hmt, jsOr_falsy _ hmt]
        simp only [Option.bind, member_falsy _ hmt]
      | true =>
        rw [jsAnd_truthy _ hmt]
        simp only [Option.bind]
        cases hv : m.member "content".units with
        | none => rfl
        | some v =>
          cases hvt : v.truthy with
          | false => rw [jsOr_falsy _ hvt]; simp [hvt]
          | true => rw [jsOr_truthy _ hvt]; simp [hvt]

theorem choiceContent_or (c : Json) :
    jsOr (some (choiceContent c)) (.str []) = choiceContent c := by
  unfold choiceContent
  cases messageContent c with
  | none => exact jsOr_falsy (x := Json.str []) _ rfl
  | some v =>
    cases h : v.truthy with
    | false =>
      simp only [h, Bool.false_eq_true, if_false]
      exact jsOr_falsy (x := Json.str []) _ rfl
    | true =>
      simp only [h, if_true]
      exact jsOr_truthy _ h

theorem choicesOf_arr (data : Json) (cs : List Json)
    (h : data.member "choices".units = some (.arr cs)) :
    choicesOf data = cs.map choiceContent := by
  cases data with
  | obj kvs =>
    have ht : (Json.obj kvs).truthy = true := rfl
    simp only [choicesOf, jsAnd_truthy _ ht, h]
    exact List.map_congr_left (fun c _ => choiceText_eq c)
  | null => simp [Json.member] at h
  | bool b => simp [Json.member] at h
  | num n => simp [Json.member] at h
  | str s => simp [Json.member] at h
  | arr xs => simp [Json.member] at h

theorem assistantInserts_map (userId convId : Nat) (cs : List Json) :
    assistantInserts (cs.map (fun ch => DbWrite.insertMessage userId convId "assistant".units ch))
      = cs := by
  induction cs with
  | nil => rfl
  | cons c cs ih => simpa [assistantInserts] using ih

theorem assistantInserts_append (xs ys : List DbWrite) :
    assistantInserts (xs ++ ys) = assistantInserts xs ++ assistantInserts ys := by
  simp [assistantInserts, List.filterMap_append]

/-! ## Context assembly -/

theorem trimContext_suffix (maxCtx : Option JsNum) (msgs : List Message) :
    trimContext maxCtx msgs <:+ msgs ∧ (msgs ≠ [] → trimContext maxCtx msgs ≠ []) := by
  unfold trimContext
  split
  · split
    · next q h =>
      obtain ⟨older, hm, hne, -, -⟩ := trimLoop_trimmed q msgs
      exact ⟨⟨older, hm.symm⟩, hne⟩
    · exact ⟨List.suffix_refl _, id⟩
  · exact ⟨List.suffix_refl _, id⟩

theorem expandLast_shape (host : Host) (params : Params) (clean : Str) (images : List Str)
    (msgs : List Message) :
    (expandLast host params clean images msgs).dropLast = msgs.dropLast ∧
      (expandLast host params clean images msgs).length = msgs.length := by
  unfold expandLast
  split
  · next h =>
    have hne : msgs ≠ [] := by
      intro h0
      simp [visionOn, h0] at h
    refine ⟨by simp, ?_⟩
    have := List.length_pos.mpr hne
    simp only [List.length_append, List.length_dropLast, List.length_singleton]
    omega
  · exact ⟨rfl, rfl⟩

theorem drop_dropLast {α : Type} (k : Nat) (l : List α) :
    (l.drop k).dropLast = l.dropLast.drop k := by
  induction l generalizing k with
  | nil => simp
  | cons a t ih =>
    cases k with
    | zero => simp
    | succ k =>
      cases t with
      | nil => simp
      | cons b u =>
        have := ih k
        simpa using this

/-- Every upstream message but the last is a stored turn, mapped to its role
and text. -/
theorem assemble_shape (host : Host) (body : Body) (clean : Str) (rows : List MsgRow) :
    ∃ k, (assemble host body clean rows).dropLast =
        ((rows.drop k).map MsgRow.toMessage).dropLast ∧
      (assemble host body clean rows).length = rows.length - k := by
  unfold assemble
  simp only []
  obtain ⟨hd, hl⟩ := expandLast_shape host body.params clean body.images
    (rows.map MsgRow.toMessage)
  obtain ⟨⟨t, ht⟩, -⟩ := trimContext_suffix (maxCtxOf host body.params.context_length)
    (expandLast host body.params clean body.images (rows.map MsgRow.toMessage))
  have key : ∀ (E T : List Message), t ++ T = E →
      E.dropLast = (rows.map MsgRow.toMessage).dropLast →
      E.length = (rows.map MsgRow.toMessage).length →
      T.dropLast = ((rows.drop t.length).map MsgRow.toMessage).dropLast ∧
        T.length = rows.length - t.length := by
    intro E T hE hdl hlen
    have hT : T = E.drop t.length := by
      rw [← hE]
      simp
    refine ⟨?_, ?_⟩
    · rw [hT, drop_dropLast, hdl, ← drop_dropLast, List.map_drop]
    · have := congrArg List.length hE
      simp only [List.length_append, hlen, List.length_map] at this
      omega
  exact ⟨t.length, key _ _ ht hd hl⟩

theorem stripAngle_id (text : Str) (h : ∀ c ∈ text, c ≠ 60 ∧ c ≠ 62) :
    stripAngle text = text := by
  unfold stripAngle
  rw [List.filter_eq_self]
  intro c hc
  obtain ⟨h1, h2⟩ := h c hc
  simp [h1, h2]

/-! ## Credential selection -/

theorem chooseApiKey_shared_missing (host : Host) (keys : List KeyRow) (userId : Nat)
    (provider : Option Str) (key_id : Option Nat) (sid : Nat) (hsid : sid ≠ 0)
    (hmissing : ∀ r ∈ keys, r.id ≠ sid ∨ r.is_shared = false ∨
      host.sqlEq r.provider (effectiveProvider host provider) = false) :
    chooseApiKey host keys userId provider "shared".units key_id (some sid) =
      .error "Shared key not found".units := by
  have hid : idGiven (some sid) = some sid := by
    cases sid with
    | zero => exact absurd rfl hsid
    | succ n => rfl
  have hfilter : keys.filter (fun r => r.id == sid && r.is_shared &&
      host.sqlEq r.provider (effectiveProvider host provider)) = [] := by
    rw [List.filter_eq_nil_iff]
    intro r hr
    rcases hmissing r hr with h | h | h
    · simp [h]
    · simp [h]
    · simp [h]
  simp only [chooseApiKey, if_true, hid, hfilter]

/-! ## A disconnect during the stream -/

theorem streamLoop_append_quiet (host : Host) (pre rest : List Read) (e : Bool) (st : Relay)
    (hq : ∀ x ∈ pre, x.closedDuring = false) (hst : st.clientClosed = false) :
    streamLoop host (pre ++ rest) e st = streamLoop host rest e (streamLoop host pre false st) := by
  induction pre generalizing st with
  | nil =>
    have : streamLoop host [] false st = st := by
      cases st
      simp_all [streamLoop]
    rw [this]
    rfl
  | cons r rs ih =>
    have hr := hq r (List.mem_cons_self _ _)
    simp only [List.cons_append, streamLoop, hst, Bool.false_eq_true, if_false]
    exact ih _ (fun x hx => hq x (List.mem_cons_of_mem _ hx))
      (by rw [Relay.chunk_closed]; exact hr)

/-- The events written when the caller disconnects during the read that
follows the quiet reads `pre`: those of the fragments of `pre`. -/
theorem streamLoop_cut_out (host : Host) (pre post : List Read) (r : Read) (e : Bool)
    (hq : ∀ x ∈ pre, x.closedDuring = false) (hr : r.closedDuring = true) :
    (streamLoop host (pre ++ r :: post) e Relay.init).out =
      (streamTokens host (textOf pre)).map Event.delta := by
  rw [streamLoop_append_quiet host pre (r :: post) e Relay.init hq rfl,
    streamLoop_of_quiet host pre hq]
  simp only [streamLoop, Bool.false_eq_true, if_false, hr]
  have hc : (Relay.chunk host
      { clientClosed := true, finalText := concatText host (streamTokens host (textOf pre)),
        buffer := (jsSplit NN (textOf pre)).getLast?.getD [],
        out := (streamTokens host (textOf pre)).map Event.delta } r.chunk).clientClosed = true :=
    Relay.chunk_closed host _ _
  have hout : (Relay.chunk host
      { clientClosed := true, finalText := concatText host (streamTokens host (textOf pre)),
        buffer := (jsSplit NN (textOf pre)).getLast?.getD [],
        out := (streamTokens host (textOf pre)).map Event.delta } r.chunk).out =
      (streamTokens host (textOf pre)).map Event.delta := by
    rw [Relay.chunk_eq]
    simp only [Relay.frames_out, if_true]
  cases post with
  | nil => simp only [streamLoop, hc, if_true, hout]
  | cons p ps => simp only [streamLoop, hc, if_true, hout]

/-! ## A refused call -/

theorem consume_error (host : Host) (userId convId : Nat) (run : Run) (stream : Bool)
    (ws : List DbWrite) (cs : List Call) (status : Nat) (text : Str)
    (hup : run.upstream = .error status text) :
    consume host userId convId run stream ws cs =
      ⟨ws, cs, [], .error 502 "Upstream error".units (some text)⟩ := by
  unfold consume
  rw [hup]

/-! ## The single JSON body, with or without streaming -/

theorem textOf_quietReads (reads : List Read) : textOf (quietReads reads) = textOf reads := by
  simp [textOf, quietReads, Read.quiet, Function.comp_def]

theorem replyOf_eq (data : Json) : jsOr (choicesOf data).head? (.str []) = replyOf data := by
  unfold replyOf
  cases data with
  | obj kvs =>
    have ht : (Json.obj kvs).truthy = true := rfl
    simp only [choicesOf, jsAnd_truthy _ ht]
    cases hm : (Json.obj kvs).member "choices".units with
    | none => rfl
    | some v =>
      cases v with
      | arr cs =>
        cases cs with
        | nil => rfl
        | cons c cs =>
          simp only [List.map_cons, List.head?_cons, choiceText_eq, choiceContent_or]
      | null => rfl
      | bool b => rfl
      | num n => rfl
      | str s => rfl
      | obj k => rfl
  | null => rfl
  | bool b => cases b <;> rfl
  | num n =>
    cases h : (Json.num n).truthy with
    | false => simp only [choicesOf, jsAnd_falsy _ h]; rfl
    | true => simp only [choicesOf, jsAnd_truthy _ h]; rfl
  | str s =>
    cases h : (Json.str s).truthy with
    | false => simp only [choicesOf, jsAnd_falsy _ h]; rfl
    | true => simp only [choicesOf, jsAnd_truthy _ h]; rfl
  | arr xs => rfl

/-- Without streaming the relay does not read the disconnect flag. -/
theorem relay_nonstream (host : Host) (userId convId : Nat) (run : Run)
    (ct : Option Str) (reads : List Read) (e : Bool) (ws : List DbWrite) (cs : List Call) :
    relay host userId convId run false ct reads e ws cs =
      match host.jsonParse (textOf reads) with
      | none => ⟨ws, cs, [], .error 500 "Server error".units none⟩
      | some data =>
          ⟨ws ++ ((if (choicesOf data).length != 0 then choicesOf data
              else [replyOf data]).map
                (fun ch => DbWrite.insertMessage userId convId "assistant".units ch)) ++
            [.touchConversation convId], cs, [],
            .json (replyOf data) (choicesOf data) (some data)⟩ := by
  unfold relay
  simp only [Bool.false_and, Bool.false_eq_true, if_false]
  show (match host.jsonParse (textOf reads) with
    | none => _
    | some data => _) = _
  cases host.jsonParse (textOf reads) with
  | none => rfl
  | some data => simp only [replyOf_eq]

theorem any_closed_false (reads : List Read) (h : ∀ r ∈ reads, r.closedDuring = false) :
    reads.any (fun r => r.closedDuring) = false := by
  rw [List.any_eq_false]
  intro r hr
  simp [h r hr]

/-- With streaming, an upstream that answered with a single JSON body whose reply
is the string `s`, while the caller stayed connected: the reply is written code
unit by code unit, then the relay finishes. -/
theorem relay_json_stream (host : Host) (userId convId : Nat) (run : Run)
    (ct : Option Str) (reads : List Read) (ws : List DbWrite) (cs : List Call)
    (data : Json) (s : Str)
    (hsse : jsIncludes "text/event-stream".units (ct.getD []) = false)
    (hquiet : ∀ r ∈ reads, r.closedDuring = false)
    (hjson : host.jsonParse (textOf reads) = some data)
    (hreply : replyOf data = .str s) :
    relay host userId convId run true ct reads false ws cs =
      finish userId convId run true false (.str s) ws cs
        (s.map (fun ch => Event.delta (.str [ch]))) := by
  unfold relay
  simp only [Bool.true_and, hsse, Bool.false_eq_true, if_false, if_true]
  have hj : host.jsonParse (reads.map (fun r => r.chunk)).flatten = some data := hjson
  rw [hj]
  simp only [replyOf_eq, hreply, any_closed_false reads hquiet, Bool.or_false,
    Bool.false_eq_true, if_false]

/-! ## Credential selection: the most recent row -/

theorem newest_eq_none (l : List KeyRow) : newest l = none ↔ l = [] := by
  cases l with
  | nil => simp [newest]
  | cons r rest =>
    simp only [newest]
    cases newest rest with
    | none => simp
    | some b => by_cases h : b.created_at > r.created_at <;> simp [h]

theorem newest_spec (l : List KeyRow) (r : KeyRow) (h : newest l = some r) :
    r ∈ l ∧ ∀ x ∈ l, x.created_at ≤ r.created_at := by
  induction l generalizing r with
  | nil => simp [newest] at h
  | cons a rest ih =>
    simp only [newest] at h
    cases hn : newest rest with
    | none =>
      rw [hn] at h
      simp only [Option.some.injEq] at h
      subst h
      have : rest = [] := (newest_eq_none rest).mp hn
      subst this
      simp
    | some b =>
      rw [hn] at h
      obtain ⟨hb, hmax⟩ := ih b hn
      by_cases hgt : b.created_at > a.created_at
      · simp only [hgt, if_true, Option.some.injEq] at h
        subst h
        refine ⟨List.mem_cons_of_mem _ hb, ?_⟩
        intro x hx
        rcases List.mem_cons.mp hx with rfl | hx
        · exact Nat.le_of_lt hgt
        · exact hmax x hx
      · simp only [hgt, if_false, Option.some.injEq] at h
        subst h
        refine ⟨List.mem_cons_self _ _, ?_⟩
        intro x hx
        rcases List.mem_cons.mp hx with rfl | hx
        · exact Nat.le_refl _
        · exact Nat.le_trans (hmax x hx) (Nat.le_of_not_gt hgt)

/-- Selection in the caller's scope without an explicit id. -/
theorem chooseApiKey_user_default (host : Host) (keys : List KeyRow) (userId : Nat)
    (provider : Option Str) (source : Str) (shared_key_id : Option Nat)
    (hsource : source ≠ "shared".units) :
    chooseApiKey host keys userId provider source none shared_key_id =
      match newest (keys.filter (fun r => r.user_id == userId &&
          host.sqlEq r.provider (effectiveProvider host provider))) with
      | none => .error "No API key. Please add in profile.".units
      | some r => .ok r := by
  simp only [chooseApiKey, if_neg hsource, idGiven]

/-- Selection in the shared scope without an explicit id. -/
theorem chooseApiKey_shared_default (host : Host) (keys : List KeyRow) (userId : Nat)
    (provider : Option Str) (key_id : Option Nat) :
    chooseApiKey host keys userId provider "shared".units key_id none =
      match newest (keys.filter (fun r => r.is_shared &&
          host.sqlEq r.provider (effectiveProvider host provider))) with
      | none => .error "No shared key available".units
      | some r => .ok r := by
  simp only [chooseApiKey, if_true, idGiven]

/-! ## The payload -/

/-- The call issued by `prepare`: the selected credential, its configuration
and the payload built from them. -/
theorem prepare_ok (host : Host) (db : Db) (userId convId : Nat) (body : Body) (call : Call)
    (h : prepare host db userId convId body = .ok call) :
    ∃ row, chooseApiKey host db.api_keys userId (some (requestProvider host body.params))
          (if body.params.use_shared then "shared".units else "user".units)
          body.params.key_id body.params.shared_key_id = .ok row ∧
      call = ⟨endpointOf host (parseConfig host row), row.api_key,
        buildPayload host body (parseConfig host row)
          (assemble host body (cleanOf body)
            (rowsAfterInsert db convId (displayContent (cleanOf body) body.images)))⟩ := by
  unfold prepare at h
  simp only [] at h
  split at h
  · cases h
  · split at h
    · cases h
    · split at h
      · cases h
      · split at h
        · cases h
        · next row hrow =>
          split at h
          · cases h
          · simp only [Except.ok.injEq] at h
            exact ⟨row, hrow, h.symm⟩

theorem send_calls (host : Host) (db : Db) (userId convId : Nat) (body : Body) (run : Run)
    (call : Call) (h : call ∈ (send host db userId convId body run).calls) :
    prepare host db userId convId body = .ok call := by
  unfold send at h
  rcases prepare_cases host db userId convId body with ⟨ws, st, m, _, heq⟩ | ⟨c, _, _, heq⟩
  · rw [heq] at h
    simp at h
  · rw [heq] at h
    simp only [consume_calls, List.mem_singleton] at h
    rw [heq, h]

theorem buildPayload_model (host : Host) (body : Body) (row : KeyRow) (msgs : List Message) :
    (buildPayload host body (parseConfig host row) msgs).model =
      modelRef host body.model row.config_json := by
  have hcfg : jsOr ((parseConfig host row).member "model".units) (.str "deepseek-chat".units) =
      (configuredModel host row.config_json).getD (.str "deepseek-chat".units) := by
    unfold parseConfig configuredModel
    cases row.config_json with
    | none => rfl
    | some c =>
      simp only []
      cases hc : c.isEmpty with
      | true => rfl
      | false =>
        simp only [Bool.false_eq_true, if_false]
        cases host.jsonParse c with
        | none => rfl
        | some cfg =>
          simp only [Option.getD_some]
          cases cfg.member "model".units with
          | none => rfl
          | some v =>
            cases hv : v.truthy with
            | false => simp [jsOr, hv]
            | true => simp [jsOr, hv]
  simp only [buildPayload, modelRef, hcfg]
  cases body.model with
  | none => rfl
  | some m =>
    cases hm : m.isEmpty with
    | true => simp [jsOr, Json.truthy, hm]
    | false => simp [jsOr, Json.truthy, hm]

/-! ## Expansion before trimming -/

theorem expandLast_on (host : Host) (body : Body) (clean : Str) (msgs : List Message)
    (h : visionOn host body.params body.images msgs = true) :
    expandLast host body.params clean body.images msgs =
      msgs.dropLast ++ [⟨"user".units, .parts (expandedParts host body clean)⟩] := by
  simp only [expandLast, h, if_true, expandedParts]

/-! ## The reply forwarded code unit by code unit -/

theorem concatText_units (host : Host) (s : Str) :
    concatText host (s.map (fun ch => Json.str [ch])) = s := by
  induction s with
  | nil => rfl
  | cons c cs ih =>
    simp only [concatText, List.map_cons, List.flatten_cons, Host.toStr] at ih ⊢
    rw [ih]
    rfl

/-! ## Frames of an upstream text -/

theorem noBlankLine_tail (c d : CodeUnit) (rest : Str) (h : noBlankLine (c :: d :: rest) = true) :
    ¬ (c = 10 ∧ d = 10) ∧ noBlankLine (d :: rest) = true := by
  simp only [noBlankLine, Bool.and_eq_true, Bool.not_eq_true', Bool.and_eq_false_iff,
    beq_eq_false_iff_ne, ne_eq] at h
  refine ⟨?_, h.2⟩
  rintro ⟨hc, hd⟩
  rcases h.1 with h1 | h1
  · exact h1 hc
  · exact h1 hd

/-- A text without blank line is a single piece. -/
theorem splitNN_noBlank (n : Nat) : ∀ (t cur : Str), t.length ≤ n → noBlankLine t = true →
    jsSplitAux NN t 0 cur = [cur.reverse ++ t] := by
  induction n with
  | zero =>
    intro t cur hn _
    have : t = [] := List.length_eq_zero.mp (Nat.le_zero.mp hn)
    subst this
    simp [jsSplitAux]
  | succ n ih =>
    intro t cur hn h
    match t, hn, h with
    | [], _, _ => simp [jsSplitAux]
    | [c], _, _ => simp [splitNN_single]
    | c :: d :: rest, hn, h =>
      obtain ⟨hcd, hrest⟩ := noBlankLine_tail c d rest h
      rw [splitNN_step, if_neg hcd, ih (d :: rest) (c :: cur) (by simp at hn ⊢; omega) hrest]
      simp

/-- A frame followed by a blank line is the first piece of the text. -/
theorem splitNN_frame (n : Nat) : ∀ (f rest cur : Str), f.length ≤ n → isFrame f = true →
    jsSplitAux NN (f ++ (NN ++ rest)) 0 cur = (cur.reverse ++ f) :: jsSplitAux NN rest 0 [] := by
  induction n with
  | zero =>
    intro f rest cur hn _
    have : f = [] := List.length_eq_zero.mp (Nat.le_zero.mp hn)
    subst this
    simp [NN, jsSplitAux, List.isPrefixOf]
  | succ n ih =>
    intro f rest cur hn h
    match f, hn, h with
    | [], _, _ => simp [NN, jsSplitAux, List.isPrefixOf]
    | [c], _, h =>
      have hc : c ≠ 10 := by
        simpa [isFrame, noBlankLine] using h
      have h1 : ¬ (c = 10 ∧ 10 = 10) := fun hh => hc hh.1
      show jsSplitAux NN (c :: 10 :: 10 :: rest) 0 cur = _
      rw [splitNN_step, if_neg h1, splitNN_step, if_pos ⟨rfl, rfl⟩]
      simp
    | c :: d :: f', hn, h =>
      have hfr : noBlankLine (c :: d :: f') = true ∧
          (c :: d :: f').getLast? ≠ some 10 := by
        simpa [isFrame] using h
      obtain ⟨hcd, hrest⟩ := noBlankLine_tail c d f' hfr.1
      have hf' : isFrame (d :: f') = true := by
        have hl : (d :: f').getLast? ≠ some 10 := by
          have := hfr.2
          rwa [List.getLast?_cons_cons] at this
        simp [isFrame, hrest, hl]
      show jsSplitAux NN (c :: d :: (f' ++ (NN ++ rest))) 0 cur = _
      rw [splitNN_step, if_neg hcd]
      have := ih (d :: f') rest (c :: cur) (by simp at hn ⊢; omega) hf'
      simp only [List.cons_append] at this
      rw [this]
      simp

/-- The pieces of a text made of frames followed by any text: the frames,
then the pieces of that text. -/
theorem jsSplit_framesText (frames : List Str) (tail : Str)
    (h : ∀ f ∈ frames, isFrame f = true) :
    jsSplit NN (framesText frames ++ tail) = frames ++ jsSplit NN tail := by
  induction frames with
  | nil => rfl
  | cons f fs ih =>
    have hf := h f (List.mem_cons_self _ _)
    have hfs : ∀ g ∈ fs, isFrame g = true := fun g hg => h g (List.mem_cons_of_mem _ hg)
    have hsplit := splitNN_frame f.length f (framesText fs ++ tail) [] (Nat.le_refl _) hf
    have htext : framesText (f :: fs) ++ tail = f ++ (NN ++ (framesText fs ++ tail)) := by
      simp [framesText, List.append_assoc]
    rw [htext]
    unfold jsSplit at ih ⊢
    rw [hsplit, ih hfs]
    simp

theorem streamTokens_frames (host : Host) (frames : List Str) (tail : Str)
    (h : ∀ f ∈ frames, isFrame f = true) :
    streamTokens host (framesText frames ++ tail) =
      frames.flatMap (frameTokens host) ++ streamTokens host tail := by
  have hne : jsSplit NN tail ≠ [] := jsSplitAux_ne_nil _ _ _ _
  simp only [streamTokens, jsSplit_framesText frames tail h,
    List.dropLast_append_of_ne_nil _ hne, List.flatMap_append]

theorem streamTokens_noBlank (host : Host) (tail : Str) (h : noBlankLine tail = true) :
    streamTokens host tail = [] := by
  have := splitNN_noBlank tail.length tail [] (Nat.le_refl _) h
  simp only [streamTokens, jsSplit, this]
  rfl

theorem streamTokens_framesText (host : Host) (frames : List Str)
    (h : ∀ f ∈ frames, isFrame f = true) :
    streamTokens host (framesText frames) = frames.flatMap (frameTokens host) := by
  have := streamTokens_frames host frames [] h
  rw [List.append_nil] at this
  rw [this, streamTokens_noBlank host [] rfl, List.append_nil]

/-! ## Event streams with the same fragments -/

theorem finish_flags (userId convId : Nat) (run : Run) (up : Upstream) (stream closed : Bool)
    (t : Json) (ws : List DbWrite) (cs : List Call) (es : List Event) :
    finish userId convId { run with upstream := up } stream closed t ws cs es =
      finish userId convId run stream closed t ws cs es := rfl

/-- Outcome of a send with streaming whose upstream answered with an event
stream, read to its end while the caller stayed connected: what the handler
answers before the call, or the relay of the fragments of the text. -/
theorem send_sse_quiet (host : Host) (db : Db) (userId convId : Nat) (body : Body) (run : Run)
    (ct : Option Str) (reads : List Read)
    (hstream : body.params.stream = true)
    (hsse : jsIncludes "text/event-stream".units (ct.getD []) = true)
    (hquiet : ∀ r ∈ reads, r.closedDuring = false) :
    send host db userId convId body { run with upstream := .ok ct reads false } =
      match prepare host db userId convId body with
      | .error answered => answered
      | .ok call =>
          finish userId convId run true false
            (.str (concatText host (streamTokens host (textOf reads))))
            [userInsert userId convId body] [call]
            ((streamTokens host (textOf reads)).map Event.delta) := by
  unfold send
  cases hp : prepare host db userId convId body with
  | error answered => rfl
  | ok call =>
    obtain ⟨row, -, hcall⟩ := prepare_ok host db userId convId body call hp
    have hs : call.payload.stream = true := by
      rw [hcall]
      exact hstream
    simp only [hs]
    rw [consume_sse_quiet host userId convId _ ct reads _ _ rfl hsse hquiet, finish_flags]

/-- Two event streams with the same fragments give the same outcome. -/
theorem send_sse_congr (host : Host) (db : Db) (userId convId : Nat) (body : Body) (run : Run)
    (ct : Option Str) (reads₁ reads₂ : List Read)
    (hstream : body.params.stream = true)
    (hsse : jsIncludes "text/event-stream".units (ct.getD []) = true)
    (hq₁ : ∀ r ∈ reads₁, r.closedDuring = false)
    (hq₂ : ∀ r ∈ reads₂, r.closedDuring = false)
    (htok : streamTokens host (textOf reads₁) = streamTokens host (textOf reads₂)) :
    send host db userId convId body { run with upstream := .ok ct reads₁ false } =
      send host db userId convId body { run with upstream := .ok ct reads₂ false } := by
  rw [send_sse_quiet host db userId convId body run ct reads₁ hstream hsse hq₁,
    send_sse_quiet host db userId convId body run ct reads₂ hstream hsse hq₂, htok]

/-! ## Lines that carry no fragment -/

theorem jsAnd_some_truthy {a : Option Json} {b : Json → Option Json} {t : Json}
    (h : jsAnd a b = some t) (ht : t.truthy = true) :
    ∃ x, a = some x ∧ x.truthy = true ∧ b x = some t := by
  cases a with
  | none => simp [jsAnd] at h
  | some x =>
    cases hx : x.truthy with
    | true =>
      simp only [jsAnd, hx, if_true] at h
      exact ⟨x, rfl, hx, h⟩
    | false =>
      simp only [jsAnd, hx, Bool.false_eq_true, if_false, Option.some.injEq] at h
      rw [h] at hx
      rw [hx] at ht
      cases ht

/-- A truthy token is the `choices[0].delta.content` of the decoded payload. -/
theorem tokenExpr_truthy (obj : Option Json) (t : Json)
    (h : tokenExpr obj = some t) (ht : t.truthy = true) :
    ∃ o, obj = some o ∧ deltaContent o = some t := by
  unfold tokenExpr at h
  obtain ⟨d, h3, hdt, hd⟩ := jsAnd_some_truthy h ht
  obtain ⟨c0, h2, hc0, hc0d⟩ := jsAnd_some_truthy h3 hdt
  obtain ⟨c, h1, hc, hcc0⟩ := jsAnd_some_truthy h2 hc0
  obtain ⟨o, h0, -, hoc⟩ := jsAnd_some_truthy h1 hc
  exact ⟨o, h0, by simp [deltaContent, hoc, hcc0, hc0d, hd]⟩

theorem lineToken_ignorable (host : Host) (line : Str) (h : ignorableLine host line = true) :
    lineToken host line = none := by
  unfold lineToken
  simp only []
  split
  · rfl
  · cases hp : host.jsonParse (jsTrim (List.drop 5 line)) with
    | none =>
      simp only []
      cases ht : tokenExpr (some Json.null) with
      | none => rfl
      | some t =>
        cases htt : t.truthy with
        | false => simp [htt]
        | true =>
          obtain ⟨o, ho, hd⟩ := tokenExpr_truthy _ t ht htt
          cases ho
          cases hd
    | some obj =>
      simp only []
      cases ht : tokenExpr (some obj) with
      | none => rfl
      | some t =>
        cases htt : t.truthy with
        | false => simp [htt]
        | true =>
          obtain ⟨o, ho, hd⟩ := tokenExpr_truthy _ t ht htt
          cases ho
          simp only [ignorableLine, hp, hd, htt] at h
          cases h

theorem frameTokens_ignorable (host : Host) (fr : Str) (h : ignorableFrame host fr = true) :
    frameTokens host fr = [] := by
  unfold frameTokens
  rw [List.filterMap_eq_nil_iff]
  intro l hl
  exact lineToken_ignorable host l (List.all_eq_true.mp h l hl)

theorem lineToken_sentinel (host : Host) (line : Str) (h : isSentinel line = true) :
    lineToken host line = none := by
  have hd : jsTrim (line.drop 5) = "[DONE]".units := by
    simp only [isSentinel, Bool.and_eq_true, beq_iff_eq] at h
    exact h.2
  simp [lineToken, hd]

/-! ## Splitting at a single code unit -/

theorem splitChar_step (sep c : CodeUnit) (rest cur : Str) :
    jsSplitAux [sep] (c :: rest) 0 cur =
      if c = sep then cur.reverse :: jsSplitAux [sep] rest 0 []
      else jsSplitAux [sep] rest 0 (c :: cur) := by
  by_cases h : c = sep
  · subst h
    simp [jsSplitAux, List.isPrefixOf]
  · have : List.isPrefixOf [sep] (c :: rest) = false := by
      simp only [List.isPrefixOf, Bool.and_true, beq_eq_false_iff_ne, ne_eq]
      exact fun hh => h hh.symm
    simp [jsSplitAux, this, h]

/-- A text without the separator is a single piece. -/
theorem splitChar_last (sep : CodeUnit) (l cur : Str) (h : sep ∉ l) :
    jsSplitAux [sep] l 0 cur = [cur.reverse ++ l] := by
  induction l generalizing cur with
  | nil => simp [jsSplitAux]
  | cons c l ih =>
    have hc : c ≠ sep := fun hh => h (hh ▸ List.mem_cons_self _ _)
    rw [splitChar_step, if_neg hc, ih (c :: cur) (fun hh => h (List.mem_cons_of_mem _ hh))]
    simp

/-- A line followed by the separator is the first piece of the text. -/
theorem splitChar_line (sep : CodeUnit) (l rest cur : Str) (h : sep ∉ l) :
    jsSplitAux [sep] (l ++ sep :: rest) 0 cur =
      (cur.reverse ++ l) :: jsSplitAux [sep] rest 0 [] := by
  induction l generalizing cur with
  | nil =>
    rw [List.nil_append, splitChar_step, if_pos rfl, List.append_nil]
  | cons c l ih =>
    have hc : c ≠ sep := fun hh => h (hh ▸ List.mem_cons_self _ _)
    rw [List.cons_append, splitChar_step, if_neg hc,
      ih (c :: cur) (fun hh => h (List.mem_cons_of_mem _ hh))]
    simp

/-- Splitting the lines joined by the separator gives the lines back. -/
theorem jsSplit_jsJoin (sep : CodeUnit) (ls : List Str) (hne : ls ≠ [])
    (h : ∀ l ∈ ls, sep ∉ l) : jsSplit [sep] (jsJoin [sep] ls) = ls := by
  induction ls with
  | nil => exact absurd rfl hne
  | cons x rest ih =>
    cases rest with
    | nil =>
      simp only [jsJoin, jsSplit]
      rw [splitChar_last sep x [] (h x (List.mem_cons_self _ _))]
      rfl
    | cons y rest =>
      have hrest : ∀ l ∈ y :: rest, sep ∉ l := fun l hl => h l (List.mem_cons_of_mem _ hl)
      have := ih (List.cons_ne_nil _ _) hrest
      simp only [jsJoin, jsSplit, List.append_assoc, List.singleton_append] at this ⊢
      rw [splitChar_line sep x _ [] (h x (List.mem_cons_self _ _)), this]
      rfl

theorem takeWhile_append_stop {α : Type} (p : α → Bool) (l : List α) (x : α) (m : List α)
    (hx : p x = false) : (l ++ x :: m).takeWhile p = (l ++ [x]).takeWhile p := by
  induction l with
  | nil => simp [List.takeWhile, hx]
  | cons a l ih =>
    simp only [List.cons_append, List.takeWhile_cons]
    cases p a with
    | true => simp only [ih, if_true]
    | false => rfl

theorem extensionOf_after_dot (a rest : Str) :
    extensionOf (a ++ 46 :: rest) = extensionOf rest := by
  unfold extensionOf
  congr 1
  have h1 : (a ++ 46 :: rest).reverse = rest.reverse ++ 46 :: a.reverse := by simp
  have h2 : (rest.reverse ++ [46]).takeWhile (fun c => c != 46) =
      rest.reverse.takeWhile (fun c => c != 46) := by
    induction rest.reverse with
    | nil => simp [List.takeWhile]
    | cons c l ih =>
      simp only [List.cons_append, List.takeWhile_cons]
      cases (c != 46) with
      | true => simp only [ih, if_true]
      | false => rfl
  rw [h1, takeWhile_append_stop _ _ _ _ (by simp), h2]

theorem extensionOf_no_dot (l : Str) (h : 46 ∉ l) : extensionOf l = l := by
  unfold extensionOf
  have : l.reverse.takeWhile (fun c => c != 46) = l.reverse := by
    rw [List.takeWhile_eq_self_iff]
    intro c hc
    have hc2 : c ∈ l := List.mem_reverse.mp hc
    simp only [bne_iff_ne, ne_eq]
    exact fun hh => h (hh ▸ hc2)
  rw [this, List.reverse_reverse]

/-- The last piece of a name split at its dots is its extension. -/
theorem splitDot_last (s cur : Str) (hcur : 46 ∉ cur) :
    (jsSplitAux [46] s 0 cur).getLast? = some (extensionOf (cur.reverse ++ s)) := by
  induction s generalizing cur with
  | nil =>
    simp only [jsSplitAux, List.getLast?_singleton, List.append_nil]
    rw [extensionOf_no_dot _ (fun hh => hcur (List.mem_reverse.mp hh))]
  | cons c s ih =>
    rw [splitChar_step]
    by_cases hc : c = 46
    · subst hc
      rw [if_pos rfl, getLast?_cons_of_ne_nil _ (jsSplitAux_ne_nil _ _ _ _),
        ih [] (by simp), extensionOf_after_dot]
      rfl
    · rw [if_neg hc, ih (c :: cur) (by
        intro hh
        rcases List.mem_cons.mp hh with h1 | h1
        · exact hc h1.symm
        · exact hcur h1)]
      simp

theorem pop_split_dot (name : Str) :
    (jsSplit [46] name).getLast?.getD [] = extensionOf name := by
  have := splitDot_last name [] (by simp)
  simp only [List.reverse_nil, List.nil_append] at this
  show (jsSplitAux [46] name 0 []).getLast?.getD [] = _
  rw [this]
  rfl

/-- The MIME type is chosen from the extension of the name in lower case. -/
theorem mimeOf_eq (host : Host) (name : Str) :
    mimeOf host name =
      if host.lower (extensionOf name) = "png".units then "image/png".units
      else if host.lower (extensionOf name) = "jpg".units ∨
          host.lower (extensionOf name) = "jpeg".units then "image/jpeg".units
      else if host.lower (extensionOf name) = "webp".units then "image/webp".units
      else if host.lower (extensionOf name) = "gif".units then "image/gif".units
      else "application/octet-stream".units := by
  have h : (jsSplit ".".units name).getLast?.getD [] = extensionOf name := pop_split_dot name
  unfold mimeOf
  rw [h]

/-! ## The steps of a run, in order -/

theorem writesOf_append (xs ys : List Step) : writesOf (xs ++ ys) = writesOf xs ++ writesOf ys := by
  simp [writesOf, List.filterMap_append]

theorem eventsOf_append (xs ys : List Step) : eventsOf (xs ++ ys) = eventsOf xs ++ eventsOf ys := by
  simp [eventsOf, List.filterMap_append]

theorem writesOf_emit (es : List Event) : writesOf (es.map Step.emit) = [] := by
  induction es with
  | nil => rfl
  | cons e es ih => simp [writesOf]

theorem eventsOf_emit (es : List Event) : eventsOf (es.map Step.emit) = es := by
  induction es with
  | nil => rfl
  | cons e es ih => simpa [eventsOf] using ih

theorem writesOf_write (ws : List DbWrite) : writesOf (ws.map Step.write) = ws := by
  induction ws with
  | nil => rfl
  | cons w ws ih => simpa [writesOf] using ih

theorem eventsOf_write (ws : List DbWrite) : eventsOf (ws.map Step.write) = [] := by
  induction ws with
  | nil => rfl
  | cons w ws ih => simp [eventsOf]

/-- The writes and the events of `finish` are those of its steps. -/
theorem finish_steps (userId convId : Nat) (run : Run) (stream closed : Bool) (t : Json)
    (ws : List DbWrite) (cs : List Call) (es : List Event) :
    (finish userId convId run stream closed t ws cs es).writes =
        ws ++ writesOf (finishSteps userId convId run stream closed t) ∧
      (finish userId convId run stream closed t ws cs es).events =
        es ++ eventsOf (finishSteps userId convId run stream closed t) := by
  cases stream <;> cases closed <;> cases h1 : run.closedDuringInsert <;>
    cases h2 : run.closedDuringTouch <;>
    simp [finish, finishSteps, h1, h2, writesOf, eventsOf]

/-- The writes and the events of `relay` are those of its steps. -/
theorem relay_steps (host : Host) (userId convId : Nat) (run : Run) (stream : Bool)
    (ct : Option Str) (reads : List Read) (e : Bool) (ws : List DbWrite) (cs : List Call) :
    (relay host userId convId run stream ct reads e ws cs).writes =
        ws ++ writesOf (relaySteps host userId convId run stream ct reads e) ∧
      (relay host userId convId run stream ct reads e ws cs).events =
        eventsOf (relaySteps host userId convId run stream ct reads e) := by
  unfold relay relaySteps
  simp only []
  split
  · rw [(finish_steps ..).1, (finish_steps ..).2, writesOf_append, eventsOf_append,
      writesOf_emit, eventsOf_emit, List.nil_append]
    exact ⟨rfl, rfl⟩
  · split
    · exact ⟨(List.append_nil _).symm, rfl⟩
    · split
      · split
        · rw [(finish_steps ..).1, (finish_steps ..).2, writesOf_append, eventsOf_append]
          split
          · exact ⟨rfl, rfl⟩
          · have hmap : ∀ s : Str, s.map (fun ch => Step.emit (.delta (.str [ch]))) =
                (s.map (fun ch => Event.delta (.str [ch]))).map Step.emit := by
              intro s
              rw [List.map_map]
              rfl
            rw [hmap, writesOf_emit, eventsOf_emit, List.nil_append]
            exact ⟨rfl, rfl⟩
        · exact ⟨(List.append_nil _).symm, rfl⟩
      · have hmap : ∀ l : List Json,
            l.map (fun ch => Step.write (.insertMessage userId convId "assistant".units ch)) =
              (l.map (fun ch => DbWrite.insertMessage userId convId "assistant".units ch)).map
                Step.write := by
          intro l
          rw [List.map_map]
          rfl
        rw [writesOf_append, eventsOf_append, hmap, writesOf_write, eventsOf_write]
        simp [writesOf, eventsOf]

/-- The writes and the events of a run are those of its steps. -/
theorem send_steps (host : Host) (db : Db) (userId convId : Nat) (body : Body) (run : Run) :
    (send host db userId convId body run).writes =
        writesOf (sendSteps host db userId convId body run) ∧
      (send host db userId convId body run).events =
        eventsOf (sendSteps host db userId convId body run) := by
  unfold send sendSteps
  rcases prepare_cases host db userId convId body with ⟨ws, st, m, _, heq⟩ | ⟨c, _, _, heq⟩
  · rw [heq]
    simp only [writesOf_write, eventsOf_write, and_self]
  · rw [heq]
    simp only []
    unfold consume consumeSteps
    cases run.upstream with
    | failed => exact ⟨rfl, rfl⟩
    | error s t => exact ⟨rfl, rfl⟩
    | ok ct reads e =>
      simp only []
      rw [(relay_steps ..).1, (relay_steps ..).2]
      simp [writesOf, eventsOf]

/-- Where the terminal event stands in a list that ends with it and has no
other. -/
theorem done_position {m pre post : List Step} (hm : ∀ s ∈ m, s.isDone = false)
    (h : m ++ [Step.emit Event.done] = pre ++ Step.emit Event.done :: post) :
    pre = m ∧ post = [] := by
  induction m generalizing pre with
  | nil =>
    cases pre with
    | nil =>
      simp only [List.nil_append, List.cons.injEq, true_and] at h
      exact ⟨rfl, h.symm⟩
    | cons a pre =>
      simp only [List.nil_append, List.cons_append, List.cons.injEq] at h
      have := h.2
      cases pre <;> cases this
  | cons a m ih =>
    cases pre with
    | nil =>
      simp only [List.cons_append, List.nil_append, List.cons.injEq] at h
      have := hm a (List.mem_cons_self _ _)
      rw [h.1] at this
      cases this
    | cons b pre =>
      simp only [List.cons_append, List.cons.injEq] at h
      obtain ⟨hpre, hpost⟩ := ih (fun s hs => hm s (List.mem_cons_of_mem _ hs)) h.2
      exact ⟨by rw [h.1, hpre], hpost⟩

theorem no_done_position {m pre post : List Step} (hm : ∀ s ∈ m, s.isDone = false)
    (h : m = pre ++ Step.emit Event.done :: post) : False := by
  have := hm (Step.emit Event.done) (by rw [h]; simp)
  cases this

/-- The steps of `finish`: without the terminal event, or the assistant turn,
the update of the conversation and then the terminal event. -/
theorem finishSteps_shape (userId convId : Nat) (run : Run) (stream closed : Bool) (t : Json) :
    (∀ s ∈ finishSteps userId convId run stream closed t, s.isDone = false) ∨
      finishSteps userId convId run stream closed t =
        [.write (.insertMessage userId convId "assistant".units t),
          .write (.touchConversation convId), .emit Event.done] := by
  cases stream <;> cases closed <;> cases h1 : run.closedDuringInsert <;>
    cases h2 : run.closedDuringTouch <;>
    simp [finishSteps, h1, h2, Step.isDone, Event.isDone]

/-- The steps of a run: without the terminal event, or steps without it that
contain the insertion of an assistant turn, followed by the terminal event. -/
theorem sendSteps_shape (host : Host) (db : Db) (userId convId : Nat) (body : Body) (run : Run) :
    (∀ s ∈ sendSteps host db userId convId body run, s.isDone = false) ∨
      ∃ m content, sendSteps host db userId convId body run = m ++ [Step.emit Event.done] ∧
        (∀ s ∈ m, s.isDone = false) ∧
        Step.write (.insertMessage userId convId "assistant".units content) ∈ m := by
  have hlift : ∀ (front rest : List Step) (t : Json),
      (∀ s ∈ front, s.isDone = false) →
      ((∀ s ∈ rest, s.isDone = false) ∨
        rest = [.write (.insertMessage userId convId "assistant".units t),
          .write (.touchConversation convId), .emit Event.done]) →
      (∀ s ∈ front ++ rest, s.isDone = false) ∨
        ∃ m content, front ++ rest = m ++ [Step.emit Event.done] ∧
          (∀ s ∈ m, s.isDone = false) ∧
          Step.write (.insertMessage userId convId "assistant".units content) ∈ m := by
    intro front rest t hfront hrest
    rcases hrest with h | h
    · left
      intro s hs
      rcases List.mem_append.mp hs with hs | hs
      · exact hfront s hs
      · exact h s hs
    · right
      refine ⟨front ++ [.write (.insertMessage userId convId "assistant".units t),
        .write (.touchConversation convId)], t, ?_, ?_, ?_⟩
      · rw [h]
        simp
      · intro s hs
        rcases List.mem_append.mp hs with hs | hs
        · exact hfront s hs
        · simp only [List.mem_cons, List.mem_singleton, List.not_mem_nil, or_false] at hs
          rcases hs with rfl | rfl <;> rfl
      · simp
  unfold sendSteps
  cases prepare host db userId convId body with
  | error answered =>
    left
    intro s hs
    obtain ⟨w, -, rfl⟩ := List.mem_map.mp hs
    rfl
  | ok call =>
    simp only []
    unfold consumeSteps
    cases run.upstream with
    | failed =>
      left
      intro s hs
      simp only [List.mem_cons, List.not_mem_nil, or_false] at hs
      rcases hs with rfl | rfl <;> rfl
    | error st tx =>
      left
      intro s hs
      simp only [List.mem_cons, List.not_mem_nil, or_false] at hs
      rcases hs with rfl | rfl <;> rfl
    | ok ct reads e =>
      simp only []
      have hhead : ∀ s ∈ [Step.write (userInsert userId convId body), Step.call call],
          s.isDone = false := by
        intro s hs
        simp only [List.mem_cons, List.mem_singleton, List.not_mem_nil, or_false] at hs
        rcases hs with rfl | rfl <;> rfl
      have hnone : (∀ s ∈ Step.write (userInsert userId convId body) :: Step.call call :: [],
          s.isDone = false) ∨ ∃ m content,
            Step.write (userInsert userId convId body) :: Step.call call :: [] =
              m ++ [Step.emit Event.done] ∧ (∀ s ∈ m, s.isDone = false) ∧
            Step.write (.insertMessage userId convId "assistant".units content) ∈ m :=
        Or.inl hhead
      unfold relaySteps
      simp only []
      split
      · have hout := streamLoop_out_deltas host reads e Relay.init (by simp [Relay.init])
        have hfront : ∀ s ∈ [Step.write (userInsert userId convId body), Step.call call] ++
            (streamLoop host reads e Relay.init).out.map Step.emit, s.isDone = false := by
          intro s hs
          rcases List.mem_append.mp hs with hs | hs
          · exact hhead s hs
          · obtain ⟨ev, hev, rfl⟩ := List.mem_map.mp hs
            exact hout ev hev
        have := hlift _ _ _ hfront (finishSteps_shape userId convId run call.payload.stream
          (streamLoop host reads e Relay.init).clientClosed
          (.str (streamLoop host reads e Relay.init).finalText))
        simpa [List.append_assoc] using this
      · split
        · exact hnone
        · split
          · split
            · next s hs =>
              rw [hs]
              have hfront : ∀ x ∈ [Step.write (userInsert userId convId body), Step.call call] ++
                  (if (reads.any (fun r => r.closedDuring) || e) = true then []
                    else s.map (fun ch => Step.emit (.delta (.str [ch])))),
                  x.isDone = false := by
                intro x hx
                rcases List.mem_append.mp hx with hx | hx
                · exact hhead x hx
                · split at hx
                  · cases hx
                  · obtain ⟨ch, -, rfl⟩ := List.mem_map.mp hx
                    rfl
              have := hlift _ _ _ hfront (finishSteps_shape userId convId run
                call.payload.stream (reads.any (fun r => r.closedDuring) || e) (.str s))
              simpa [List.append_assoc] using this
            · exact hnone
          · left
            intro s hs
            simp only [List.mem_cons, List.mem_append, List.mem_map, List.mem_singleton,
              List.not_mem_nil, or_false] at hs
            rcases hs with rfl | rfl | ⟨ch, -, rfl⟩ | rfl <;> rfl

/-! ## The history of a conversation after a run -/

theorem history_apply (host : Host) (db : Db) (w : DbWrite) (convId : Nat) :
    ∃ l, history (DbWrite.apply host db w) convId = history db convId ++ l := by
  cases w with
  | insertMessage u c role content =>
    exact ⟨[⟨some c, role, host.toStr content⟩].filter
      (fun r => r.conversation_id == some convId),
      by simp only [history, DbWrite.apply, List.filter_append]⟩
  | touchConversation c => exact ⟨[], by simp [DbWrite.apply]⟩

theorem history_foldl (host : Host) (ws : List DbWrite) (db : Db) (convId : Nat) :
    ∃ later, history (ws.foldl (DbWrite.apply host) db) convId = history db convId ++ later := by
  induction ws generalizing db with
  | nil => exact ⟨[], by simp⟩
  | cons w ws ih =>
    obtain ⟨l₁, h₁⟩ := history_apply host db w convId
    obtain ⟨l₂, h₂⟩ := ih (DbWrite.apply host db w)
    exact ⟨l₁ ++ l₂, by rw [List.foldl_cons, h₂, h₁, List.append_assoc]⟩

/-- The history after writes that begin with the insertion of a turn into the
conversation: the stored turns, then that turn, then what the other writes
add. -/
theorem historyAfter_insert (host : Host) (db : Db) (userId convId : Nat) (role text : Str)
    (ws : List DbWrite) :
    ∃ later, historyAfter host db (.insertMessage userId convId role (.str text) :: ws) convId =
      history db convId ++ ⟨some convId, role, text⟩ :: later := by
  obtain ⟨later, h⟩ := history_foldl host ws
    (DbWrite.apply host db (.insertMessage userId convId role (.str text))) convId
  refine ⟨later, ?_⟩
  rw [historyAfter, List.foldl_cons, h]
  simp [history, DbWrite.apply, List.filter_append, Host.toStr]

theorem historyAfter_single (host : Host) (db : Db) (userId convId : Nat) (role text : Str) :
    historyAfter host db [.insertMessage userId convId role (.str text)] convId =
      history db convId ++ [⟨some convId, role, text⟩] := by
  simp [historyAfter, history, DbWrite.apply, List.filter_append, Host.toStr]

/-- The text recorded for the user turn: the content without angle brackets,
followed by the list of the attachments when there are some. -/
theorem displayContent_eq (clean : Str) (images : List Str) :
    displayContent clean images =
      clean ++ (if images = [] then []
        else " [附图: ".units ++ jsJoin ", ".units images ++ "]".units) := by
  cases images with
  | nil => rfl
  | cons i is => simp [displayContent]

/-! ## The claims -/

/-- C1: on the streaming path (streaming requested, the upstream answered with
an event stream) read to its end while the caller stayed connected, the handler
inserts exactly one assistant turn, and its content is the concatenation, in
forwarding order, of the payloads of the incremental events written to the
caller. -/
theorem streamed_reply_is_concatenation (host : Host) (db : Db) (userId convId : Nat)
    (body : Body) (run : Run) (ct : Option Str) (reads : List Read)
    (hstream : body.params.stream = true)
    (hup : run.upstream = .ok ct reads false)
    (hsse : jsIncludes "text/event-stream".units (ct.getD []) = true)
    (hquiet : ∀ r ∈ reads, r.closedDuring = false)
    (hcall : (send host db userId convId body run).calls ≠ []) :
    assistantInserts (send host db userId convId body run).writes =
      [.str (concatText host (deltaPayloads (send host db userId convId body run).events))] := by
  obtain ⟨call, -, -, heq⟩ := send_called host db userId convId body run hcall
  rw [heq, hstream, consume_sse_quiet host userId convId run ct reads _ _ hup hsse hquiet]
  obtain ⟨hw, he⟩ := finish_open userId convId run true
    (.str (concatText host (streamTokens host (textOf reads))))
    [userInsert userId convId body] [call] ((streamTokens host (textOf reads)).map Event.delta)
  have hpay : deltaPayloads (finish userId convId run true false
      (.str (concatText host (streamTokens host (textOf reads))))
      [userInsert userId convId body] [call]
      ((streamTokens host (textOf reads)).map Event.delta)).events =
      streamTokens host (textOf reads) := by
    rcases he with he | he <;> rw [he]
    · exact deltaPayloads_map _
    · rw [deltaPayloads_append, deltaPayloads_map, deltaPayloads_done, List.append_nil]
  rw [hw, hpay, List.singleton_append, assistantInserts_user]
  simp [assistantInserts]

/-- Witness of C1: the stream of `He` and `llo`; the inserted text is `Hello`. -/
theorem streamed_reply_is_concatenation_witness :
    demoBodyStream.params.stream = true ∧
      (∀ r ∈ [Read.quiet demoStream], r.closedDuring = false) ∧
      (send demoHost demoDb 7 1 demoBodyStream demoRunStream).calls ≠ [] ∧
      assistantInserts (send demoHost demoDb 7 1 demoBodyStream demoRunStream).writes =
        [.str (concatText demoHost
          (deltaPayloads (send demoHost demoDb 7 1 demoBodyStream demoRunStream).events))] ∧
      concatText demoHost
        (deltaPayloads (send demoHost demoDb 7 1 demoBodyStream demoRunStream).events) =
        "Hello".units :=
  ⟨rfl, by decide, List.ne_nil_of_length_pos (by decide),
    streamed_reply_is_concatenation demoHost demoDb 7 1 demoBodyStream demoRunStream
      (some "text/event-stream".units) [Read.quiet demoStream] rfl rfl (by decide) (by decide)
      (List.ne_nil_of_length_pos (by decide)),
    by decide⟩

/-- C2, the code at the failing input: the upstream streams the fragments `He`
and `llo`, and the caller drops its connection after the first event.  On the
runtime that the handler needs the run is the one of a caller that stays: the
handler writes both incremental events and the terminal event, inserts the
assistant turn `Hello` and touches the conversation. -/
theorem disconnect_not_observed :
    (∀ (ct : Option Str) (chunks : List Str) (caller : Caller),
        nodeRun ct chunks caller = nodeRun ct chunks Caller.stays) ∧
      (send demoHost demoDb 7 1 demoBodyStream
          (nodeRun (some "text/event-stream".units)
            [framesText [demoFrameHe], framesText [demoFrameLlo, "data: [DONE]".units]]
            (Caller.leaves 1))).writes =
        [.insertMessage 7 1 "user".units (.str "hello".units),
          .insertMessage 7 1 "assistant".units (.str "Hello".units),
          .touchConversation 1] ∧
      deltaPayloads (send demoHost demoDb 7 1 demoBodyStream
          (nodeRun (some "text/event-stream".units)
            [framesText [demoFrameHe], framesText [demoFrameLlo, "data: [DONE]".units]]
            (Caller.leaves 1))).events =
        [.str "He".units, .str "llo".units] ∧
      (send demoHost demoDb 7 1 demoBodyStream
          (nodeRun (some "text/event-stream".units)
            [framesText [demoFrameHe], framesText [demoFrameLlo, "data: [DONE]".units]]
            (Caller.leaves 1))).events.map Event.isDone = [false, false, true] :=
  ⟨fun _ _ _ => rfl, rfl, rfl, rfl⟩

/-- C3, counterexample: with `context_length` 0 the trimming step leaves the
three turns, of total size 7, although 7 exceeds 0 and the list is not the
single most recent turn. -/
theorem trim_zero_budget_untrimmed :
    ¬ ((totalSize (assemble demoHost demoBodyZero "g".units demoRows) : ℚ) ≤ 0 ∨
      assemble demoHost demoBodyZero "g".units demoRows =
        (demoRows.map MsgRow.toMessage).getLast?.toList) := by
  decide

/-- C3, amended: for a positive finite budget the trimming step keeps the most
recent turn, and the list it produces has total size at most the budget unless
it is the single most recent turn. -/
theorem trim_within_positive_budget (q : ℚ) (hq : 0 < q) (msgs : List Message) :
    (trimContext (some (.fin q)) msgs).getLast? = msgs.getLast? ∧
      ((totalSize (trimContext (some (.fin q)) msgs) : ℚ) ≤ q ∨
        trimContext (some (.fin q)) msgs = msgs.getLast?.toList) := by
  rw [trimContext_pos q hq]
  exact ⟨Trimmed.last (trimLoop_trimmed q msgs), Trimmed.fits hq (trimLoop_trimmed q msgs)⟩

/-- Witness of C3, amended: a budget of 3 keeps the last two of three turns,
of sizes 2 and 1; and it keeps only `g` of the two turns of `demoTurnsEmoji`,
of sizes 4 and 1, the size of a text being its number of code units. -/
theorem trim_within_positive_budget_witness :
    (0 : ℚ) < 3 ∧
      ((trimContext (some (.fin 3)) demoTurns).getLast? = demoTurns.getLast? ∧
        ((totalSize (trimContext (some (.fin 3)) demoTurns) : ℚ) ≤ 3 ∨
          trimContext (some (.fin 3)) demoTurns = demoTurns.getLast?.toList)) ∧
      demoTurnsEmoji.map (fun m => m.content.size) = [4, 1] ∧
      trimContext (some (.fin 3)) demoTurnsEmoji = [⟨"user".units, .text "g".units⟩] ∧
      ((totalSize (trimContext (some (.fin 3)) demoTurnsEmoji) : ℚ) ≤ 3 ∨
        trimContext (some (.fin 3)) demoTurnsEmoji = demoTurnsEmoji.getLast?.toList) :=
  ⟨by norm_num, trim_within_positive_budget 3 (by norm_num) demoTurns, by decide, by decide,
    (trim_within_positive_budget 3 (by norm_num) demoTurnsEmoji).2⟩

/-- C4: on a send without streaming whose upstream JSON body has the choices
`c₀ :: cs`, the handler inserts one assistant turn per choice, in choice
order, the content of each being the message content of its choice (the empty
string when it is absent or falsy), and the reported reply is the text of the
first choice. -/
theorem json_choices_each_inserted (host : Host) (db : Db) (userId convId : Nat)
    (body : Body) (run : Run) (ct : Option Str) (reads : List Read) (e : Bool) (data : Json)
    (c₀ : Json) (cs : List Json)
    (hstream : body.params.stream = false)
    (hup : run.upstream = .ok ct reads e)
    (hjson : host.jsonParse (textOf reads) = some data)
    (hchoices : data.member "choices".units = some (.arr (c₀ :: cs)))
    (hcall : (send host db userId convId body run).calls ≠ []) :
    assistantInserts (send host db userId convId body run).writes =
        (c₀ :: cs).map choiceContent ∧
      (assistantInserts (send host db userId convId body run).writes).length =
        (c₀ :: cs).length ∧
      (send host db userId convId body run).reply =
        .json (choiceContent c₀) ((c₀ :: cs).map choiceContent) (some data) := by
  obtain ⟨call, -, -, heq⟩ := send_called host db userId convId body run hcall
  have hw : (send host db userId convId body run) =
      ⟨[userInsert userId convId body] ++
        ((c₀ :: cs).map choiceContent).map
          (fun ch => DbWrite.insertMessage userId convId "assistant".units ch) ++
        [.touchConversation convId], [call], [],
        .json (choiceContent c₀) ((c₀ :: cs).map choiceContent) (some data)⟩ := by
    rw [heq, hstream]
    unfold consume
    rw [hup]
    simp only []
    unfold relay
    simp only [Bool.false_and, Bool.false_eq_true, if_false]
    have : host.jsonParse (reads.map (fun r => r.chunk)).flatten = some data := hjson
    rw [this]
    simp only [choicesOf_arr data _ hchoices, List.map_cons, List.head?_cons, choiceContent_or,
      List.length_cons]
    simp
  rw [hw]
  have hA : assistantInserts ([userInsert userId convId body] ++
      ((c₀ :: cs).map choiceContent).map
        (fun ch => DbWrite.insertMessage userId convId "assistant".units ch) ++
      [.touchConversation convId]) = (c₀ :: cs).map choiceContent := by
    rw [assistantInserts_append, assistantInserts_append, assistantInserts_map,
      assistantInserts_user]
    exact List.append_nil _
  exact ⟨hA, by rw [hA, List.length_map], rfl⟩

/-- Witness of C4: a completion with the two choices `Hi` and `Yo`. -/
theorem json_choices_each_inserted_witness :
    demoBodyPlain.params.stream = false ∧
      demoHost.jsonParse (textOf [Read.quiet demoCompletionText]) = some demoCompletion ∧
      (send demoHost demoDb 7 1 demoBodyPlain demoRunJson).calls ≠ [] ∧
      (assistantInserts (send demoHost demoDb 7 1 demoBodyPlain demoRunJson).writes =
          [.str "Hi".units, .str "Yo".units] ∧
        (assistantInserts (send demoHost demoDb 7 1 demoBodyPlain demoRunJson).writes).length
          = 2 ∧
        (send demoHost demoDb 7 1 demoBodyPlain demoRunJson).reply =
          .json (.str "Hi".units) [.str "Hi".units, .str "Yo".units] (some demoCompletion)) :=
  ⟨rfl, rfl, List.ne_nil_of_length_pos (by decide),
    json_choices_each_inserted demoHost demoDb 7 1 demoBodyPlain demoRunJson
      (some "application/json".units) [Read.quiet demoCompletionText] false demoCompletion
      (.obj [("message".units, .obj [("content".units, .str "Hi".units)])])
      [.obj [("message".units, .obj [("content".units, .str "Yo".units)])]]
      rfl rfl rfl rfl (List.ne_nil_of_length_pos (by decide))⟩

/-- C5: in every call issued by the handler, all upstream messages but the last
are consecutive stored turns of the conversation, each with its role and its
text as content; only the last message can carry multi-part content. -/
theorem only_last_turn_multipart (host : Host) (db : Db) (userId convId : Nat)
    (body : Body) (run : Run) :
    ∀ call ∈ (send host db userId convId body run).calls,
      ∃ k, call.payload.messages.dropLast =
          (((rowsAfterInsert db convId (displayContent (cleanOf body) body.images)).drop k).map
            MsgRow.toMessage).dropLast ∧
        call.payload.messages.length =
          (rowsAfterInsert db convId (displayContent (cleanOf body) body.images)).length - k ∧
        ∀ m ∈ call.payload.messages.dropLast, ∃ s, m.content = .text s := by
  intro call hcall
  rcases send_cases host db userId convId body run with
    ⟨ws, st, m, _, heq⟩ | ⟨c, -, hmsgs, heq⟩
  · rw [heq] at hcall
    simp at hcall
  · rw [heq, consume_calls] at hcall
    have hc : call = c := by simpa using hcall
    subst hc
    obtain ⟨k, hk, hlen⟩ := assemble_shape host body (cleanOf body)
      (rowsAfterInsert db convId (displayContent (cleanOf body) body.images))
    rw [hmsgs]
    refine ⟨k, hk, hlen, ?_⟩
    intro m hm
    rw [hk] at hm
    obtain ⟨r, _, rfl⟩ := List.mem_map.mp (List.mem_of_mem_dropLast hm)
    exact ⟨r.content, rfl⟩

/-- Witness of C5: two stored turns and a new turn with one attachment; the
call carries the two stored turns as text and the new turn as multi-part
content. -/
theorem only_last_turn_multipart_witness :
    (send demoHostVision demoDbHistory 7 1 demoBodyImage demoRunJson).calls.map
        (fun c => c.payload.messages) =
        [[⟨"user".units, .text "hi".units⟩, ⟨"assistant".units, .text "yo".units⟩,
          ⟨"user".units,
            .parts [.text "look".units, .imageUrl "https://x/a.png".units none]⟩]] ∧
      ∃ call ∈ (send demoHostVision demoDbHistory 7 1 demoBodyImage demoRunJson).calls,
        ∃ k, call.payload.messages.dropLast =
            (((rowsAfterInsert demoDbHistory 1
              (displayContent (cleanOf demoBodyImage) demoBodyImage.images)).drop k).map
              MsgRow.toMessage).dropLast ∧
          call.payload.messages.length =
            (rowsAfterInsert demoDbHistory 1
              (displayContent (cleanOf demoBodyImage) demoBodyImage.images)).length - k ∧
          ∀ m ∈ call.payload.messages.dropLast, ∃ s, m.content = .text s :=
  ⟨by decide,
    (send demoHostVision demoDbHistory 7 1 demoBodyImage demoRunJson).calls.head
      (List.ne_nil_of_length_pos (by decide)),
    List.head_mem _,
    only_last_turn_multipart demoHostVision demoDbHistory 7 1 demoBodyImage demoRunJson _
      (List.head_mem _)⟩

/-- C6, counterexample: in the shared scope with the shared credential id 0,
which no credential has, `chooseApiKey` returns the most recent shared
credential and the handler issues the upstream call with it. -/
theorem shared_id_zero_falls_back :
    (∀ r ∈ demoDbShared.api_keys, r.id ≠ 0) ∧
      chooseApiKey demoHost demoDbShared.api_keys 7
          (some (requestProvider demoHost demoBodySharedZero.params)) "shared".units
          demoBodySharedZero.params.key_id (some 0) =
        .ok ⟨2, 8, "deepseek".units, "sk-shared".units, none, true, 20⟩ ∧
      (send demoHost demoDbShared 7 1 demoBodySharedZero demoRunJson).calls.map
          (fun c => c.api_key) = ["sk-shared".units] :=
  ⟨by decide, rfl, by decide⟩

/-- C6, amended: in the shared scope with a shared credential id other than 0,
when no credential has that id, is shared and is of the requested provider,
`chooseApiKey` fails with `Shared key not found`, and the handler answers with
an error without issuing an upstream call. -/
theorem shared_id_not_found (host : Host) (db : Db) (userId convId : Nat)
    (body : Body) (run : Run) (sid : Nat)
    (hshared : body.params.use_shared = true)
    (hid : body.params.shared_key_id = some sid)
    (hsid : sid ≠ 0)
    (hmissing : ∀ r ∈ db.api_keys, r.id ≠ sid ∨ r.is_shared = false ∨
      host.sqlEq r.provider
        (effectiveProvider host (some (requestProvider host body.params))) = false) :
    chooseApiKey host db.api_keys userId (some (requestProvider host body.params))
        "shared".units body.params.key_id (some sid) = .error "Shared key not found".units ∧
      (send host db userId convId body run).calls = [] ∧
      ∃ status msg, (send host db userId convId body run).reply = .error status msg none := by
  have hkey := chooseApiKey_shared_missing host db.api_keys userId
    (some (requestProvider host body.params)) body.params.key_id sid hsid hmissing
  refine ⟨hkey, ?_⟩
  unfold send prepare
  simp only [hshared, hid, if_true, hkey]
  split
  · next h =>
    split at h
    · cases h
      exact ⟨rfl, _, _, rfl⟩
    · split at h
      · cases h
        exact ⟨rfl, _, _, rfl⟩
      · split at h
        · cases h
          exact ⟨rfl, _, _, rfl⟩
        · cases h
          exact ⟨rfl, _, _, rfl⟩
  · next h =>
    split at h
    · cases h
    · split at h
      · cases h
      · split at h
        · cases h
        · cases h

/-- Witness of C6, amended: the credential 1 is private. -/
theorem shared_id_not_found_witness :
    demoBodyShared.params.use_shared = true ∧ (1 : Nat) ≠ 0 ∧
      (chooseApiKey demoHost demoDbShared.api_keys 7
          (some (requestProvider demoHost demoBodyShared.params)) "shared".units
          demoBodyShared.params.key_id (some 1) = .error "Shared key not found".units ∧
        (send demoHost demoDbShared 7 1 demoBodyShared demoRunJson).calls = [] ∧
        ∃ status msg,
          (send demoHost demoDbShared 7 1 demoBodyShared demoRunJson).reply =
            .error status msg none) :=
  ⟨rfl, by decide,
    shared_id_not_found demoHost demoDbShared 7 1 demoBodyShared demoRunJson 1 rfl rfl
      (by decide) (by decide)⟩

/-- C7: on the streaming path read to its end while the caller stayed connected
throughout the request, the events written to the caller are one incremental
event per recognized upstream fragment, in upstream order, followed by one
terminal event, and the inserted text is the concatenation of the fragments. -/
theorem stream_events_then_done (host : Host) (db : Db) (userId convId : Nat)
    (body : Body) (run : Run) (ct : Option Str) (reads : List Read)
    (hstream : body.params.stream = true)
    (hup : run.upstream = .ok ct reads false)
    (hsse : jsIncludes "text/event-stream".units (ct.getD []) = true)
    (hquiet : ∀ r ∈ reads, r.closedDuring = false)
    (hins : run.closedDuringInsert = false) (htouch : run.closedDuringTouch = false)
    (hcall : (send host db userId convId body run).calls ≠ []) :
    (send host db userId convId body run).events =
        (streamTokens host (textOf reads)).map Event.delta ++ [Event.done] ∧
      assistantInserts (send host db userId convId body run).writes =
        [.str (concatText host (streamTokens host (textOf reads)))] ∧
      (streamTokens host (textOf reads) = [.str "He".units, .str "llo".units] →
        (send host db userId convId body run).events =
            [Event.delta (.str "He".units), Event.delta (.str "llo".units), Event.done] ∧
          assistantInserts (send host db userId convId body run).writes =
            [.str "Hello".units]) := by
  obtain ⟨call, -, -, heq⟩ := send_called host db userId convId body run hcall
  rw [heq, hstream, consume_sse_quiet host userId convId run ct reads _ _ hup hsse hquiet]
  have hA : (finish userId convId run true false
      (.str (concatText host (streamTokens host (textOf reads))))
      [userInsert userId convId body] [call]
      ((streamTokens host (textOf reads)).map Event.delta)).events =
      (streamTokens host (textOf reads)).map Event.delta ++ [Event.done] := by
    simp [finish, hins, htouch]
  have hB : assistantInserts (finish userId convId run true false
      (.str (concatText host (streamTokens host (textOf reads))))
      [userInsert userId convId body] [call]
      ((streamTokens host (textOf reads)).map Event.delta)).writes =
      [.str (concatText host (streamTokens host (textOf reads)))] := by
    simp [finish, hins, htouch, assistantInserts, userInsert, user_ne_assistant]
  refine ⟨hA, hB, ?_⟩
  intro hts
  rw [hA, hB, hts]
  exact ⟨rfl, rfl⟩

/-- Witness of C7, the scenario of the specification: for the fragments `He`
and `llo` followed by the terminal sentinel the caller receives the deltas
`He` and `llo`, then the terminal event, and the inserted text is `Hello`. -/
theorem stream_events_then_done_witness :
    streamTokens demoHost (textOf [Read.quiet demoStream]) =
        [.str "He".units, .str "llo".units] ∧
      concatText demoHost (streamTokens demoHost (textOf [Read.quiet demoStream])) =
        "Hello".units ∧
      ((send demoHost demoDb 7 1 demoBodyStream demoRunStream).events =
          [Event.delta (.str "He".units), Event.delta (.str "llo".units), Event.done] ∧
        assistantInserts (send demoHost demoDb 7 1 demoBodyStream demoRunStream).writes =
          [.str "Hello".units]) :=
  ⟨rfl, by decide,
    (stream_events_then_done demoHost demoDb 7 1 demoBodyStream demoRunStream
      (some "text/event-stream".units) [Read.quiet demoStream] rfl rfl (by decide) (by decide)
      rfl rfl (List.ne_nil_of_length_pos (by decide))).2.2 rfl⟩

/-- C8: for a text without `<` and `>`, no attachment and no budget, the
assembled upstream messages are the stored turns of the conversation in
insertion order, each as its role and content, followed by the new user turn,
and every call issued by the handler carries exactly these messages. -/
theorem plain_send_forwards_history (host : Host) (db : Db) (userId convId : Nat)
    (body : Body) (run : Run) (text : Str)
    (htext : ∀ c ∈ text, c ≠ 60 ∧ c ≠ 62)
    (hcontent : body.content = some text)
    (himages : body.images = [])
    (hbudget : body.params.context_length = none) :
    assemble host body (cleanOf body)
        (rowsAfterInsert db convId (displayContent (cleanOf body) body.images)) =
        (db.messages.filter (fun r => r.conversation_id == some convId)).map MsgRow.toMessage ++
          [⟨"user".units, .text text⟩] ∧
      ∀ call ∈ (send host db userId convId body run).calls,
        call.payload.messages =
          (db.messages.filter (fun r => r.conversation_id == some convId)).map MsgRow.toMessage ++
            [⟨"user".units, .text text⟩] := by
  have hclean : cleanOf body = text := by
    simp only [cleanOf, hcontent]
    exact stripAngle_id text htext
  have hasm : assemble host body (cleanOf body)
      (rowsAfterInsert db convId (displayContent (cleanOf body) body.images)) =
      (db.messages.filter (fun r => r.conversation_id == some convId)).map MsgRow.toMessage ++
        [⟨"user".units, .text text⟩] := by
    simp [assemble, hbudget, maxCtxOf, trimContext, expandLast, visionOn, himages, hclean,
      rowsAfterInsert, displayContent, MsgRow.toMessage]
  refine ⟨hasm, ?_⟩
  intro call hcall
  rcases send_cases host db userId convId body run with
    ⟨ws, st, m, _, heq⟩ | ⟨c, -, hmsgs, heq⟩
  · rw [heq] at hcall
    simp at hcall
  · rw [heq, consume_calls] at hcall
    have hc : call = c := by simpa using hcall
    subst hc
    rw [hmsgs, hasm]

/-- Witness of C8, the scenario of the specification: for an empty history and
the text `hello` the handler issues one call, with the single message
`{role: "user", content: "hello"}`. -/
theorem plain_send_forwards_history_witness :
    (∀ c ∈ "hello".units, c ≠ 60 ∧ c ≠ 62) ∧
      (send demoHost demoDb 7 1 demoBodyPlain demoRunJson).calls.map
          (fun c => c.payload.messages) = [[⟨"user".units, .text "hello".units⟩]] ∧
      (assemble demoHost demoBodyPlain (cleanOf demoBodyPlain)
            (rowsAfterInsert demoDb 1
              (displayContent (cleanOf demoBodyPlain) demoBodyPlain.images)) =
          (demoDb.messages.filter (fun r => r.conversation_id == some 1)).map
            MsgRow.toMessage ++ [⟨"user".units, .text "hello".units⟩] ∧
        ∀ call ∈ (send demoHost demoDb 7 1 demoBodyPlain demoRunJson).calls,
          call.payload.messages =
            (demoDb.messages.filter (fun r => r.conversation_id == some 1)).map
              MsgRow.toMessage ++ [⟨"user".units, .text "hello".units⟩]) :=
  ⟨by decide, by decide,
    plain_send_forwards_history demoHost demoDb 7 1 demoBodyPlain demoRunJson "hello".units
      (by decide) rfl rfl rfl⟩

/-- C9: frame decoding does not depend on the read boundaries: whatever the
chunks in which an upstream text arrives, the state of the read loop at the end
(events written, accumulated reply, buffer) and the whole outcome of the
handler are those obtained when the text arrives in a single read. -/
theorem decoding_independent_of_reads (host : Host) (chunks : List Str) :
    streamLoop host (chunks.map Read.quiet) false Relay.init =
        streamLoop host [Read.quiet chunks.flatten] false Relay.init ∧
      ∀ (db : Db) (userId convId : Nat) (body : Body) (ct : Option Str) (ci cu : Bool),
        send host db userId convId body ⟨.ok ct (chunks.map Read.quiet) false, ci, cu⟩ =
          send host db userId convId body
            ⟨.ok ct [Read.quiet chunks.flatten] false, ci, cu⟩ := by
  refine ⟨decode_chunks host chunks, ?_⟩
  intro db userId convId body ct ci cu
  unfold send
  split
  · rfl
  · unfold consume
    simp only []
    exact relay_chunks ..

/-- C10: for a positive finite budget the trimming step returns what the
reference procedure returns (drop the oldest turn until the total size is at
most the budget or one turn remains); the result is a suffix of the input, and
it is either the longest suffix of total size at most the budget, or the single
most recent turn when that turn alone exceeds the budget. -/
theorem trim_refines_reference (q : ℚ) (hq : 0 < q) (msgs : List Message) :
    trimContext (some (.fin q)) msgs = trimRef q msgs ∧
      trimContext (some (.fin q)) msgs <:+ msgs ∧
      (((totalSize (trimContext (some (.fin q)) msgs) : ℚ) ≤ q ∧
          ∀ s, s <:+ msgs → (totalSize s : ℚ) ≤ q →
            s.length ≤ (trimContext (some (.fin q)) msgs).length) ∨
        (trimContext (some (.fin q)) msgs = msgs.getLast?.toList ∧
          (totalSize msgs.getLast?.toList : ℚ) > q)) := by
  rw [trimContext_pos q hq]
  have h := trimLoop_trimmed q msgs
  refine ⟨Trimmed.unique h (trimRef_trimmed q msgs), ?_, ?_⟩
  · obtain ⟨older, hm, -⟩ := h
    exact ⟨older, hm.symm⟩
  · by_cases hfit : (totalSize (trimLoop q msgs.reverse 0 []).reverse : ℚ) ≤ q
    · exact Or.inl ⟨hfit, Trimmed.longest h⟩
    · rcases Trimmed.fits hq h with h1 | h1
      · exact absurd h1 hfit
      · refine Or.inr ⟨h1, ?_⟩
        rw [← h1]
        exact not_le.mp hfit

/-- Witness of C10: a budget of 3 keeps the last two of three turns, and only
the last of the two turns of `demoTurnsEmoji`, whose first has four code
units. -/
theorem trim_refines_reference_witness :
    (0 : ℚ) < 3 ∧ trimContext (some (.fin 3)) demoTurns = demoTurns.drop 1 ∧
      trimContext (some (.fin 3)) demoTurns = trimRef 3 demoTurns ∧
      trimContext (some (.fin 3)) demoTurnsEmoji = demoTurnsEmoji.drop 1 ∧
      trimContext (some (.fin 3)) demoTurnsEmoji = trimRef 3 demoTurnsEmoji :=
  ⟨by norm_num, by decide, (trim_refines_reference 3 (by norm_num) demoTurns).1, by decide,
    (trim_refines_reference 3 (by norm_num) demoTurnsEmoji).1⟩

/-- C11: when the multimodal expansion has replaced the content of the last
turn and the trimming step runs with a positive finite budget, the loop of the
trimming step goes on from the older turns with, as the total so far, the
length of the JSON serialization of the multi-part content; the expanded turn
is the last of the result, and the older turns kept fit in the budget together
with that serialized length. -/
theorem expansion_charged_serialized (host : Host) (body : Body) (clean : Str)
    (rows : List MsgRow) (q : ℚ)
    (hvision : visionOn host body.params body.images (rows.map MsgRow.toMessage) = true)
    (hbudget : maxCtxOf host body.params.context_length = some (.fin q))
    (hq : 0 < q) :
    assemble host body clean rows =
        (trimLoop q (rows.map MsgRow.toMessage).dropLast.reverse
          (stringifyParts (expandedParts host body clean)).length
          [⟨"user".units, .parts (expandedParts host body clean)⟩]).reverse ∧
      (assemble host body clean rows).getLast? =
        some ⟨"user".units, .parts (expandedParts host body clean)⟩ ∧
      (assemble host body clean rows =
          [⟨"user".units, .parts (expandedParts host body clean)⟩] ∨
        ((totalSize (assemble host body clean rows).dropLast +
          (stringifyParts (expandedParts host body clean)).length : Nat) : ℚ) ≤ q) := by
  have hE := expandLast_on host body clean (rows.map MsgRow.toMessage) hvision
  have hasm : assemble host body clean rows =
      (trimLoop q ((rows.map MsgRow.toMessage).dropLast ++
        [(⟨"user".units, .parts (expandedParts host body clean)⟩ : Message)]).reverse
        0 []).reverse := by
    simp only [assemble, hbudget, hE]
    exact trimContext_pos q hq _
  have hT := trimLoop_trimmed q ((rows.map MsgRow.toMessage).dropLast ++
    [(⟨"user".units, .parts (expandedParts host body clean)⟩ : Message)])
  rw [← hasm] at hT
  have hlast : (assemble host body clean rows).getLast? =
      some ⟨"user".units, .parts (expandedParts host body clean)⟩ := by
    rw [Trimmed.last hT]
    simp
  refine ⟨?_, hlast, ?_⟩
  · rw [hasm, List.reverse_append, List.reverse_singleton, List.singleton_append,
      trimLoop_cons, if_neg (fun h => h.2 rfl), Nat.zero_add, List.nil_append]
    rfl
  · obtain ⟨older, -, -, hfit, -⟩ := hT
    have hsplit : assemble host body clean rows =
        (assemble host body clean rows).dropLast ++
          [⟨"user".units, .parts (expandedParts host body clean)⟩] := by
      have hne : assemble host body clean rows ≠ [] := by
        intro h0
        rw [h0] at hlast
        cases hlast
      conv_lhs => rw [← List.dropLast_append_getLast hne]
      congr 2
      have := List.getLast?_eq_getLast _ hne
      rw [hlast] at this
      exact (Option.some.inj this).symm
    rcases hfit with hlen | hfit
    · left
      rw [hsplit] at hlen ⊢
      simp only [List.length_append, List.length_singleton] at hlen
      have : (assemble host body clean rows).dropLast = [] :=
        List.length_eq_zero.mp (by omega)
      rw [this]
      rfl
    · right
      have : totalSize (assemble host body clean rows) =
          totalSize (assemble host body clean rows).dropLast +
            (stringifyParts (expandedParts host body clean)).length := by
        conv_lhs => rw [hsplit]
        rw [totalSize_append, totalSize_cons, totalSize_nil]
        rfl
      rw [← this]
      exact hfit

/-- Witness of C11: an attachment, a budget of 40 and a text with a quotation
mark and an emoji.  The stored texts have the sizes 2, 2 and 26, which fit in
the budget, but the serialization of the expanded turn, written out below,
has length 91, so the expanded turn is kept alone.  The last equation shows
the serialization of every kind of code unit and of both kinds of part. -/
theorem expansion_charged_serialized_witness :
    (0 : ℚ) < 40 ∧
      (rowsAfterInsert demoDbHistory 1
          (displayContent "a\"😀".units demoBodyQuote.images)).map
        (fun r => r.content.length) = [2, 2, 26] ∧
      stringifyParts (expandedParts demoHostVision demoBodyQuote "a\"😀".units) =
        ("[\x7b\"type\":\"text\",\"text\":\"a\\\"😀\"\x7d," ++
          "\x7b\"type\":\"image_url\",\"image_url\":" ++
          "\x7b\"url\":\"https://x/a.png\"\x7d\x7d]").units ∧
      (stringifyParts (expandedParts demoHostVision demoBodyQuote "a\"😀".units)).length
        = 91 ∧
      assemble demoHostVision demoBodyQuote "a\"😀".units
          (rowsAfterInsert demoDbHistory 1
            (displayContent "a\"😀".units demoBodyQuote.images)) =
        [⟨"user".units,
          .parts [.text "a\"😀".units, .imageUrl "https://x/a.png".units none]⟩] ∧
      (assemble demoHostVision demoBodyQuote "a\"😀".units
          (rowsAfterInsert demoDbHistory 1
            (displayContent "a\"😀".units demoBodyQuote.images))).getLast? =
        some ⟨"user".units,
          .parts (expandedParts demoHostVision demoBodyQuote "a\"😀".units)⟩ ∧
      stringifyParts [.text [97, 34, 92, 10, 31, 0xD83D, 0xDE00, 0xD83D],
          .imageUrl "u".units (some "low".units)] =
        ("[\x7b\"type\":\"text\",\"text\":\"a\\\"\\\\\\n\\u001f😀\\ud83d\"\x7d," ++
          "\x7b\"type\":\"image_url\",\"image_url\":" ++
          "\x7b\"url\":\"u\",\"detail\":\"low\"\x7d\x7d]").units :=
  ⟨by norm_num, by decide, by decide, by decide, by decide,
    (expansion_charged_serialized demoHostVision demoBodyQuote "a\"😀".units
      (rowsAfterInsert demoDbHistory 1 (displayContent "a\"😀".units demoBodyQuote.images))
      40 (by decide) rfl (by norm_num)).2.1, by decide⟩

/-- C12, counterexample: an upstream answer with status 429 is reported with
the status 502, and the whole outcome is the one obtained for an upstream
status 500 with the same body: the upstream status is not carried. -/
theorem upstream_status_not_carried :
    (send demoHost demoDb 7 1 demoBodyPlain demoRunError429).reply =
        .error 502 "Upstream error".units (some "rate limited".units) ∧
      send demoHost demoDb 7 1 demoBodyPlain demoRunError429 =
        send demoHost demoDb 7 1 demoBodyPlain demoRunError500 :=
  ⟨rfl, rfl⟩

/-- C12, amended: for every upstream response that is not a success, the error
returned to the caller has the status 502, the message `Upstream error` and,
as detail, the body of the upstream response. -/
theorem upstream_error_reply (host : Host) (db : Db) (userId convId : Nat) (body : Body) (run : Run)
    (status : Nat) (text : Str)
    (hup : run.upstream = .error status text)
    (hcall : (send host db userId convId body run).calls ≠ []) :
    (send host db userId convId body run).reply =
      .error 502 "Upstream error".units (some text) := by
  obtain ⟨call, -, -, heq⟩ := send_called host db userId convId body run hcall
  rw [heq, consume_error host userId convId run _ _ _ status text hup]

/-- Witness of C12, amended: the upstream answers 429 with a body. -/
theorem upstream_error_reply_witness :
    (send demoHost demoDb 7 1 demoBodyPlain demoRunError429).calls ≠ [] ∧
      (send demoHost demoDb 7 1 demoBodyPlain demoRunError429).reply =
        .error 502 "Upstream error".units (some "rate limited".units) :=
  ⟨List.ne_nil_of_length_pos (by decide),
    upstream_error_reply demoHost demoDb 7 1 demoBodyPlain demoRunError429 429
      "rate limited".units rfl (List.ne_nil_of_length_pos (by decide))⟩

/-- C13: for every upstream response that is not a success, the handler
inserts no assistant turn, touches no conversation and writes no event. -/
theorem upstream_error_writes_nothing (host : Host) (db : Db) (userId convId : Nat)
    (body : Body) (run : Run)
    (status : Nat) (text : Str)
    (hup : run.upstream = .error status text) :
    assistantInserts (send host db userId convId body run).writes = [] ∧
      (send host db userId convId body run).writes.any DbWrite.isTouch = false ∧
      (send host db userId convId body run).events = [] := by
  rcases send_cases host db userId convId body run with
    ⟨ws, st, m, hws, heq⟩ | ⟨call, -, -, heq⟩
  · rw [heq]
    rcases hws with rfl | rfl <;>
      simp [assistantInserts, userInsert, user_ne_assistant, DbWrite.isTouch]
  · rw [heq, consume_error host userId convId run _ _ _ status text hup]
    simp [assistantInserts, userInsert, user_ne_assistant, DbWrite.isTouch]

/-- Witness of C13: the upstream answers 429; only the user turn was written. -/
theorem upstream_error_writes_nothing_witness :
    (send demoHost demoDb 7 1 demoBodyStream demoRunError429).writes.length = 1 ∧
      (assistantInserts (send demoHost demoDb 7 1 demoBodyStream demoRunError429).writes = [] ∧
        (send demoHost demoDb 7 1 demoBodyStream demoRunError429).writes.any DbWrite.isTouch
          = false ∧
        (send demoHost demoDb 7 1 demoBodyStream demoRunError429).events = []) :=
  ⟨by decide,
    upstream_error_writes_nothing demoHost demoDb 7 1 demoBodyStream demoRunError429 429
      "rate limited".units rfl⟩

/-- C14, counterexample: without streaming, the caller disconnects while the
upstream JSON body is awaited; the two assistant turns are inserted and the
conversation is touched all the same. -/
theorem nonstream_disconnect_still_writes :
    demoBodyPlain.params.stream = false ∧
      ([⟨demoCompletionText, true⟩] : List Read).any (fun r => r.closedDuring) = true ∧
      assistantInserts (send demoHost demoDb 7 1 demoBodyPlain demoRunJsonClosed).writes =
        [.str "Hi".units, .str "Yo".units] ∧
      (send demoHost demoDb 7 1 demoBodyPlain demoRunJsonClosed).writes.any DbWrite.isTouch
        = true :=
  ⟨rfl, by decide, rfl, by decide⟩

/-- C14, amended: without streaming a caller disconnect does not change what
the handler does: the outcome is the one of the same run without any
disconnect, and once the upstream JSON body is received the assistant turns
are inserted and the conversation is touched. -/
theorem nonstream_writes_ignore_disconnect (host : Host) (db : Db) (userId convId : Nat)
    (body : Body) (run : Run)
    (ct : Option Str) (reads : List Read) (e : Bool)
    (hstream : body.params.stream = false)
    (hup : run.upstream = .ok ct reads e) :
    send host db userId convId body run =
        send host db userId convId body { upstream := .ok ct (quietReads reads) false } ∧
      ∀ data, host.jsonParse (textOf reads) = some data →
        (send host db userId convId body run).calls ≠ [] →
        assistantInserts (send host db userId convId body run).writes ≠ [] ∧
          (send host db userId convId body run).writes.any DbWrite.isTouch = true := by
  unfold send
  cases hp : prepare host db userId convId body with
  | error o =>
    refine ⟨rfl, ?_⟩
    intro data _ hcall
    rcases prepare_cases host db userId convId body with
      ⟨ws, st, m, _, heq⟩ | ⟨c, _, _, heq⟩
    · rw [hp] at heq
      cases heq
      exact absurd rfl hcall
    · rw [hp] at heq
      cases heq
  | ok call =>
    have hs : call.payload.stream = false := by
      rcases prepare_cases host db userId convId body with
        ⟨ws, st, m, _, heq⟩ | ⟨c, h1, _, heq⟩
      · rw [hp] at heq
        cases heq
      · rw [hp] at heq
        cases heq
        rw [h1, hstream]
    simp only [hs]
    unfold consume
    rw [hup]
    simp only [relay_nonstream, textOf_quietReads]
    refine ⟨trivial, ?_⟩
    intro data hdata _
    rw [hdata]
    simp only []
    constructor
    · rw [assistantInserts_append, assistantInserts_append, assistantInserts_map,
        assistantInserts_user]
      intro h
      have := congrArg List.length h
      simp only [List.nil_append, List.length_append, List.length_nil] at this
      split at this <;> simp_all
    · simp [DbWrite.isTouch]

/-- Witness of C14, amended: the run of the counterexample. -/
theorem nonstream_writes_ignore_disconnect_witness :
    demoBodyPlain.params.stream = false ∧
      send demoHost demoDb 7 1 demoBodyPlain demoRunJsonClosed =
        send demoHost demoDb 7 1 demoBodyPlain
          { upstream := .ok (some "application/json".units)
              (quietReads [⟨demoCompletionText, true⟩]) false } ∧
      assistantInserts (send demoHost demoDb 7 1 demoBodyPlain demoRunJsonClosed).writes ≠ [] :=
  have h := nonstream_writes_ignore_disconnect demoHost demoDb 7 1 demoBodyPlain
    demoRunJsonClosed (some "application/json".units) [⟨demoCompletionText, true⟩] false rfl rfl
  ⟨rfl, h.1, (h.2 demoCompletion rfl (List.ne_nil_of_length_pos (by decide))).1⟩

/-- C15: on a send with streaming whose upstream body was read to its end
while the caller stayed connected, the writes of the handler are the user
turn, then one assistant turn, then one touch of the conversation.  The
assistant turn holds the concatenation of the fragments when the upstream
answered with an event stream, and the text of the first choice (the empty
string when there is none) when it answered with a single JSON body, whatever
the number of choices. -/
theorem streaming_persists_once (host : Host) (db : Db) (userId convId : Nat)
    (body : Body) (run : Run)
    (ct : Option Str) (reads : List Read)
    (hstream : body.params.stream = true)
    (hup : run.upstream = .ok ct reads false)
    (hquiet : ∀ r ∈ reads, r.closedDuring = false)
    (hcall : (send host db userId convId body run).calls ≠ []) :
    (jsIncludes "text/event-stream".units (ct.getD []) = true →
        (send host db userId convId body run).writes =
          [userInsert userId convId body,
            .insertMessage userId convId "assistant".units
              (.str (concatText host (streamTokens host (textOf reads)))),
            .touchConversation convId]) ∧
      (jsIncludes "text/event-stream".units (ct.getD []) = false →
        ∀ data s, host.jsonParse (textOf reads) = some data → replyOf data = .str s →
          (send host db userId convId body run).writes =
            [userInsert userId convId body,
              .insertMessage userId convId "assistant".units (.str s),
              .touchConversation convId]) := by
  obtain ⟨call, -, -, heq⟩ := send_called host db userId convId body run hcall
  rw [heq, hstream]
  constructor
  · intro hsse
    rw [consume_sse_quiet host userId convId run ct reads _ _ hup hsse hquiet]
    exact (finish_open userId convId run true _ _ _ _).1
  · intro hsse data s hjson hreply
    unfold consume
    rw [hup]
    simp only []
    rw [relay_json_stream host userId convId run ct reads _ _ data s hsse hquiet hjson hreply]
    exact (finish_open userId convId run true _ _ _ _).1

/-- Witness of C15: an event stream with two fragments, and a single JSON body
with two choices. -/
theorem streaming_persists_once_witness :
    ((send demoHost demoDb 7 1 demoBodyStream demoRunStream).calls ≠ [] ∧
        (send demoHost demoDb 7 1 demoBodyStream demoRunStream).writes =
          [userInsert 7 1 demoBodyStream,
            .insertMessage 7 1 "assistant".units (.str "Hello".units),
            .touchConversation 1]) ∧
      ((send demoHost demoDb 7 1 demoBodyStream demoRunJson).calls ≠ [] ∧
        replyOf demoCompletion = .str "Hi".units ∧
        (send demoHost demoDb 7 1 demoBodyStream demoRunJson).writes =
          [userInsert 7 1 demoBodyStream,
            .insertMessage 7 1 "assistant".units (.str "Hi".units),
            .touchConversation 1]) :=
  ⟨⟨List.ne_nil_of_length_pos (by decide),
      (streaming_persists_once demoHost demoDb 7 1 demoBodyStream demoRunStream
        (some "text/event-stream".units) [Read.quiet demoStream] rfl rfl (by decide)
        (List.ne_nil_of_length_pos (by decide))).1 (by decide)⟩,
    ⟨List.ne_nil_of_length_pos (by decide), rfl,
      (streaming_persists_once demoHost demoDb 7 1 demoBodyStream demoRunJson
        (some "application/json".units) [Read.quiet demoCompletionText] rfl rfl (by decide)
        (List.ne_nil_of_length_pos (by decide))).2 (by decide) demoCompletion "Hi".units
        rfl rfl⟩⟩

/-- C16, counterexample: the caller has a private credential and a more recent
credential of their own that is shared; without explicit id and outside the
shared scope `chooseApiKey` returns the shared one.  When the shared one is
the only credential of the caller it is returned as well, instead of an
error. -/
theorem own_shared_key_selected :
    (⟨1, 7, "deepseek".units, "sk-private".units, none, false, 10⟩ : KeyRow) ∈
        demoKeysOwnShared ∧
      chooseApiKey demoHost demoKeysOwnShared 7 (some "deepseek".units) "user".units none none =
        .ok ⟨3, 7, "deepseek".units, "sk-own-shared".units, none, true, 20⟩ ∧
      chooseApiKey demoHost [⟨3, 7, "deepseek".units, "sk-own-shared".units, none, true, 20⟩] 7
          (some "deepseek".units) "user".units none none =
        .ok ⟨3, 7, "deepseek".units, "sk-own-shared".units, none, true, 20⟩ :=
  ⟨by decide, rfl, rfl⟩

/-- C16, amended: without explicit credential id and outside the shared scope,
`chooseApiKey` returns a credential of the caller with the greatest creation
time among those of the caller whose provider is the requested one, shared or
not, and fails with `No API key` exactly when the caller has no credential of
that provider.  The requested provider is the one named, in lower case, and
`deepseek` when none is named. -/
theorem user_default_is_newest_own (host : Host) (keys : List KeyRow) (userId : Nat)
    (provider : Option Str) (source : Str) (shared_key_id : Option Nat) (wanted : Str)
    (hsource : source ≠ "shared".units)
    (hwanted : (∃ p, provider = some p ∧ p ≠ [] ∧ wanted = host.lower p) ∨
      ((provider = none ∨ provider = some []) ∧ wanted = host.lower "deepseek".units)) :
    (∀ r, chooseApiKey host keys userId provider source none shared_key_id = .ok r →
        r ∈ keys ∧ r.user_id = userId ∧ host.sqlEq r.provider wanted = true ∧
          ∀ x ∈ keys, x.user_id = userId → host.sqlEq x.provider wanted = true →
            x.created_at ≤ r.created_at) ∧
      ((∃ x ∈ keys, x.user_id = userId ∧ host.sqlEq x.provider wanted = true) →
        ∃ r, chooseApiKey host keys userId provider source none shared_key_id = .ok r) ∧
      (chooseApiKey host keys userId provider source none shared_key_id =
          .error "No API key. Please add in profile.".units ↔
        ¬ ∃ x ∈ keys, x.user_id = userId ∧ host.sqlEq x.provider wanted = true) := by
  have hw : effectiveProvider host provider = wanted := by
    rcases hwanted with ⟨p, rfl, hp, rfl⟩ | ⟨hnone | hempty, rfl⟩
    · have : p.isEmpty = false := by
        cases p with
        | nil => exact absurd rfl hp
        | cons c cs => rfl
      simp [effectiveProvider, this]
    · rw [hnone]
      rfl
    · rw [hempty]
      rfl
  rw [chooseApiKey_user_default host keys userId provider source shared_key_id hsource, hw]
  cases hn : newest (keys.filter (fun r => r.user_id == userId &&
      host.sqlEq r.provider wanted)) with
  | none =>
    have hnil := (newest_eq_none _).mp hn
    have hno : ¬ ∃ x ∈ keys, x.user_id = userId ∧ host.sqlEq x.provider wanted = true := by
      rintro ⟨x, hx, hu, hp⟩
      have : x ∈ keys.filter (fun r => r.user_id == userId &&
          host.sqlEq r.provider wanted) := by
        rw [List.mem_filter]
        exact ⟨hx, by simp [hu, hp]⟩
      rw [hnil] at this
      cases this
    exact ⟨(fun r h => nomatch h), fun h => absurd h hno, ⟨fun _ => hno, fun _ => rfl⟩⟩
  | some b =>
    obtain ⟨hb, hmax⟩ := newest_spec _ b hn
    rw [List.mem_filter] at hb
    have hb2 : b.user_id = userId ∧ host.sqlEq b.provider wanted = true := by
      simpa using hb.2
    refine ⟨?_, fun _ => ⟨b, rfl⟩, ⟨(fun h => nomatch h), ?_⟩⟩
    · intro r h
      simp only [Except.ok.injEq] at h
      subst h
      refine ⟨hb.1, hb2.1, hb2.2, ?_⟩
      intro x hx hu hp
      exact hmax x (by rw [List.mem_filter]; exact ⟨hx, by simp [hu, hp]⟩)
    · intro hno
      exact absurd ⟨b, hb.1, hb2.1, hb2.2⟩ hno

/-- Witness of C16, amended: user 7 asks for the provider `OpenAI`; the
credential of user 7 for `openai` is selected, although the credential of
user 7 for `deepseek` is more recent, and for a provider of which user 7 has no
credential the selection fails. -/
theorem user_default_is_newest_own_witness :
    "user".units ≠ "shared".units ∧
      demoHost.lower "OpenAI".units = "openai".units ∧
      chooseApiKey demoHost demoKeysProviders 7 (some "OpenAI".units) "user".units none none =
        .ok ⟨5, 7, "openai".units, "sk-openai".units, none, false, 10⟩ ∧
      (∀ r, chooseApiKey demoHost demoKeysProviders 7 (some "OpenAI".units) "user".units
          none none = .ok r →
        r.user_id = 7 ∧ (r.provider == "openai".units) = true) ∧
      chooseApiKey demoHost demoKeysProviders 7 (some "claude".units) "user".units none none =
        .error "No API key. Please add in profile.".units :=
  ⟨by decide, by decide, rfl, fun r h =>
    have hr := (user_default_is_newest_own demoHost demoKeysProviders 7 (some "OpenAI".units)
      "user".units none "openai".units (by decide)
      (Or.inl ⟨"OpenAI".units, rfl, by decide, by decide⟩)).1 r h
    ⟨hr.2.1, hr.2.2.1⟩,
    rfl⟩

/-- C17: in the shared scope without explicit shared credential id,
`chooseApiKey` returns a shared credential with the greatest creation time
among the shared ones whose provider is the requested one, and it fails with
`No shared key available` exactly when no shared credential of that provider
exists.  The requested provider is the one named, in lower case, and
`deepseek` when none is named. -/
theorem shared_default_is_newest_shared (host : Host) (keys : List KeyRow) (userId : Nat)
    (provider : Option Str) (key_id : Option Nat) (wanted : Str)
    (hwanted : (∃ p, provider = some p ∧ p ≠ [] ∧ wanted = host.lower p) ∨
      ((provider = none ∨ provider = some []) ∧ wanted = host.lower "deepseek".units)) :
    (∀ r, chooseApiKey host keys userId provider "shared".units key_id none = .ok r →
        r ∈ keys ∧ r.is_shared = true ∧ host.sqlEq r.provider wanted = true ∧
          ∀ x ∈ keys, x.is_shared = true → host.sqlEq x.provider wanted = true →
            x.created_at ≤ r.created_at) ∧
      ((∃ x ∈ keys, x.is_shared = true ∧ host.sqlEq x.provider wanted = true) →
        ∃ r, chooseApiKey host keys userId provider "shared".units key_id none = .ok r) ∧
      (chooseApiKey host keys userId provider "shared".units key_id none =
          .error "No shared key available".units ↔
        ¬ ∃ x ∈ keys, x.is_shared = true ∧ host.sqlEq x.provider wanted = true) := by
  have hw : effectiveProvider host provider = wanted := by
    rcases hwanted with ⟨p, rfl, hp, rfl⟩ | ⟨hnone | hempty, rfl⟩
    · have : p.isEmpty = false := by
        cases p with
        | nil => exact absurd rfl hp
        | cons c cs => rfl
      simp [effectiveProvider, this]
    · rw [hnone]
      rfl
    · rw [hempty]
      rfl
  rw [chooseApiKey_shared_default host keys userId provider key_id, hw]
  cases hn : newest (keys.filter (fun r => r.is_shared && host.sqlEq r.provider wanted)) with
  | none =>
    have hnil := (newest_eq_none _).mp hn
    have hno : ¬ ∃ x ∈ keys, x.is_shared = true ∧ host.sqlEq x.provider wanted = true := by
      rintro ⟨x, hx, hs, hp⟩
      have : x ∈ keys.filter (fun r => r.is_shared && host.sqlEq r.provider wanted) := by
        rw [List.mem_filter]
        exact ⟨hx, by simp [hs, hp]⟩
      rw [hnil] at this
      cases this
    exact ⟨(fun r h => nomatch h), fun h => absurd h hno, ⟨fun _ => hno, fun _ => rfl⟩⟩
  | some b =>
    obtain ⟨hb, hmax⟩ := newest_spec _ b hn
    rw [List.mem_filter] at hb
    have hb2 : b.is_shared = true ∧ host.sqlEq b.provider wanted = true := by
      simpa using hb.2
    refine ⟨?_, fun _ => ⟨b, rfl⟩, ⟨(fun h => nomatch h), ?_⟩⟩
    · intro r h
      simp only [Except.ok.injEq] at h
      subst h
      refine ⟨hb.1, hb2.1, hb2.2, ?_⟩
      intro x hx hs hp
      exact hmax x (by rw [List.mem_filter]; exact ⟨hx, by simp [hs, hp]⟩)
    · intro hno
      exact absurd ⟨b, hb.1, hb2.1, hb2.2⟩ hno

/-- Witness of C17: the shared scope is asked for the provider `OpenAI`; the
shared credential for `openai` is selected, although the shared credential for
`deepseek` is more recent; without a named provider the shared credential for
`deepseek` is selected, and for a provider without shared credential the
selection fails. -/
theorem shared_default_is_newest_shared_witness :
    demoHost.lower "OpenAI".units = "openai".units ∧
      chooseApiKey demoHost demoKeysProviders 7 (some "OpenAI".units) "shared".units none none =
        .ok ⟨6, 8, "openai".units, "sk-openai-shared".units, none, true, 5⟩ ∧
      (∀ r, chooseApiKey demoHost demoKeysProviders 7 (some "OpenAI".units) "shared".units
          none none = .ok r →
        r.is_shared = true ∧ (r.provider == "openai".units) = true) ∧
      chooseApiKey demoHost demoKeysProviders 7 none "shared".units none none =
        .ok ⟨2, 8, "deepseek".units, "sk-shared".units, none, true, 40⟩ ∧
      chooseApiKey demoHost demoKeysPool 7 (some "deepseek".units) "shared".units none none =
        .ok ⟨4, 8, "deepseek".units, "sk-shared-new".units, none, true, 30⟩ ∧
      chooseApiKey demoHost demoKeysProviders 7 (some "claude".units) "shared".units none none =
        .error "No shared key available".units :=
  ⟨by decide, rfl, fun r h =>
    have hr := (shared_default_is_newest_shared demoHost demoKeysProviders 7
      (some "OpenAI".units) none "openai".units
      (Or.inl ⟨"OpenAI".units, rfl, by decide, by decide⟩)).1 r h
    ⟨hr.2.1, hr.2.2.1⟩,
    rfl, rfl, rfl⟩

/-- C18: whatever the table, the caller, the provider and the options, a
credential returned by `chooseApiKey` is a row of the table that is shared or
owned by the caller. -/
theorem returned_key_shared_or_own (host : Host) (keys : List KeyRow) (userId : Nat)
    (provider : Option Str) (source : Str) (key_id shared_key_id : Option Nat) (r : KeyRow)
    (h : chooseApiKey host keys userId provider source key_id shared_key_id = .ok r) :
    r ∈ keys ∧ (r.is_shared = true ∨ r.user_id = userId) := by
  unfold chooseApiKey at h
  simp only [] at h
  split at h
  · split at h
    · split at h
      · cases h
      · next r' rest hf =>
        simp only [Except.ok.injEq] at h
        subst h
        have hm : r' ∈ keys.filter _ := hf ▸ List.mem_cons_self _ _
        rw [List.mem_filter] at hm
        refine ⟨hm.1, Or.inl ?_⟩
        have := hm.2
        simp only [Bool.and_eq_true] at this
        exact this.1.2
    · split at h
      · cases h
      · next r' hnew =>
        simp only [Except.ok.injEq] at h
        subst h
        obtain ⟨hm, -⟩ := newest_spec _ r' hnew
        rw [List.mem_filter] at hm
        refine ⟨hm.1, Or.inl ?_⟩
        have := hm.2
        simp only [Bool.and_eq_true] at this
        exact this.1
  · split at h
    · split at h
      · cases h
      · next r' rest hf =>
        simp only [Except.ok.injEq] at h
        subst h
        have hm : r' ∈ keys.filter _ := hf ▸ List.mem_cons_self _ _
        rw [List.mem_filter] at hm
        refine ⟨hm.1, Or.inr ?_⟩
        have := hm.2
        simp only [Bool.and_eq_true, beq_iff_eq] at this
        exact this.1.2
    · split at h
      · cases h
      · next r' hnew =>
        simp only [Except.ok.injEq] at h
        subst h
        obtain ⟨hm, -⟩ := newest_spec _ r' hnew
        rw [List.mem_filter] at hm
        refine ⟨hm.1, Or.inr ?_⟩
        have := hm.2
        simp only [Bool.and_eq_true, beq_iff_eq] at this
        exact this.1

/-- Witness of C18: the caller 7 names the credential 2, a private credential
of nobody but a shared one of user 8. -/
theorem returned_key_shared_or_own_witness :
    chooseApiKey demoHost demoKeysPool 7 (some "deepseek".units) "shared".units none (some 2) =
        .ok ⟨2, 8, "deepseek".units, "sk-shared-old".units, none, true, 20⟩ ∧
      ((⟨2, 8, "deepseek".units, "sk-shared-old".units, none, true, 20⟩ : KeyRow) ∈
          demoKeysPool ∧
        ((⟨2, 8, "deepseek".units, "sk-shared-old".units, none, true, 20⟩ : KeyRow).is_shared
            = true ∨
          (⟨2, 8, "deepseek".units, "sk-shared-old".units, none, true, 20⟩ : KeyRow).user_id
            = 7)) :=
  ⟨rfl, returned_key_shared_or_own demoHost demoKeysPool 7 (some "deepseek".units)
    "shared".units none (some 2) _ rfl⟩

/-- C19: in every call issued by the handler the model is the one of the
reference order: the model of the caller when one is given (a non-empty
string), otherwise the model of the configuration of the selected credential
when one is present, otherwise `deepseek-chat`; a configuration that is absent
or is not valid JSON gives no configured model. -/
theorem model_precedence (host : Host) (db : Db) (userId convId : Nat) (body : Body) (run : Run) :
    ∀ call ∈ (send host db userId convId body run).calls,
      ∃ row, chooseApiKey host db.api_keys userId (some (requestProvider host body.params))
            (if body.params.use_shared then "shared".units else "user".units)
            body.params.key_id body.params.shared_key_id = .ok row ∧
        call.api_key = row.api_key ∧
        call.payload.model = modelRef host body.model row.config_json ∧
        (∀ m, body.model = some m → m ≠ [] → call.payload.model = .str m) ∧
        (body.model = none →
          (row.config_json = none ∨
            ∃ c, row.config_json = some c ∧ host.jsonParse c = none) →
          call.payload.model = .str "deepseek-chat".units) := by
  intro call hcall
  obtain ⟨row, hrow, hc⟩ := prepare_ok host db userId convId body call
    (send_calls host db userId convId body run call hcall)
  have hmodel : call.payload.model = modelRef host body.model row.config_json := by
    rw [hc]
    exact buildPayload_model host body row _
  refine ⟨row, hrow, by rw [hc], hmodel, ?_, ?_⟩
  · intro m hm hne
    rw [hmodel, hm]
    have : m.isEmpty = false := by
      cases m with
      | nil => exact absurd rfl hne
      | cons a t => rfl
    simp [modelRef, this]
  · intro hnone hcfg
    rw [hmodel, hnone]
    rcases hcfg with h | ⟨c, h, hp⟩
    · simp [modelRef, configuredModel, h]
    · simp only [modelRef, configuredModel, h, hp]
      cases c.isEmpty <;> rfl

/-- Witness of C19: a credential configured with the model `m-config`; the
call carries `m-config` when the caller names no model and `m-caller` when the
caller names it. -/
theorem model_precedence_witness :
    (send demoHostConfig demoDbConfig 7 1 demoBodyPlain demoRunJson).calls.map
        (fun c => c.payload.model) = [.str "m-config".units] ∧
      (send demoHostConfig demoDbConfig 7 1 demoBodyModel demoRunJson).calls.map
        (fun c => c.payload.model) = [.str "m-caller".units] ∧
      (send demoHost demoDb 7 1 demoBodyPlain demoRunJson).calls.map
        (fun c => c.payload.model) = [.str "deepseek-chat".units] ∧
      ∃ call ∈ (send demoHostConfig demoDbConfig 7 1 demoBodyPlain demoRunJson).calls,
        ∃ row : KeyRow, call.api_key = row.api_key ∧
          call.payload.model = modelRef demoHostConfig demoBodyPlain.model row.config_json :=
  have h := model_precedence demoHostConfig demoDbConfig 7 1 demoBodyPlain demoRunJson
    ((send demoHostConfig demoDbConfig 7 1 demoBodyPlain demoRunJson).calls.head
      (List.ne_nil_of_length_pos (by decide))) (List.head_mem _)
  ⟨rfl, rfl, rfl, _, List.head_mem _, h.choose, h.choose_spec.2.1, h.choose_spec.2.2.1⟩

/-- C20: in every call issued by the handler, each of temperature, top_p,
max_tokens, n, frequency_penalty and presence_penalty is in the payload exactly
when the caller supplied it in `params`, with the value `Number` gives to what
was supplied. -/
theorem numeric_params_copied_iff_supplied (host : Host) (db : Db) (userId convId : Nat)
    (body : Body) (run : Run) :
    ∀ call ∈ (send host db userId convId body run).calls,
      call.payload.numericFields =
          body.params.numericFields.map (fun v => v.map host.toNumber) ∧
        call.payload.numericFields.map Option.isSome =
          body.params.numericFields.map Option.isSome := by
  intro call hcall
  obtain ⟨row, -, hc⟩ := prepare_ok host db userId convId body call
    (send_calls host db userId convId body run call hcall)
  have h1 : call.payload.numericFields =
      body.params.numericFields.map (fun v => v.map host.toNumber) := by
    rw [hc]
    rfl
  refine ⟨h1, ?_⟩
  rw [h1]
  simp [Params.numericFields]

/-- Witness of C20: the caller supplies `temperature` and `n` only. -/
theorem numeric_params_copied_iff_supplied_witness :
    (send demoHost demoDb 7 1 demoBodyParams demoRunJson).calls.map
        (fun c => c.payload.numericFields) =
        [[some (.fin (1 / 2)), none, none, some (.fin 2), none, none]] ∧
      ∃ call ∈ (send demoHost demoDb 7 1 demoBodyParams demoRunJson).calls,
        call.payload.numericFields =
            demoBodyParams.params.numericFields.map (fun v => v.map demoHost.toNumber) ∧
          call.payload.numericFields.map Option.isSome =
            demoBodyParams.params.numericFields.map Option.isSome :=
  ⟨rfl, _, List.head_mem (List.ne_nil_of_length_pos (by decide)),
    numeric_params_copied_iff_supplied demoHost demoDb 7 1 demoBodyParams demoRunJson _
      (List.head_mem _)⟩

/-- With streaming requested and a single JSON body read while the `close`
callback did not run, the reply (the text of the first choice, a string `s`)
is forwarded one code unit at a time: the incremental events are as many as
the code units of `s`, each carries exactly one of them, and their
concatenation in order is `s`. -/
theorem json_reply_forwarded_by_unit (host : Host) (db : Db) (userId convId : Nat)
    (body : Body) (run : Run) (ct : Option Str) (reads : List Read) (data : Json) (s : Str)
    (hstream : body.params.stream = true)
    (hup : run.upstream = .ok ct reads false)
    (hsse : jsIncludes "text/event-stream".units (ct.getD []) = false)
    (hquiet : ∀ r ∈ reads, r.closedDuring = false)
    (hjson : host.jsonParse (textOf reads) = some data)
    (hreply : replyOf data = .str s)
    (hcall : (send host db userId convId body run).calls ≠ []) :
    deltaPayloads (send host db userId convId body run).events =
        s.map (fun ch => Json.str [ch]) ∧
      (deltaPayloads (send host db userId convId body run).events).length = s.length ∧
      concatText host (deltaPayloads (send host db userId convId body run).events) = s := by
  obtain ⟨call, -, -, heq⟩ := send_called host db userId convId body run hcall
  have hev : deltaPayloads (send host db userId convId body run).events =
      s.map (fun ch => Json.str [ch]) := by
    rw [heq, hstream]
    unfold consume
    rw [hup]
    simp only []
    rw [relay_json_stream host userId convId run ct reads _ _ data s hsse hquiet hjson hreply]
    have hmap : s.map (fun ch => Event.delta (.str [ch])) =
        (s.map (fun ch => Json.str [ch])).map Event.delta := by
      rw [List.map_map]
      rfl
    rcases (finish_open userId convId run true (.str s) [userInsert userId convId body] [call]
      (s.map (fun ch => Event.delta (.str [ch])))).2 with h | h
    · rw [h, hmap, deltaPayloads_map]
    · rw [h, deltaPayloads_append, hmap, deltaPayloads_map, deltaPayloads_done,
        List.append_nil]
  rw [hev]
  exact ⟨rfl, by simp, concatText_units host s⟩

/-- C21, the code at the failing input: streaming is requested and the upstream
answers with a single JSON body whose first choice is the emoji U+1F600.  The
reply is one character, of two code units, and the handler forwards it as two
events, each carrying one surrogate and no character; the assistant turn holds
the emoji. -/
theorem emoji_reply_split_in_surrogates :
    "😀".units = [0xD83D, 0xDE00] ∧
      replyOf (.obj [("choices".units, .arr
        [.obj [("message".units, .obj [("content".units, .str "😀".units)])]])]) =
        .str "😀".units ∧
      deltaPayloads (send demoHostEmoji demoDb 7 1 demoBodyStream demoRunJson).events =
        [.str [0xD83D], .str [0xDE00]] ∧
      (send demoHostEmoji demoDb 7 1 demoBodyStream demoRunJson).events.map Event.isDone =
        [false, false, true] ∧
      assistantInserts (send demoHostEmoji demoDb 7 1 demoBodyStream demoRunJson).writes =
        [.str "😀".units] :=
  ⟨by decide, rfl, rfl, rfl, rfl⟩

/-- C22, counterexample: in a frame whose first line is the sentinel
`data: [DONE]` and whose second line carries the fragment `x`, the fragment is
extracted: it is forwarded to the caller and persisted. -/
theorem fragment_after_sentinel_extracted :
    isSentinel "data: [DONE]".units = true ∧
      dataLines demoFrameSentinel = ["data: [DONE]".units,
        "data: \x7b\"choices\":[\x7b\"delta\":\x7b\"content\":\"x\"\x7d\x7d]\x7d".units] ∧
      frameTokens demoHost demoFrameSentinel = [.str "x".units] ∧
      deltaPayloads (send demoHost demoDb 7 1 demoBodyStream demoRunSentinel).events =
        [.str "x".units] ∧
      assistantInserts (send demoHost demoDb 7 1 demoBodyStream demoRunSentinel).writes =
        [.str "x".units] :=
  ⟨by decide, by decide, rfl, rfl, rfl⟩

/-- C22, amended: the sentinel line is not an error and carries no fragment;
it is skipped, and the fragments of the frame are those of its other data
lines, in order, the lines that follow the sentinel included. -/
theorem sentinel_line_skipped (host : Host) (pre post : List Str) (s : Str)
    (hs : isSentinel s = true) (hlines : ∀ l ∈ pre ++ s :: post, 10 ∉ l) :
    lineToken host s = none ∧
      frameTokens host (jsJoin "\n".units (pre ++ s :: post)) =
        ((pre ++ post).filter (fun l => "data:".units.isPrefixOf l)).filterMap
          (lineToken host) := by
  have hnone := lineToken_sentinel host s hs
  refine ⟨hnone, ?_⟩
  have hdata : "data:".units.isPrefixOf s = true := by
    simp only [isSentinel, Bool.and_eq_true] at hs
    exact hs.1
  have hsplit : jsSplit "\n".units (jsJoin "\n".units (pre ++ s :: post)) = pre ++ s :: post :=
    jsSplit_jsJoin 10 (pre ++ s :: post) (by simp) hlines
  simp only [frameTokens, dataLines, hsplit, List.filter_append, List.filter_cons, hdata,
    if_true, List.filterMap_append, List.filterMap_cons, hnone]

/-- Witness of C22: the frame `demoFrameSentinel`, with no line before the
sentinel and one line after it. -/
theorem sentinel_line_skipped_witness :
    isSentinel "data: [DONE]".units = true ∧
      jsJoin "\n".units ([] ++ "data: [DONE]".units ::
        [(dataLines demoFrameSentinel).getLast?.getD []]) = demoFrameSentinel ∧
      frameTokens demoHost (jsJoin "\n".units ([] ++ "data: [DONE]".units ::
        [(dataLines demoFrameSentinel).getLast?.getD []])) = [.str "x".units] :=
  ⟨by decide, by decide,
    (sentinel_line_skipped demoHost [] [(dataLines demoFrameSentinel).getLast?.getD []]
      "data: [DONE]".units (by decide) (by decide)).2.trans rfl⟩

/-- C23: a frame all of whose data payloads are not valid JSON, or are JSON
without a non-empty `choices[0].delta.content`, is ignored wherever it stands in
a sequence of frames.  The loop over the frames of a read reaches the same
state with and without it, from every state: the frames after it are still
decoded, and the events written and the accumulated reply are the same.  So an
event stream read to its end while the caller stayed connected has the same
outcome with and without such a frame. -/
theorem unrecognized_frames_ignored (host : Host) (pre post : List Str) (bad : Str)
    (hbad : ignorableFrame host bad = true) :
    (∀ st : Relay,
        Relay.frames host st (pre ++ bad :: post) = Relay.frames host st (pre ++ post)) ∧
      ∀ (db : Db) (userId convId : Nat) (body : Body) (run : Run) (ct : Option Str)
        (reads₁ reads₂ : List Read) (tail : Str),
        body.params.stream = true →
        jsIncludes "text/event-stream".units (ct.getD []) = true →
        (∀ r ∈ reads₁, r.closedDuring = false) →
        (∀ r ∈ reads₂, r.closedDuring = false) →
        (∀ f ∈ pre ++ bad :: post, isFrame f = true) →
        textOf reads₁ = framesText (pre ++ bad :: post) ++ tail →
        textOf reads₂ = framesText (pre ++ post) ++ tail →
        send host db userId convId body { run with upstream := .ok ct reads₁ false } =
          send host db userId convId body { run with upstream := .ok ct reads₂ false } := by
  have htok := frameTokens_ignorable host bad hbad
  constructor
  · intro st
    rw [Relay.frames_append, Relay.frames_append]
    simp only [Relay.frames, List.foldl_cons, htok, List.foldl_nil]
  · intro db userId convId body run ct reads₁ reads₂ tail hstream hsse hq₁ hq₂ hframes h₁ h₂
    apply send_sse_congr host db userId convId body run ct reads₁ reads₂ hstream hsse hq₁ hq₂
    have hframes₂ : ∀ f ∈ pre ++ post, isFrame f = true := by
      intro f hf
      apply hframes f
      rcases List.mem_append.mp hf with h | h
      · exact List.mem_append_left _ h
      · exact List.mem_append_right _ (List.mem_cons_of_mem _ h)
    rw [h₁, h₂, streamTokens_frames host _ tail hframes,
      streamTokens_frames host _ tail hframes₂]
    simp only [List.flatMap_append, List.flatMap_cons, htok, List.nil_append]

/-- Witness of C23: a frame that is not JSON between the frames of `He` and
`llo`. -/
theorem unrecognized_frames_ignored_witness :
    ignorableFrame demoHost demoFrameNoise = true ∧
      (Relay.frames demoHost Relay.init [demoFrameHe, demoFrameNoise, demoFrameLlo]).finalText =
        "Hello".units ∧
      send demoHost demoDb 7 1 demoBodyStream
          { upstream := .ok (some "text/event-stream".units)
              [Read.quiet (framesText [demoFrameHe, demoFrameNoise, demoFrameLlo])] false } =
        send demoHost demoDb 7 1 demoBodyStream
          { upstream := .ok (some "text/event-stream".units)
              [Read.quiet (framesText [demoFrameHe, demoFrameLlo])] false } :=
  ⟨by decide,
    (congrArg Relay.finalText
      ((unrecognized_frames_ignored demoHost [demoFrameHe] [demoFrameLlo] demoFrameNoise
        (by decide)).1 Relay.init)).trans rfl,
    (unrecognized_frames_ignored demoHost [demoFrameHe] [demoFrameLlo] demoFrameNoise
      (by decide)).2 demoDb 7 1 demoBodyStream { upstream := .failed }
      (some "text/event-stream".units) _ _ [] rfl (by decide) (by decide) (by decide)
      (by decide) rfl rfl⟩

/-- C24: for an attachment that is stored locally and can be read, the image
part is a data URL whose MIME type is decided by the extension of the stored
name (the text after its last dot), in lower case: `png` gives `image/png`,
`jpg` and `jpeg` give `image/jpeg`, `webp` gives `image/webp`, `gif` gives
`image/gif` and every other extension gives `application/octet-stream`. -/
theorem mime_from_extension (host : Host) (detail : Option Str) (u b64 : Str)
    (hlocal : isDirectUrl u = false)
    (hread : host.readBase64 (host.basename u) = some b64) :
    ∃ mime, toDataUrlImage host detail u =
        some (.imageUrl ("data:".units ++ mime ++ ";base64,".units ++ b64) detail) ∧
      (host.lower (extensionOf (host.basename u)) = "png".units → mime = "image/png".units) ∧
      (host.lower (extensionOf (host.basename u)) = "jpg".units ∨
        host.lower (extensionOf (host.basename u)) = "jpeg".units → mime = "image/jpeg".units) ∧
      (host.lower (extensionOf (host.basename u)) = "webp".units → mime = "image/webp".units) ∧
      (host.lower (extensionOf (host.basename u)) = "gif".units → mime = "image/gif".units) ∧
      (host.lower (extensionOf (host.basename u)) ∉
          ["png".units, "jpg".units, "jpeg".units, "webp".units, "gif".units] →
        mime = "application/octet-stream".units) := by
  refine ⟨mimeOf host (host.basename u), ?_, ?_⟩
  · simp only [toDataUrlImage, hlocal, Bool.false_eq_true, if_false, hread]
  · rw [mimeOf_eq]
    generalize host.lower (extensionOf (host.basename u)) = ext
    refine ⟨?_, ?_, ?_, ?_, ?_⟩
    · intro h
      rw [if_pos h]
    · intro h
      have h1 : ext ≠ "png".units := by
        rcases h with h | h <;> rw [h] <;> decide
      rw [if_neg h1, if_pos h]
    · intro h
      have h1 : ext ≠ "png".units := by rw [h]; decide
      have h2 : ¬ (ext = "jpg".units ∨ ext = "jpeg".units) := by rw [h]; decide
      rw [if_neg h1, if_neg h2, if_pos h]
    · intro h
      have h1 : ext ≠ "png".units := by rw [h]; decide
      have h2 : ¬ (ext = "jpg".units ∨ ext = "jpeg".units) := by rw [h]; decide
      have h3 : ext ≠ "webp".units := by rw [h]; decide
      rw [if_neg h1, if_neg h2, if_neg h3, if_pos h]
    · intro h
      simp only [List.mem_cons, List.mem_singleton, List.not_mem_nil, or_false, not_or] at h
      obtain ⟨h1, h2, h3, h4, h5⟩ := h
      rw [if_neg h1, if_neg (not_or.mpr ⟨h2, h3⟩), if_neg h4, if_neg h5]

/-- Witness of C24: the stored upload `uid-7-1-k-cat.PNG`, whose extension is
written in capitals, is embedded as `image/png`. -/
theorem mime_from_extension_witness :
    isDirectUrl "/uploads/uid-7-1-k-cat.PNG".units = false ∧
      extensionOf "uid-7-1-k-cat.PNG".units = "PNG".units ∧
      toDataUrlImage demoHostFiles none "/uploads/uid-7-1-k-cat.PNG".units =
        some (.imageUrl "data:image/png;base64,AAAA".units none) := by
  refine ⟨by decide, by decide, ?_⟩
  obtain ⟨mime, h, hpng, -⟩ := mime_from_extension demoHostFiles none
    "/uploads/uid-7-1-k-cat.PNG".units "AAAA".units (by decide) (by decide)
  rw [h, hpng (by decide)]
  rfl

/-- C25, the code at the failing input: the request of the registration test,
with an email, a password and a name and without account, is answered 400
`Account and password required` and writes nothing, whatever the users already
stored. -/
theorem register_by_email_refused (host : Host) (hashSync : Json → Option Str)
    (users : List UserRow) (insertId : Nat) :
    (register host hashSync users insertId demoRegisterBody).writes = [] ∧
      register host hashSync users insertId demoRegisterBody =
        ⟨[], .error 400 "Account and password required".units⟩ :=
  ⟨rfl, rfl⟩

/-- C26, the code at the failing inputs: of the three undo instructions of the
docstring of `parseCommand`, `取消第3步完成` and `未完成第3步` are parsed as the
command that marks step 3 as done, because the expression of line 84 is tried
first and matches inside them, and `将第3步标记为未完成` is not parsed at all. -/
theorem documented_undo_not_parsed :
    parseCommand demoHostDigits "取消第3步完成".units = some (.done (.fin 3)) ∧
      parseCommand demoHostDigits "未完成第3步".units = some (.done (.fin 3)) ∧
      parseCommand demoHostDigits "将第3步标记为未完成".units = none :=
  ⟨rfl, rfl, rfl⟩

/-- C27: when `params.context_length` is absent, or converts to zero, to a
negative number or to a value that is not a finite number, the trimming step is
skipped: the messages assembled are the whole list obtained after the
attachments were merged, whatever its size, and they are the messages of the
call. -/
theorem no_budget_no_trimming (host : Host) (db : Db) (userId convId : Nat) (body : Body)
    (run : Run) (hoff : noBudget host body.params.context_length = true) :
    (∀ (clean : Str) (rows : List MsgRow),
        assemble host body clean rows =
          expandLast host body.params clean body.images (rows.map MsgRow.toMessage)) ∧
      ∀ call ∈ (send host db userId convId body run).calls,
        call.payload.messages =
          expandLast host body.params (cleanOf body) body.images
            ((rowsAfterInsert db convId (displayContent (cleanOf body) body.images)).map
              MsgRow.toMessage) := by
  have hskip : ∀ msgs, trimContext (maxCtxOf host body.params.context_length) msgs = msgs := by
    intro msgs
    cases hc : body.params.context_length with
    | none => rfl
    | some v =>
      rw [hc] at hoff
      simp only [maxCtxOf]
      cases hv : v.truthy with
      | false => rfl
      | true =>
        simp only [if_true]
        simp only [noBudget] at hoff
        cases hn : host.toNumber v with
        | nan => rfl
        | inf b => rfl
        | fin q =>
          rw [hn] at hoff
          have hq : q ≤ 0 := by simpa using hoff
          have : ¬ (q ≠ 0 ∧ q > 0) := fun h => absurd h.2 (not_lt.mpr hq)
          simp only [trimContext, this, if_false]
  have hasm : ∀ (clean : Str) (rows : List MsgRow),
      assemble host body clean rows =
        expandLast host body.params clean body.images (rows.map MsgRow.toMessage) := by
    intro clean rows
    simp only [assemble, hskip]
  refine ⟨hasm, ?_⟩
  intro call hcall
  obtain ⟨row, -, hc⟩ := prepare_ok host db userId convId body call
    (send_calls host db userId convId body run call hcall)
  rw [hc]
  exact hasm _ _

/-- Witness of C27: with a `context_length` of -5 the three stored turns of
`demoRows`, of total size 7, are all kept. -/
theorem no_budget_no_trimming_witness :
    noBudget demoHost demoBodyNegative.params.context_length = true ∧
      assemble demoHost demoBodyNegative "g".units demoRows = demoTurns :=
  ⟨by decide,
    ((no_budget_no_trimming demoHost demoDb 7 1 demoBodyNegative demoRunJson (by decide)).1
      "g".units demoRows).trans rfl⟩

/-- C28: in every run of the handler, with streaming requested or not, the
steps taken give the writes and the events of the run, and wherever the
terminal event stands among them, the insertion of an assistant turn stands
before it.  So a run whose events contain the terminal event has inserted an
assistant turn. -/
theorem done_only_after_insert (host : Host) (db : Db) (userId convId : Nat) (body : Body)
    (run : Run) :
    ((send host db userId convId body run).writes =
          writesOf (sendSteps host db userId convId body run) ∧
        (send host db userId convId body run).events =
          eventsOf (sendSteps host db userId convId body run)) ∧
      (∀ pre post, sendSteps host db userId convId body run =
          pre ++ Step.emit Event.done :: post →
        ∃ content, Step.write (.insertMessage userId convId "assistant".units content) ∈ pre) ∧
      ((send host db userId convId body run).events.any Event.isDone = true →
        assistantInserts (send host db userId convId body run).writes ≠ []) := by
  have hsteps := send_steps host db userId convId body run
  refine ⟨hsteps, ?_, ?_⟩
  · intro pre post h
    rcases sendSteps_shape host db userId convId body run with hnone | ⟨m, content, hm, hno, hin⟩
    · exact (no_done_position hnone h).elim
    · rw [hm] at h
      obtain ⟨hpre, -⟩ := done_position hno h
      exact ⟨content, hpre ▸ hin⟩
  · intro hdone
    rw [hsteps.2] at hdone
    rw [hsteps.1]
    obtain ⟨ev, hev, hevd⟩ := List.any_eq_true.mp hdone
    have hstep : Step.emit ev ∈ sendSteps host db userId convId body run := by
      simp only [eventsOf, List.mem_filterMap] at hev
      obtain ⟨s, hs, hse⟩ := hev
      cases s with
      | write w => cases hse
      | call c => cases hse
      | emit e' =>
        simp only [Option.some.injEq] at hse
        exact hse ▸ hs
    rcases sendSteps_shape host db userId convId body run with hnone | ⟨m, content, hm, -, hin⟩
    · have := hnone _ hstep
      simp only [Step.isDone] at this
      rw [this] at hevd
      cases hevd
    · have hw : DbWrite.insertMessage userId convId "assistant".units content ∈
          writesOf (sendSteps host db userId convId body run) := by
        simp only [writesOf, List.mem_filterMap]
        exact ⟨_, by rw [hm]; exact List.mem_append_left _ hin, rfl⟩
      intro hnil
      have : content ∈ assistantInserts (writesOf (sendSteps host db userId convId body run)) := by
        simp only [assistantInserts, List.mem_filterMap]
        exact ⟨_, hw, by simp⟩
      rw [hnil] at this
      cases this

/-- Witness of C28: the steps of the run on the stream of `He` and `llo`; the
terminal event is the last one, after the insertion of `Hello`. -/
theorem done_only_after_insert_witness :
    (∃ pre, sendSteps demoHost demoDb 7 1 demoBodyStream demoRunStream =
        pre ++ Step.emit Event.done :: []) ∧
      ∃ content, Step.write (.insertMessage 7 1 "assistant".units content) ∈
        (sendSteps demoHost demoDb 7 1 demoBodyStream demoRunStream).dropLast :=
  ⟨⟨(sendSteps demoHost demoDb 7 1 demoBodyStream demoRunStream).dropLast, rfl⟩,
    (done_only_after_insert demoHost demoDb 7 1 demoBodyStream demoRunStream).2.1
      (sendSteps demoHost demoDb 7 1 demoBodyStream demoRunStream).dropLast [] rfl⟩

/-- C29: for a request whose content, once its angle brackets are removed, is
not empty, on a conversation of the caller, the first step of the handler is
the insertion of a turn of that conversation, made by the caller, with the role
`user` and that text (followed by the list of the attachments when there are
some); the call, if any, comes later.  The history of the conversation after
the run is the stored history, then that turn, then what the run added later.
When the selection of the credential fails the handler answers 400, and when
the upstream refuses the call the handler has nothing more to write: in both
cases the history after the run is the stored history followed by that turn. -/
theorem user_turn_inserted_first (host : Host) (db : Db) (userId convId : Nat) (body : Body)
    (run : Run) (content : Str)
    (hcontent : body.content = some content)
    (hclean : content.filter (fun c => !(c = 60 || c = 62)) ≠ [])
    (hown : ownsConversation db userId convId = true) :
    let text := content.filter (fun c => !(c = 60 || c = 62)) ++
      (if body.images = [] then []
        else " [附图: ".units ++ jsJoin ", ".units body.images ++ "]".units)
    (∃ rest, sendSteps host db userId convId body run =
        Step.write (.insertMessage userId convId "user".units (.str text)) :: rest) ∧
      (∃ later, historyAfter host db (send host db userId convId body run).writes convId =
        history db convId ++ ⟨some convId, "user".units, text⟩ :: later) ∧
      (∀ e, chooseApiKey host db.api_keys userId (some (requestProvider host body.params))
            (if body.params.use_shared then "shared".units else "user".units)
            body.params.key_id body.params.shared_key_id = .error e →
        send host db userId convId body run =
            ⟨[.insertMessage userId convId "user".units (.str text)], [], [],
              .error 400 (if e.isEmpty then "Key selection failed".units else e) none⟩ ∧
          historyAfter host db (send host db userId convId body run).writes convId =
            history db convId ++ [⟨some convId, "user".units, text⟩]) ∧
      (∀ status refusal, run.upstream = .error status refusal →
        (send host db userId convId body run).writes =
            [.insertMessage userId convId "user".units (.str text)] ∧
          historyAfter host db (send host db userId convId body run).writes convId =
            history db convId ++ [⟨some convId, "user".units, text⟩]) := by
  intro text
  have hcl : cleanOf body = content.filter (fun c => !(c = 60 || c = 62)) := by
    simp only [cleanOf, hcontent, stripAngle]
  have hins : userInsert userId convId body =
      .insertMessage userId convId "user".units (.str text) := by
    simp only [userInsert, displayContent_eq, hcl, text]
  have hne : (cleanOf body).isEmpty = false := by
    rw [hcl]
    cases h : content.filter (fun c => !(c = 60 || c = 62)) with
    | nil => exact absurd h hclean
    | cons c cs => rfl
  have hconv : ∃ conv rest, db.conversations.filter (fun c => c.id == convId) = conv :: rest ∧
      conv.user_id = userId := by
    unfold ownsConversation at hown
    split at hown
    · cases hown
    · next conv rest h => exact ⟨conv, rest, h, by simpa using hown⟩
  obtain ⟨conv, rest, hfilter, howner⟩ := hconv
  have hprepare : prepare host db userId convId body =
      match chooseApiKey host db.api_keys userId (some (requestProvider host body.params))
          (if body.params.use_shared then "shared".units else "user".units)
          body.params.key_id body.params.shared_key_id with
      | .error e =>
          .error ⟨[userInsert userId convId body], [], [],
            .error 400 (if e.isEmpty then "Key selection failed".units else e) none⟩
      | .ok apiRow =>
        match parseConfig host apiRow with
        | .null =>
            .error ⟨[userInsert userId convId body], [], [],
              .error 500 "Server error".units none⟩
        | cfg =>
            .ok ⟨endpointOf host cfg, apiRow.api_key,
              buildPayload host body cfg (assemble host body (cleanOf body)
                (rowsAfterInsert db convId (displayContent (cleanOf body) body.images)))⟩ := by
    unfold prepare
    simp only [hne, Bool.false_eq_true, if_false, hfilter, howner, bne_self_eq_false]
  have hprep : (∃ status msg, prepare host db userId convId body =
        .error ⟨[userInsert userId convId body], [], [], .error status msg none⟩) ∨
      ∃ call, prepare host db userId convId body = .ok call := by
    rw [hprepare]
    split
    · exact Or.inl ⟨_, _, rfl⟩
    · split
      · exact Or.inl ⟨_, _, rfl⟩
      · exact Or.inr ⟨_, rfl⟩
  have hwrites : ∃ ws, (send host db userId convId body run).writes =
      .insertMessage userId convId "user".units (.str text) :: ws := by
    rw [(send_steps host db userId convId body run).1, ← hins]
    unfold sendSteps
    rcases hprep with ⟨st, m, h⟩ | ⟨call, h⟩
    · rw [h]
      exact ⟨[], rfl⟩
    · rw [h]
      exact ⟨_, rfl⟩
  refine ⟨?_, ?_, ?_, ?_⟩
  · rw [← hins]
    unfold sendSteps
    rcases hprep with ⟨st, m, h⟩ | ⟨call, h⟩
    · rw [h]
      exact ⟨_, rfl⟩
    · rw [h]
      exact ⟨_, rfl⟩
  · obtain ⟨ws, hws⟩ := hwrites
    rw [hws]
    exact historyAfter_insert host db userId convId "user".units text ws
  · intro e he
    have hsend : send host db userId convId body run =
        ⟨[.insertMessage userId convId "user".units (.str text)], [], [],
          .error 400 (if e.isEmpty then "Key selection failed".units else e) none⟩ := by
      unfold send
      rw [hprepare, he, hins]
    refine ⟨hsend, ?_⟩
    rw [hsend]
    exact historyAfter_single host db userId convId "user".units text
  · intro status refusal hup
    have hw : (send host db userId convId body run).writes =
        [.insertMessage userId convId "user".units (.str text)] := by
      rw [← hins]
      unfold send
      rcases hprep with ⟨st, m, h⟩ | ⟨call, h⟩
      · rw [h]
      · rw [h]
        simp only []
        rw [consume_error host userId convId run _ _ _ status refusal hup]
    refine ⟨hw, ?_⟩
    rw [hw]
    exact historyAfter_single host db userId convId "user".units text

/-- Witness of C29: user 7 sends `<b>hi` with one attachment in conversation 1,
which holds two turns, and has no credential; then user 7 sends `hello` and the
upstream refuses the call with status 429.  The history after each run ends
with the new user turn. -/
theorem user_turn_inserted_first_witness :
    (send demoHost ⟨demoDbHistory.conversations, demoDbHistory.messages, []⟩ 7 1
          { content := some "<b>hi".units, images := ["/uploads/a.png".units] }
          demoRunJson).writes =
        [.insertMessage 7 1 "user".units (.str "bhi [附图: /uploads/a.png]".units)] ∧
      historyAfter demoHost ⟨demoDbHistory.conversations, demoDbHistory.messages, []⟩
          (send demoHost ⟨demoDbHistory.conversations, demoDbHistory.messages, []⟩ 7 1
            { content := some "<b>hi".units, images := ["/uploads/a.png".units] }
            demoRunJson).writes 1 =
        [⟨some 1, "user".units, "hi".units⟩, ⟨some 1, "assistant".units, "yo".units⟩,
          ⟨some 1, "user".units, "bhi [附图: /uploads/a.png]".units⟩] ∧
      (send demoHost demoDb 7 1 demoBodyPlain demoRunError429).writes =
        [.insertMessage 7 1 "user".units (.str "hello".units)] ∧
      historyAfter demoHost demoDb
          (send demoHost demoDb 7 1 demoBodyPlain demoRunError429).writes 1 =
        [⟨some 1, "user".units, "hello".units⟩] :=
  have h₁ := (user_turn_inserted_first demoHost
    ⟨demoDbHistory.conversations, demoDbHistory.messages, []⟩ 7 1
    { content := some "<b>hi".units, images := ["/uploads/a.png".units] } demoRunJson
    "<b>hi".units rfl (by decide) (by decide)).2.2.1
    "No API key. Please add in profile.".units rfl
  have h₂ := (user_turn_inserted_first demoHost demoDb 7 1 demoBodyPlain demoRunError429
    "hello".units rfl (by decide) (by decide)).2.2.2 429 "rate limited".units rfl
  ⟨(congrArg Outcome.writes h₁.1).trans rfl, h₁.2.trans rfl, h₂.1.trans rfl,
    h₂.2.trans rfl⟩

/-- C30: when the text of an upstream event stream, read to its end while the
caller stayed connected, is a sequence of frames followed by a final frame that
no blank line terminates, the outcome of the send is the outcome for the text
without that final frame.  The fragments forwarded are those of the terminated
frames and the persisted reply is their concatenation: what the final frame
carries is neither forwarded nor persisted. -/
theorem unterminated_final_frame_discarded (host : Host) (db : Db) (userId convId : Nat)
    (body : Body) (run : Run) (ct : Option Str) (reads₁ reads₂ : List Read)
    (frames : List Str) (tail : Str)
    (hstream : body.params.stream = true)
    (hsse : jsIncludes "text/event-stream".units (ct.getD []) = true)
    (hq₁ : ∀ r ∈ reads₁, r.closedDuring = false)
    (hq₂ : ∀ r ∈ reads₂, r.closedDuring = false)
    (hframes : ∀ f ∈ frames, isFrame f = true)
    (htail : noBlankLine tail = true)
    (h₁ : textOf reads₁ = framesText frames ++ tail)
    (h₂ : textOf reads₂ = framesText frames) :
    send host db userId convId body { run with upstream := .ok ct reads₁ false } =
        send host db userId convId body { run with upstream := .ok ct reads₂ false } ∧
      ((send host db userId convId body { run with upstream := .ok ct reads₁ false }).calls ≠ [] →
        deltaPayloads
            (send host db userId convId body { run with upstream := .ok ct reads₁ false }).events =
          frames.flatMap (frameTokens host) ∧
        assistantInserts
            (send host db userId convId body { run with upstream := .ok ct reads₁ false }).writes =
          [.str (concatText host (frames.flatMap (frameTokens host)))]) := by
  have htok₁ : streamTokens host (textOf reads₁) = frames.flatMap (frameTokens host) := by
    rw [h₁, streamTokens_frames host frames tail hframes, streamTokens_noBlank host tail htail,
      List.append_nil]
  have htok₂ : streamTokens host (textOf reads₂) = frames.flatMap (frameTokens host) := by
    rw [h₂, streamTokens_framesText host frames hframes]
  refine ⟨send_sse_congr host db userId convId body run ct reads₁ reads₂ hstream hsse hq₁ hq₂
    (htok₁.trans htok₂.symm), ?_⟩
  rw [send_sse_quiet host db userId convId body run ct reads₁ hstream hsse hq₁, htok₁]
  cases hp : prepare host db userId convId body with
  | error answered =>
    rcases prepare_cases host db userId convId body with ⟨ws, st, m, -, heq⟩ | ⟨c, -, -, heq⟩
    · rw [hp] at heq
      cases heq
      intro h
      exact absurd rfl h
    · rw [hp] at heq
      cases heq
  | ok call =>
    intro _
    simp only []
    have hfin := finish_open userId convId run true
      (.str (concatText host (frames.flatMap (frameTokens host))))
      [userInsert userId convId body] [call] ((frames.flatMap (frameTokens host)).map Event.delta)
    constructor
    · rcases hfin.2 with h | h
      · rw [h, deltaPayloads_map]
      · rw [h, deltaPayloads_append, deltaPayloads_map, deltaPayloads_done, List.append_nil]
    · rw [hfin.1, List.singleton_append, assistantInserts_user]
      rfl

/-- Witness of C30: the frame of `He` is terminated and the frame of `llo` is
not; only `He` is forwarded and persisted. -/
theorem unterminated_final_frame_discarded_witness :
    frameTokens demoHost demoFrameLlo = [.str "llo".units] ∧
      deltaPayloads (send demoHost demoDb 7 1 demoBodyStream
          { upstream := .ok (some "text/event-stream".units)
              [Read.quiet (framesText [demoFrameHe] ++ demoFrameLlo)] false }).events =
        [.str "He".units] ∧
      assistantInserts (send demoHost demoDb 7 1 demoBodyStream
          { upstream := .ok (some "text/event-stream".units)
              [Read.quiet (framesText [demoFrameHe] ++ demoFrameLlo)] false }).writes =
        [.str "He".units] :=
  ⟨rfl,
    (unterminated_final_frame_discarded demoHost demoDb 7 1 demoBodyStream
      { upstream := .failed } (some "text/event-stream".units)
      [Read.quiet (framesText [demoFrameHe] ++ demoFrameLlo)]
      [Read.quiet (framesText [demoFrameHe])] [demoFrameHe] demoFrameLlo
      rfl (by decide) (by decide) (by decide) (by decide) (by decide) rfl rfl).2
      (List.ne_nil_of_length_pos (by decide))⟩

end AAAchat
